import Mathlib

/-!
Reflect: a shallow embedding of the type-erased container and the resolution pipeline.

The C++ sources under `src/reflect` are embedded as pure functions over an explicit
memory.  A non-null pointer is an address, a natural number; a null pointer is `none`;
the identity of a `TypeDescriptor` is a `TypeId`; every operation that C++ leaves
undefined (reading through a null or dangling pointer) yields `none`.  An exception
thrown by the source is an `Except.error` carried next to the memory reached at the
throw.  Native constructors, functions and conversions are parameters of the model.

The statics behind type identity (`Details::Resolve`, the name registry) are embedded as
a state of their own, with the address of a descriptor given by the instantiation of
`Details::GetTypeDescriptor` it is the static of.  The recursive searches and listings of
members take a fuel that bounds the depth of the recursion; a call that returns for no
fuel does not terminate.  The pointer that `TypeTraits` and the default constructor
construct in a container's buffer is recorded in the memory next to the objects.  The
layout of the classes, which field a base subobject starts at, is a parameter of the
program; the code never looks at it, and the statements about members do.

Definitions come first, theorems after them.
-/

namespace Reflect

/-! ## Memory -/

/-- The identity of a type: the address of its unique `TypeDescriptor`
(`Details::GetTypeDescriptor<RawType<T>>`). -/
abbrev TypeId := Nat

/-- Native values.  A scalar carries its payload; a class instance carries its fields in
declaration order (the fields of a base class come first). -/
inductive Val where
  | num (n : Int)
  | obj (fields : List Val)
  deriving Repr, Inhabited

/-- Observable events, kept as a ghost trace: heap allocation and release, the run of a
destructor of a held object, and the execution of a native constructor or function. -/
inductive Event where
  | alloc (a : Nat)
  | free (a : Nat)
  | destroy (a : Nat)
  | native
  deriving Repr, DecidableEq

/-- The memory: the live objects by address, the next unused address, the trace, and for
every inline buffer the pointer that was last constructed in it (`some none` for a null
pointer, `none` when no pointer was constructed there). -/
structure Mem where
  cells : Nat → Option Val
  next : Nat
  log : List Event
  slots : Nat → Option (Option Nat) := fun _ => none

/-- Reserve one address (a stack slot, a container's inline buffer, a heap block). -/
def Mem.fresh (m : Mem) : Mem × Nat :=
  ({ m with next := m.next + 1 }, m.next)

/-- Construct or overwrite the object at `a`. -/
def Mem.store (m : Mem) (a : Nat) (v : Val) : Mem :=
  { m with cells := Function.update m.cells a (some v) }

/-- End the lifetime of the object at `a`. -/
def Mem.kill (m : Mem) (a : Nat) : Mem :=
  { m with cells := Function.update m.cells a none }

/-- Append an event to the trace. -/
def Mem.emit (m : Mem) (e : Event) : Mem :=
  { m with log := m.log ++ [e] }

/-- Construct the pointer `p` in the buffer at `storage`: `new(storage) T*(p)`. -/
def Mem.bind (m : Mem) (storage : Nat) (p : Option Nat) : Mem :=
  { m with slots := Function.update m.slots storage (some p) }

/-- Read through a possibly null pointer; `none` when null or dangling. -/
def Mem.deref (m : Mem) (p : Option Nat) : Option Val :=
  match p with
  | none => none
  | some a => m.cells a

/-! ## Any.hpp: `BasicAny<SIZE>::TypeTraits<T>` -/

/-- Which specialisation of `TypeTraits<T>` a captured operation belongs to:
`inl` when `sizeof(T) <= SIZE` (Any.hpp 178-209), `heap` otherwise (Any.hpp 144-176). -/
inductive TypeTraits where
  | inl
  | heap
  deriving Repr, DecidableEq

/-- `TypeTraits<T>::New(storage, args...)`: placement-new into the buffer, or `new T` with
the pointer written into the buffer. -/
def TypeTraits.New (tr : TypeTraits) (m : Mem) (storage : Nat) (v : Val) : Mem × Nat :=
  match tr with
  | .inl => (m.store storage v, storage)
  | .heap =>
    let (m1, a) := m.fresh
    (((m1.emit (.alloc a)).store a v).bind storage (some a), a)

/-- `TypeTraits<T>::Copy(to, from)`. -/
def TypeTraits.Copy (tr : TypeTraits) (m : Mem) (dst : Nat) (src : Option Nat) :
    Option (Mem × Nat) :=
  match m.deref src with
  | none => none
  | some v =>
    match tr with
    | .inl => some (m.store dst v, dst)
    | .heap =>
      let (m1, a) := m.fresh
      some (((m1.emit (.alloc a)).store a v).bind dst (some a), a)

/-- `TypeTraits<T>::Move(to, from)`: the inline version move-constructs into `to` and
runs the destructor of the source object (`instance.~T()`, Any.hpp 200); the heap version
only hands the pointer over. -/
def TypeTraits.Move (tr : TypeTraits) (m : Mem) (dst : Nat) (src : Option Nat) :
    Option (Mem × Option Nat) :=
  match tr with
  | .inl =>
    match src with
    | none => none
    | some a =>
      match m.cells a with
      | none => none
      | some v => some (((m.store dst v).kill a).emit (.destroy a), some dst)
  | .heap => some (m.bind dst src, src)

/-- `TypeTraits<T>::Destroy(instance)`: `instance->~T()` inline, `delete instance` on the
heap (`delete` of a null pointer does nothing). -/
def TypeTraits.Destroy (tr : TypeTraits) (m : Mem) (inst : Option Nat) : Option Mem :=
  match inst with
  | none =>
    match tr with
    | .inl => none
    | .heap => some m
  | some a =>
    match m.cells a with
    | none => none
    | some _ =>
      match tr with
      | .inl => some ((m.kill a).emit (.destroy a))
      | .heap => some (((m.kill a).emit (.destroy a)).emit (.free a))

/-! ## Any.hpp: `AnyRef` and `BasicAny` -/

/-- `AnyRef` (Any.hpp 57-73): a pointer to an object and its type, no lifetime management. -/
structure AnyRef where
  mInstance : Option Nat
  mType : Option TypeId
  deriving Repr, DecidableEq

/-- `BasicAny<SIZE>` (Any.hpp 130-142).  `mStorage` is the address of the container's own
inline buffer; the three captured operations are null (`none`) or point into one
`TypeTraits<T>`. -/
structure BasicAny where
  mInstance : Option Nat
  mStorage : Nat
  mType : Option TypeId
  mCopy : Option TypeTraits
  mMove : Option TypeTraits
  mDestroy : Option TypeTraits
  deriving Repr, DecidableEq

/-- `AnyRef::AnyRef()`. -/
def AnyRef.ctorDefault : AnyRef :=
  { mInstance := none, mType := none }

/-- `AnyRef::AnyRef(T &object)`: the address of the object and `Resolve<remove_cv_t<T>>()`. -/
def AnyRef.ctorObject (object : Nat) (U : TypeId) : AnyRef :=
  { mInstance := some object, mType := some U }

/-- `AnyRef::AnyRef(BasicAny<SIZE> &any)`. -/
def AnyRef.ctorAny (any : BasicAny) : AnyRef :=
  { mInstance := any.mInstance, mType := any.mType }

/-- `BasicAny::Get`. -/
def BasicAny.Get (self : BasicAny) : Option Nat := self.mInstance

/-- `BasicAny::operator bool`: `Get() != nullptr`. -/
def BasicAny.toBool (self : BasicAny) : Bool := self.Get.isSome

/-- `BasicAny::GetType`. -/
def BasicAny.GetType (self : BasicAny) : Option TypeId := self.mType

/-- `BasicAny::IsRef`: `mCopy == nullptr`. -/
def BasicAny.IsRef (self : BasicAny) : Bool := self.mCopy.isNone

/-- `BasicAny::BasicAny()` (Any.hpp 212-216).  The new container's buffer gets a fresh
address. -/
def BasicAny.ctorDefault (m : Mem) : Mem × BasicAny :=
  let (m1, s) := m.fresh
  (m1.bind s none,
    { mInstance := none, mStorage := s, mType := none,
      mCopy := none, mMove := none, mDestroy := none })

/-- `BasicAny::BasicAny(const BasicAny &other)` (Any.hpp 225-229). -/
def BasicAny.ctorCopy (m : Mem) (other : BasicAny) : Option (Mem × BasicAny) :=
  let (m1, s) := m.fresh
  match other.mCopy with
  | some cp =>
    match cp.Copy m1 s other.mInstance with
    | none => none
    | some (m2, inst) =>
      some (m2, { mInstance := some inst, mStorage := s, mType := other.mType,
                  mCopy := other.mCopy, mMove := other.mMove, mDestroy := other.mDestroy })
  | none =>
    some (m1, { mInstance := other.mInstance, mStorage := s, mType := other.mType,
                mCopy := other.mCopy, mMove := other.mMove, mDestroy := other.mDestroy })

/-- `BasicAny::BasicAny(BasicAny &&other)` (Any.hpp 231-241).  Returns the new container
and the moved-from `other`. -/
def BasicAny.ctorMove (m : Mem) (other : BasicAny) : Option (Mem × BasicAny × BasicAny) :=
  let (m1, s) := m.fresh
  match other.mMove with
  | some mv =>
    match mv.Move m1 s other.mInstance with
    | none => none
    | some (m2, inst) =>
      some (m2, { mInstance := inst, mStorage := s, mType := other.mType,
                  mCopy := other.mCopy, mMove := other.mMove, mDestroy := other.mDestroy },
            { other with mDestroy := none })
  | none =>
    some (m1, { mInstance := other.mInstance, mStorage := s, mType := other.mType,
                mCopy := other.mCopy, mMove := other.mMove, mDestroy := other.mDestroy },
          other)

/-- `BasicAny::BasicAny(AnyRef handle)` (Any.hpp 243-248). -/
def BasicAny.ctorRef (m : Mem) (handle : AnyRef) : Mem × BasicAny :=
  let (m1, self) := BasicAny.ctorDefault m
  (m1, { self with mInstance := handle.mInstance, mType := handle.mType })

/-- `BasicAny::~BasicAny()` (Any.hpp 250-255). -/
def BasicAny.dtor (m : Mem) (self : BasicAny) : Option Mem :=
  match self.mDestroy with
  | some d => d.Destroy m self.mInstance
  | none => some m

/-- `BasicAny::Swap` (Any.hpp 289-325).  Returns the two containers after the call,
`*this` first. -/
def BasicAny.Swap (m : Mem) (self other : BasicAny) : Option (Mem × BasicAny × BasicAny) :=
  let r : Option (Mem × Option Nat × Option Nat) :=
    match self.mMove, other.mMove with
    | some mv, some omv =>
      let (m0, temp) := m.fresh
      match mv.Move m0 temp self.mInstance with
      | none => none
      | some (m1, instanceTemp) =>
        match omv.Move m1 self.mStorage other.mInstance with
        | none => none
        | some (m2, i1) =>
          match mv.Move m2 other.mStorage instanceTemp with
          | none => none
          | some (m3, i2) => some (m3, i1, i2)
    | some mv, none =>
      match mv.Move m other.mStorage self.mInstance with
      | none => none
      | some (m1, i2) => some (m1, self.mInstance, i2)
    | none, some omv =>
      match omv.Move m self.mStorage other.mInstance with
      | none => none
      | some (m1, i1) => some (m1, i1, other.mInstance)
    | none, none => some (m, other.mInstance, other.mInstance)
  match r with
  | none => none
  | some (m1, i1, i2) =>
    some (m1,
      { mInstance := i1, mStorage := self.mStorage, mType := other.mType,
        mCopy := other.mCopy, mMove := other.mMove, mDestroy := other.mDestroy },
      { mInstance := i2, mStorage := other.mStorage, mType := self.mType,
        mCopy := self.mCopy, mMove := self.mMove, mDestroy := self.mDestroy })

/-- `BasicAny::operator=(BasicAny &&other)` (Any.hpp 280-287): `temp` is move-constructed
from `other`, swapped with `*this` and destroyed on return.  Returns `*this` and the
moved-from `other`. -/
def BasicAny.assignMove (m : Mem) (self other : BasicAny) :
    Option (Mem × BasicAny × BasicAny) :=
  match BasicAny.ctorMove m other with
  | none => none
  | some (m1, temp, other1) =>
    match BasicAny.Swap m1 self temp with
    | none => none
    | some (m2, self1, temp1) =>
      match BasicAny.dtor m2 temp1 with
      | none => none
      | some m3 => some (m3, self1, other1)

/-- `BasicAny::operator=(const BasicAny &other)` (Any.hpp 269-278):
`*this = BasicAny(other)`, the temporary being destroyed afterwards. -/
def BasicAny.assignCopy (m : Mem) (self other : BasicAny) : Option (Mem × BasicAny) :=
  match BasicAny.ctorCopy m other with
  | none => none
  | some (m1, t) =>
    match BasicAny.assignMove m1 self t with
    | none => none
    | some (m2, self1, t1) =>
      match BasicAny.dtor m2 t1 with
      | none => none
      | some m3 => some (m3, self1)

/-! ## TypeDescriptor.hpp, Base.hpp, Conversion.hpp -/

/-- `Base` (Base.hpp 9-23): an edge from the derived type `mParent` to the base `mType`. -/
structure Base where
  mParent : TypeId
  mType : TypeId
  deriving Repr, DecidableEq

/-- `Base::GetType`. -/
def Base.GetType (b : Base) : TypeId := b.mType

/-- `BaseImpl<B, D>::Cast` (Base.hpp 25-35): `static_cast<B*>(object)` applied to a
`void*`, which keeps the address, wherever the subobject of `B` lies in a `D` object. -/
def Base.Cast (_b : Base) (object : Option Nat) : Option Nat := object

/-- `Conversion` (Conversion.hpp 10-25). -/
structure Conversion where
  mFromType : TypeId
  mToType : TypeId
  deriving Repr, DecidableEq

/-- `Conversion::GetToType`. -/
def Conversion.GetToType (c : Conversion) : TypeId := c.mToType

/-- `Constructor` with `ConstructorImpl<Type, Args...>` or `FreeFunConstructor`
(Constructor.hpp 30-138): `native` is `Type(args...)`, respectively `mCtorFun(args...)`. -/
structure Constructor where
  mParent : TypeId
  mParamTypes : List TypeId
  native : List Val → Val

/-- The native function behind a `Function`, by the category of its return type `Ret`:
`void`, a value, or a reference (`std::is_reference_v<Ret>`) to an object, of which
`AnyRef(T&)` takes the address.  The container and the handle are apart, because the
library's own constructors take them.  For `Ret = Any` the converting constructor is
disabled (Any.hpp 93) and `return f(...)` hands back the container the function returns
(`retAny`).  For `Ret = AnyRef`, and for a reference to an `AnyRef`, which `AnyRef(...)`
copies, `BasicAny(AnyRef)` makes an alias of what the handle refers to (Any.hpp 243-248,
`retHandle`).  For a reference to an `Any`, `AnyRef(BasicAny<SIZE>&)` reads the pointer
and the type of the container referred to (Any.hpp 67-68, `retRefToAny`).  The function
receives the memory, the receiver pointer (`none` for a free function) and the argument
pointers. -/
inductive NativeFun where
  | retVoid (f : Mem → Option Nat → List Nat → Mem)
  | retValue (f : Mem → Option Nat → List Nat → Mem × Val)
  | retRef (f : Mem → Option Nat → List Nat → Mem × Nat)
  | retAny (f : Mem → Option Nat → List Nat → Mem × BasicAny)
  | retHandle (f : Mem → Option Nat → List Nat → Mem × AnyRef)
  | retRefToAny (f : Mem → Option Nat → List Nat → Mem × BasicAny)

/-- `Function` with its five implementations (Function.hpp 13-247).  `mParent` is null for
`FreeFunction` and `Resolve<C>()` for `MemberFunction` and `ConstMemberFunction`. -/
structure Function where
  mName : String
  mParent : Option TypeId
  mReturnType : TypeId
  mParamTypes : List TypeId
  native : NativeFun

/-- The two implementations of `DataMember` (DataMember.hpp 31-186):
`PtrDataMember<Class, Type>` holds a pointer to member, here the index of the field, and
`std::is_const<Type>`; `SetGetDataMember<Setter, Getter, Class>` holds two native
functions, `setter obj x` giving the object after `Setter(obj, x)`. -/
inductive DataMemberImpl where
  | ptr (mDataMemberPtr : Nat) (isConst : Bool)
  | setGet (setter : Val → Val → Val) (getter : Val → Val)

/-- `DataMember` (DataMember.hpp 11-29): `mType` is the member's type, `mParent` the
class of the member. -/
structure DataMember where
  mName : String
  mType : TypeId
  mParent : TypeId
  impl : DataMemberImpl

/-- `TypeDescriptor` (TypeDescriptor.hpp 37-120), without the category flags. -/
structure TypeDescriptor where
  mName : String
  mBases : List Base
  mConversions : List Conversion
  mConstructors : List Constructor
  mDataMembers : List DataMember
  mMemberFunctions : List Function

/-- `TypeDescriptor::GetName`. -/
def TypeDescriptor.GetName (d : TypeDescriptor) : String := d.mName

/-- `TypeDescriptor::GetBases`. -/
def TypeDescriptor.GetBases (d : TypeDescriptor) : List Base := d.mBases

/-- `TypeDescriptor::GetConversions`. -/
def TypeDescriptor.GetConversions (d : TypeDescriptor) : List Conversion := d.mConversions

/-- What the program fixes statically: the inline capacity `SIZE` of `BasicAny<SIZE>`,
`sizeof`, the native `static_cast<To>(const From&)`, the descriptor behind every type
identity (`Details::Resolve<T>()` creates a blank one on first use, so the table is total),
and the layout of its classes: the number of fields of an object of a class (those of its
bases included), and for a class `D` and a base `B` of `D` the index of the field of a `D`
object at which the subobject of `B` starts. -/
structure World where
  SIZE : Nat
  sizeOf : TypeId → Nat
  staticCast : TypeId → TypeId → Val → Val
  desc : TypeId → TypeDescriptor
  numFields : TypeId → Nat
  baseOffset : TypeId → TypeId → Nat

/-- The specialisation `TypeTraits<U>` selected by `sizeof(U) <= SIZE` (Any.hpp 179). -/
def World.traits (w : World) (U : TypeId) : TypeTraits :=
  if w.sizeOf U ≤ w.SIZE then .inl else .heap

/-- `BasicAny::BasicAny(T &&object)` (Any.hpp 218-223) with `U` the decayed type of the
value `v`. -/
def BasicAny.ctorValue (w : World) (m : Mem) (U : TypeId) (v : Val) : Mem × BasicAny :=
  let (m1, s) := m.fresh
  let (m2, inst) := (w.traits U).New m1 s v
  (m2, { mInstance := some inst, mStorage := s, mType := some U,
         mCopy := some (w.traits U), mMove := some (w.traits U),
         mDestroy := some (w.traits U) })

/-- `BasicAny::TryCast<T>` (Any.hpp 346-367).  The outer `none` is the dereference of a
null `mType`; the loop over the bases does not stop at the first match. -/
def BasicAny.TryCast (w : World) (self : BasicAny) (T : TypeId) : Option (Option Nat) :=
  if !self.toBool then some none
  else
    match self.mType with
    | none => none
    | some S =>
      if T = S then some self.mInstance
      else
        some ((w.desc S).GetBases.foldl
          (fun casted base => if base.GetType = T then base.Cast self.mInstance else casted)
          none)

/-- `ConversionImpl<From, To>::Convert` (Conversion.hpp 27-38): a new container built from
`static_cast<To>(*static_cast<const From*>(object))`. -/
def Conversion.Convert (w : World) (c : Conversion) (m : Mem) (object : Option Nat) :
    Option (Mem × BasicAny) :=
  match m.deref object with
  | none => none
  | some v => some (BasicAny.ctorValue w m c.mToType (w.staticCast c.mFromType c.mToType v))

/-- The loop of `TryConvert` (Any.hpp 390-392): every matching edge move-assigns its
result to `converted`; the temporary is destroyed at the end of the statement. -/
def BasicAny.convertLoop (w : World) (T : TypeId) (inst : Option Nat) :
    List Conversion → Mem → BasicAny → Option (Mem × BasicAny)
  | [], m, converted => some (m, converted)
  | c :: cs, m, converted =>
    if c.GetToType = T then
      match c.Convert w m inst with
      | none => none
      | some (m1, tmp) =>
        match BasicAny.assignMove m1 converted tmp with
        | none => none
        | some (m2, converted1, tmp1) =>
          match BasicAny.dtor m2 tmp1 with
          | none => none
          | some m3 => BasicAny.convertLoop w T inst cs m3 converted1
    else BasicAny.convertLoop w T inst cs m converted

/-- `BasicAny::TryConvert<T>` (Any.hpp 377-396); `converted` is returned in place. -/
def BasicAny.TryConvert (w : World) (m : Mem) (self : BasicAny) (T : TypeId) :
    Option (Mem × BasicAny) :=
  let (m1, converted) := BasicAny.ctorDefault m
  if !self.toBool then some (m1, converted)
  else
    match self.mType with
    | none => none
    | some S =>
      if T = S then BasicAny.assignCopy m1 converted self
      else BasicAny.convertLoop w T self.mInstance (w.desc S).GetConversions m1 converted

/-! ## Constructor.hpp, Function.hpp: the argument resolution lines -/

/-- First and third line of every `NewInstanceImpl` and `InvokeImpl`
(Constructor.hpp 99 and 101, Function.hpp 86 and 88): `args[indices].TryCast<Args>()...`.
An index past the end of `args` is out of bounds. -/
def castAll (w : World) : List BasicAny → List TypeId → Option (List (Option Nat))
  | _, [] => some []
  | [], _ :: _ => none
  | a :: as, P :: Ps =>
    match a.TryCast w P with
    | none => none
    | some p =>
      match castAll w as Ps with
      | none => none
      | some ps => some (p :: ps)

/-- Second line (Constructor.hpp 100, Function.hpp 87): the vector `convertedArgs`, whose
element is `AnyRef(*ptr)` turned into a container when the cast gave `ptr`, and
`args[indices].TryConvert<Args>()` otherwise; elements are built from left to right and
kept as built. -/
def convertAll (w : World) :
    Mem → List BasicAny → List TypeId → List (Option Nat) → Option (Mem × List BasicAny)
  | m, _, [], _ => some (m, [])
  | m, a :: as, P :: Ps, p :: ps =>
    let first : Option (Mem × BasicAny) :=
      match p with
      | some ptr => some (BasicAny.ctorRef m (AnyRef.ctorObject ptr P))
      | none => a.TryConvert w m P
    match first with
    | none => none
    | some (m1, c) =>
      match convertAll w m1 as Ps ps with
      | none => none
      | some (m2, cs) => some (m2, c :: cs)
  | _, _, _ :: _, _ => none

/-- The three lines together: the memory after them, `convertedArgs`, and the final
`argsTuple`. -/
def resolveArguments (w : World) (m : Mem) (args : List BasicAny) (params : List TypeId) :
    Option (Mem × List BasicAny × List (Option Nat)) :=
  match castAll w args params with
  | none => none
  | some argsTuple =>
    match convertAll w m args params argsTuple with
    | none => none
    | some (m1, convertedArgs) =>
      match castAll w convertedArgs params with
      | none => none
      | some argsTuple1 => some (m1, convertedArgs, argsTuple1)

/-- Destruction of a `std::vector<Any>`: every element's destructor, in order. -/
def dtorAll : Mem → List BasicAny → Option Mem
  | m, [] => some m
  | m, a :: as =>
    match BasicAny.dtor m a with
    | none => none
    | some m1 => dtorAll m1 as

/-- The fold `(std::get<indices>(argsTuple) && ...)`. -/
def allValid (argsTuple : List (Option Nat)) : Bool := argsTuple.all Option.isSome

/-- The pack `*std::get<indices>(argsTuple)...` read as values; `none` on a null or
dangling pointer. -/
def derefAll (m : Mem) : List (Option Nat) → Option (List Val)
  | [] => some []
  | p :: ps =>
    match m.deref p with
    | none => none
    | some v =>
      match derefAll m ps with
      | none => none
      | some vs => some (v :: vs)

/-- An argument of a variadic `NewInstance(Args&&...)` or `Invoke(AnyRef, Args&&...)` as
`Any(std::forward<Args>(args))` sees it: a native value of decayed type `U`, a container
lvalue (copied), or a non-owning reference. -/
inductive Arg where
  | value (U : TypeId) (v : Val)
  | any (a : BasicAny)
  | ref (r : AnyRef)

/-- The vector `{ Any(std::forward<Args>(args))... }` (Constructor.hpp 46,
Function.hpp 24); elements are built from left to right and kept as built, the copy from
the initializer list into the vector not being followed. -/
def buildArgs (w : World) : Mem → List Arg → Option (Mem × List BasicAny)
  | m, [] => some (m, [])
  | m, x :: xs =>
    let first : Option (Mem × BasicAny) :=
      match x with
      | .value U v => some (BasicAny.ctorValue w m U v)
      | .any a => BasicAny.ctorCopy m a
      | .ref r => some (BasicAny.ctorRef m r)
    match first with
    | none => none
    | some (m1, c) =>
      match buildArgs w m1 xs with
      | none => none
      | some (m2, cs) => some (m2, c :: cs)

/-! ## Constructor.hpp -/

/-- `ConstructorImpl::NewInstanceImpl` and `FreeFunConstructor::NewInstanceImpl`
(Constructor.hpp 96-107, 124-135); `convertedArgs` is destroyed on return. -/
def Constructor.NewInstanceImpl (w : World) (c : Constructor) (m : Mem)
    (args : List BasicAny) : Option (Mem × BasicAny) :=
  match resolveArguments w m args c.mParamTypes with
  | none => none
  | some (m1, convertedArgs, argsTuple) =>
    let result : Option (Mem × BasicAny) :=
      if allValid argsTuple then
        match derefAll m1 argsTuple with
        | none => none
        | some vs => some (BasicAny.ctorValue w (m1.emit .native) c.mParent (c.native vs))
      else some (BasicAny.ctorDefault m1)
    match result with
    | none => none
    | some (m2, r) =>
      match dtorAll m2 convertedArgs with
      | none => none
      | some m3 => some (m3, r)

/-- `Constructor::NewInstance(std::vector<Any> &args)` (Constructor.hpp 33-39). -/
def Constructor.NewInstance (w : World) (c : Constructor) (m : Mem) (args : List BasicAny) :
    Option (Mem × BasicAny) :=
  if args.length = c.mParamTypes.length then c.NewInstanceImpl w m args
  else some (BasicAny.ctorDefault m)

/-- `Constructor::NewInstance(Args&&... args)` (Constructor.hpp 41-51); the local vector
`argsAny` is destroyed on return. -/
def Constructor.NewInstanceV (w : World) (c : Constructor) (m : Mem) (args : List Arg) :
    Option (Mem × BasicAny) :=
  if args.length = c.mParamTypes.length then
    match buildArgs w m args with
    | none => none
    | some (m1, argsAny) =>
      match c.NewInstanceImpl w m1 argsAny with
      | none => none
      | some (m2, r) =>
        match dtorAll m2 argsAny with
        | none => none
        | some m3 => some (m3, r)
  else some (BasicAny.ctorDefault m)

/-! ## Function.hpp -/

/-- The guarded tail of the five `InvokeImpl` (Function.hpp 90-96, 127-130, 160-166,
197-200, 230-243) once the guard holds: the native call and the wrapping of its result
(`Any()` for `void`, `AnyRef(...)` for a reference, the returned container itself for
`Any`, an alias of what the returned handle refers to for `AnyRef`, an alias of what the
container referred to holds for a reference to an `Any`, a container of the value
otherwise). -/
def Function.call (w : World) (f : Function) (m : Mem) (obj : Option Nat)
    (ptrs : List Nat) : Mem × BasicAny :=
  match f.native with
  | .retVoid g => BasicAny.ctorDefault (g (m.emit .native) obj ptrs)
  | .retValue g =>
    let (m1, v) := g (m.emit .native) obj ptrs
    BasicAny.ctorValue w m1 f.mReturnType v
  | .retRef g =>
    let (m1, a) := g (m.emit .native) obj ptrs
    BasicAny.ctorRef m1 (AnyRef.ctorObject a f.mReturnType)
  | .retAny g => g (m.emit .native) obj ptrs
  | .retHandle g =>
    let (m1, handle) := g (m.emit .native) obj ptrs
    BasicAny.ctorRef m1 handle
  | .retRefToAny g =>
    let (m1, any) := g (m.emit .native) obj ptrs
    BasicAny.ctorRef m1 (AnyRef.ctorAny any)

/-- `InvokeImpl(Any object, std::vector<Any> &args)` of `FreeFunction`, `MemberFunction`
and `ConstMemberFunction` (Function.hpp 83-97, 120-131, 153-167, 190-201, 223-244).  A
free function ignores `object`; a member function casts it to its class. -/
def Function.InvokeImpl (w : World) (f : Function) (m : Mem) (object : BasicAny)
    (args : List BasicAny) : Option (Mem × BasicAny) :=
  match resolveArguments w m args f.mParamTypes with
  | none => none
  | some (m1, convertedArgs, argsTuple) =>
    let receiver : Option (Option Nat) :=
      match f.mParent with
      | none => some none
      | some C => object.TryCast w C
    match receiver with
    | none => none
    | some obj =>
      let (m2, r) :=
        if allValid argsTuple && (f.mParent.isNone || obj.isSome) then
          f.call w m1 obj (argsTuple.filterMap id)
        else BasicAny.ctorDefault m1
      match dtorAll m2 convertedArgs with
      | none => none
      | some m3 => some (m3, r)

/-- `Function::Invoke(AnyRef object, Args&&... args)` (Function.hpp 19-30); the by-value
parameter of `InvokeImpl` and the local vector `anyArgs` are destroyed on return. -/
def Function.Invoke (w : World) (f : Function) (m : Mem) (object : AnyRef)
    (args : List Arg) : Option (Mem × BasicAny) :=
  if args.length = f.mParamTypes.length then
    match buildArgs w m args with
    | none => none
    | some (m1, anyArgs) =>
      let (m2, objectAny) := BasicAny.ctorRef m1 object
      match f.InvokeImpl w m2 objectAny anyArgs with
      | none => none
      | some (m3, r) =>
        match BasicAny.dtor m3 objectAny with
        | none => none
        | some m4 =>
          match dtorAll m4 anyArgs with
          | none => none
          | some m5 => some (m5, r)
  else some (BasicAny.ctorDefault m)

/-! ## DataMember.hpp -/

/-- `BadCastException` (Any.hpp 33-46). -/
structure BadCastException where
  mMessage : String
  deriving Repr, DecidableEq

/-- `BadCastException::BadCastException(retrieved, contained, msg)`. -/
def BadCastException.ctor (retrieved contained : String) (msg : String) : BadCastException :=
  { mMessage := msg ++ " wrong type from Get: tried to get " ++ retrieved ++
      ", contained " ++ contained }

/-- `obj->*mDataMemberPtr` read. -/
def Val.getField (v : Val) (i : Nat) : Option Val :=
  match v with
  | .obj fields => fields[i]?
  | .num _ => none

/-- `obj->*mDataMemberPtr = x`. -/
def Val.setField (v : Val) (i : Nat) (x : Val) : Option Val :=
  match v with
  | .obj fields => if i < fields.length then some (.obj (fields.set i x)) else none
  | .num _ => none

/-- `object.GetType()->GetName()`: `none` when the type pointer is null. -/
def typeName (w : World) (t : Option TypeId) : Option String :=
  match t with
  | none => none
  | some S => some (w.desc S).GetName

/-- `PtrDataMember::Get` and `SetGetDataMember::Get` (DataMember.hpp 48-56, 170-185), from
the by-value parameter `object` on. -/
def DataMember.Get (w : World) (dm : DataMember) (m : Mem) (object : BasicAny) :
    Option (Mem × Except BadCastException BasicAny) :=
  match object.TryCast w dm.mParent with
  | none => none
  | some none =>
    match typeName w object.GetType with
    | none => none
    | some contained =>
      some (m, .error (BadCastException.ctor (w.desc dm.mParent).GetName contained ""))
  | some (some obj) =>
    match m.cells obj with
    | none => none
    | some o =>
      match dm.impl with
      | .ptr idx _ =>
        match o.getField idx with
        | none => none
        | some x =>
          let (m1, r) := BasicAny.ctorValue w m dm.mType x
          some (m1, .ok r)
      | .setGet _ getter =>
        let (m1, r) := BasicAny.ctorValue w (m.emit .native) dm.mType (getter o)
        some (m1, .ok r)

/-- The lines shared by `PtrDataMember::SetImpl` and `SetGetDataMember::Set`
(DataMember.hpp 90-96, 148-154): `casted`, `val`, the cast and, when it fails, the
conversion assigned to `val` and cast again.  Returns `val` and `casted`. -/
def resolveValue (w : World) (m : Mem) (value : BasicAny) (T : TypeId) :
    Option (Mem × BasicAny × Option Nat) :=
  let (m1, val) := BasicAny.ctorDefault m
  match value.TryCast w T with
  | none => none
  | some (some p) => some (m1, val, some p)
  | some none =>
    match value.TryConvert w m1 T with
    | none => none
    | some (m2, tmp) =>
      match BasicAny.assignMove m2 val tmp with
      | none => none
      | some (m3, val1, tmp1) =>
        match BasicAny.dtor m3 tmp1 with
        | none => none
        | some m4 =>
          match val1.TryCast w T with
          | none => none
          | some casted => some (m4, val1, casted)

/-- The object a `T const*` denotes at the address of the object `v`: `v` itself, or,
when an object of a class derived from `T` lives there, the fields of `T` it starts
with. -/
def World.slice (w : World) (T : TypeId) (v : Val) : Val :=
  match v with
  | .num n => .num n
  | .obj fields => .obj (fields.take (w.numFields T))

/-- The final native statement of `PtrDataMember::SetImpl`:
`obj->*mDataMemberPtr = *casted` (DataMember.hpp 101), the copy assignment of `Type`
through `Type const *casted`: the member receives the `Type` part of the object at
`casted`. -/
def writeField (w : World) (T : TypeId) (idx : Nat) (m : Mem) (obj casted : Nat) :
    Option Mem :=
  match m.cells obj, m.cells casted with
  | some o, some x =>
    match o.setField idx (w.slice T x) with
    | none => none
    | some o1 => some (m.store obj o1)
  | _, _ => none

/-- The final native statement of `SetGetDataMember::Set`: `(obj->*Setter)(*casted)` or
`Setter(*obj, *casted)` (DataMember.hpp 159-166). -/
def callSetter (setter : Val → Val → Val) (m : Mem) (obj casted : Nat) : Option Mem :=
  match m.cells obj, m.cells casted with
  | some o, some x => some ((m.emit .native).store obj (setter o x))
  | _, _ => none

/-- The body common to `PtrDataMember::SetImpl(Any, const Any, std::false_type)` and
`SetGetDataMember::Set` (DataMember.hpp 83-102, 140-168), from the receiver container
`object` on; `write` is the final native statement.  The local `val` is destroyed on
both exits that follow its construction. -/
def setBody (w : World) (dm : DataMember) (write : Mem → Nat → Nat → Option Mem) (m : Mem)
    (object value : BasicAny) : Option (Mem × Except BadCastException Unit) :=
  match object.TryCast w dm.mParent with
  | none => none
  | some none =>
    match typeName w object.GetType with
    | none => none
    | some contained =>
      some (m, .error (BadCastException.ctor (w.desc dm.mParent).GetName contained "object:"))
  | some (some obj) =>
    match resolveValue w m value dm.mType with
    | none => none
    | some (m1, val, none) =>
      match typeName w value.GetType with
      | none => none
      | some contained =>
        match BasicAny.dtor m1 val with
        | none => none
        | some m2 =>
          some (m2, .error (BadCastException.ctor (w.desc dm.mType).GetName contained "value:"))
    | some (m1, val, some casted) =>
      match write m1 obj casted with
      | none => none
      | some m2 =>
        match BasicAny.dtor m2 val with
        | none => none
        | some m3 => some (m3, .ok ())

/-- `DataMember::Set(AnyRef objectRef, const Any value)` (DataMember.hpp 43-46, 83-107,
140-168).  `PtrDataMember` passes both arguments by value to `SetImpl`, which does nothing
for a constant member; `SetGetDataMember` turns `objectRef` into the container `a` and
calls the setter. -/
def DataMember.Set (w : World) (dm : DataMember) (m : Mem) (objectRef : AnyRef)
    (value : BasicAny) : Option (Mem × Except BadCastException Unit) :=
  match dm.impl with
  | .ptr idx isConst =>
    let (m1, object) := BasicAny.ctorRef m objectRef
    match BasicAny.ctorCopy m1 value with
    | none => none
    | some (m2, value1) =>
      let body : Option (Mem × Except BadCastException Unit) :=
        if isConst then some (m2, .ok ())
        else setBody w dm (writeField w dm.mType idx) m2 object value1
      match body with
      | none => none
      | some (m3, r) =>
        match BasicAny.dtor m3 value1 with
        | none => none
        | some m4 =>
          match BasicAny.dtor m4 object with
          | none => none
          | some m5 => some (m5, r)
  | .setGet setter _ =>
    let (m1, a) := BasicAny.ctorRef m objectRef
    match setBody w dm (callSetter setter) m1 a value with
    | none => none
    | some (m2, r) =>
      match BasicAny.dtor m2 a with
      | none => none
      | some m3 => some (m3, r)

/-! ## A registered program used for the concrete checks

Types: `0` int, `1` float (payload in tenths), `2` Point with fields x and y, `3` Base
with one field, `4` Derived (a Base with a second field), `5` Most (a Derived with a third
field), `6` Big (larger than the inline capacity), `7` Celsius, `8` void, `9` Pair with
two fields.
Base edges: Derived to Base, Most to Derived.  Conversion edges: float to int,
Celsius to float, Pair to Point. -/

/-- A descriptor as `Details::Resolve<T>()` creates it: no name, no edges, no members. -/
def blankDescriptor : TypeDescriptor :=
  { mName := "", mBases := [], mConversions := [], mConstructors := [],
    mDataMembers := [], mMemberFunctions := [] }

/-- The constructor `Point(int, int)`. -/
def pointCtor : Constructor :=
  { mParent := 2, mParamTypes := [0, 0], native := fun vs => .obj vs }

/-- The data member `Point::x`. -/
def pointX : DataMember :=
  { mName := "x", mType := 0, mParent := 2, impl := .ptr 0 false }

/-- The data member `Point::y`. -/
def pointY : DataMember :=
  { mName := "y", mType := 0, mParent := 2, impl := .ptr 1 false }

/-- The data member `Base::b`, reachable from Derived through its Base edge. -/
def baseB : DataMember :=
  { mName := "b", mType := 0, mParent := 3, impl := .ptr 0 false }

/-- The member function `int Point::Sum() const`. -/
def pointSum : Function :=
  { mName := "Sum", mParent := some 2, mReturnType := 0, mParamTypes := [],
    native := .retValue (fun m obj _ =>
      match m.deref obj with
      | some (.obj [.num x, .num y]) => (m, .num (x + y))
      | _ => (m, .num 0)) }

/-- The member function `void Point::Move(int, int)`. -/
def pointMove : Function :=
  { mName := "Move", mParent := some 2, mReturnType := 8, mParamTypes := [0, 0],
    native := .retVoid (fun m obj ptrs =>
      match obj, m.deref obj, ptrs.map m.cells with
      | some o, some (.obj [.num x, .num y]), [some (.num dx), some (.num dy)] =>
        m.store o (.obj [.num (x + dx), .num (y + dy)])
      | _, _, _ => m) }

/-- The descriptors of the registered program. -/
def demoDesc : TypeId → TypeDescriptor
  | 0 => { blankDescriptor with mName := "int" }
  | 1 => { blankDescriptor with mName := "float", mConversions := [⟨1, 0⟩] }
  | 2 =>
    { blankDescriptor with
      mName := "Point"
      mConstructors := [pointCtor]
      mDataMembers := [pointX, pointY]
      mMemberFunctions := [pointSum, pointMove] }
  | 3 => { blankDescriptor with mName := "Base", mDataMembers := [baseB] }
  | 4 => { blankDescriptor with mName := "Derived", mBases := [⟨4, 3⟩] }
  | 5 => { blankDescriptor with mName := "Most", mBases := [⟨5, 4⟩] }
  | 6 => { blankDescriptor with mName := "Big" }
  | 7 => { blankDescriptor with mName := "Celsius", mConversions := [⟨7, 1⟩] }
  | 9 => { blankDescriptor with mName := "Pair", mConversions := [⟨9, 2⟩] }
  | _ => blankDescriptor

/-- The native conversions of the registered program: float to int drops the tenths,
rounding toward zero, every other conversion keeps the payload. -/
def demoCast (src dst : TypeId) (v : Val) : Val :=
  match src, dst, v with
  | 1, 0, .num n => .num (n.tdiv 10)
  | _, _, x => x

/-- The registered program: pointer-sized inline capacity; Derived and Most have one
base each, whose subobject lies at the start of the object. -/
def demoWorld : World :=
  { SIZE := 8,
    sizeOf := fun t => if t = 6 then 64 else if t = 2 ∨ t = 4 then 8 else if t = 5 then 12 else 4,
    staticCast := demoCast,
    desc := demoDesc,
    numFields := fun t => if t = 2 ∨ t = 4 ∨ t = 9 then 2 else if t = 3 then 1 else
      if t = 5 then 3 else 0,
    baseOffset := fun _ _ => 0 }

/-- The memory before anything is stored. -/
def emptyMem : Mem :=
  { cells := fun _ => none, next := 0, log := [] }

/-! ## Predicates used in the statements -/

/-- The number of native executions recorded in the trace. -/
def Mem.calls (m : Mem) : Nat := m.log.count Event.native

/-- The memory `m2` comes after `m1` and differs from it only at addresses from `lo` on,
without any further native execution. -/
def Mem.Above (lo : Nat) (m1 m2 : Mem) : Prop :=
  m1.next ≤ m2.next ∧ m2.calls = m1.calls ∧ ∀ x, x < lo → m2.cells x = m1.cells x

/-- The container is in a state the constructors reach and that no move has left behind:
its three operations are all null or all those of one `TypeTraits<T>`, an empty container
has none, and a held pointer is an allocated address of a live object of a known type. -/
def BasicAny.Valid (m : Mem) (c : BasicAny) : Prop :=
  c.mMove = c.mCopy ∧ c.mDestroy = c.mCopy ∧
  match c.mInstance with
  | none => c.mCopy = none
  | some a => a < m.next ∧ (m.cells a).isSome = true ∧ c.mType.isSome = true

/-- The container is empty with null operations and its buffer lies in `[lo, hi)`. -/
def BasicAny.Blank (lo hi : Nat) (c : BasicAny) : Prop :=
  c.mInstance = none ∧ c.mCopy = none ∧ c.mMove = none ∧ c.mDestroy = none ∧
  lo ≤ c.mStorage ∧ c.mStorage < hi

/-- The container owns a live object `v` of type `T`; its buffer and its object lie in
`[lo, hi)`, the object in the buffer exactly when the type is stored inline. -/
def BasicAny.Temp (lo hi : Nat) (m : Mem) (c : BasicAny) (T : TypeId) (v : Val) : Prop :=
  ∃ a tr, c.mInstance = some a ∧ m.cells a = some v ∧ c.mType = some T ∧
    c.mCopy = some tr ∧ c.mMove = some tr ∧ c.mDestroy = some tr ∧
    lo ≤ c.mStorage ∧ c.mStorage < hi ∧ lo ≤ a ∧ a < hi ∧
    (tr = .inl → a = c.mStorage) ∧ (tr = .heap → a ≠ c.mStorage)

/-- The edge whose result the loop of `TryConvert<T>` leaves in `converted`: the last
edge of the list whose target is `T`. -/
def lastConversion (T : TypeId) : List Conversion → Option Conversion
  | [] => none
  | c :: cs =>
    match lastConversion T cs with
    | some e => some e
    | none => if c.GetToType = T then some c else none

/-- The container aliases an object it does not own: a held pointer and null operations. -/
def BasicAny.Aliases (c : BasicAny) (a : Nat) (T : TypeId) : Prop :=
  c.mInstance = some a ∧ c.mType = some T ∧ c.mCopy = none ∧ c.mMove = none ∧
  c.mDestroy = none

/-- The member of an object as `Get` reads it: `obj->*mDataMemberPtr`, or the result of
the getter. -/
def DataMember.read (dm : DataMember) (o : Val) : Option Val :=
  match dm.impl with
  | .ptr idx _ => o.getField idx
  | .setGet _ getter => some (getter o)

/-- The memory and the container after `Any(3.7f)`. -/
def floatBuilt : Mem × BasicAny := BasicAny.ctorValue demoWorld emptyMem 1 (.num 37)

/-- The memory and the container after `Any(Celsius{21.5})`. -/
def celsiusBuilt : Mem × BasicAny := BasicAny.ctorValue demoWorld emptyMem 7 (.num 215)

/-- The memory and the container after `Any(Derived{1, 2})`. -/
def derivedBuilt : Mem × BasicAny :=
  BasicAny.ctorValue demoWorld emptyMem 4 (.obj [.num 1, .num 2])

/-- The memory and the container after `Any(Most{1, 2, 3})`. -/
def mostBuilt : Mem × BasicAny :=
  BasicAny.ctorValue demoWorld emptyMem 5 (.obj [.num 1, .num 2, .num 3])

/-- The memory and the container after `Any(Point{3, 4})`. -/
def pointBuilt : Mem × BasicAny :=
  BasicAny.ctorValue demoWorld emptyMem 2 (.obj [.num 3, .num 4])

/-- A caller's `Point{3, 4}` at address 0 and a non-owning reference to it. -/
def pointMem : Mem :=
  { cells := fun a => if a = 0 then some (.obj [.num 3, .num 4]) else none,
    next := 1, log := [] }

/-- The reference `AnyRef(point)` to the caller's object of `pointMem`. -/
def pointRef : AnyRef := AnyRef.ctorObject 0 2

/-- The value the conversion step of the pipeline yields for a container and a parameter
type `P`: the native conversion, along the edge `TryConvert<P>` uses, of the held value;
`none` when the container is empty or its type has no direct edge to `P`. -/
def convertedValue (w : World) (m : Mem) (a : BasicAny) (P : TypeId) : Option Val :=
  match a.mInstance, a.mType with
  | some i, some S =>
    match lastConversion P (w.desc S).mConversions, m.cells i with
    | some e, some v => some (w.staticCast e.mFromType P v)
    | _, _ => none
  | _, _ => none

/-- The resolution rule of the specification (section 4.4) for one argument: the object a
successful cast points to, else the converted value, else nothing (unresolved). -/
def specResolve (w : World) (m : Mem) (a : BasicAny) (P : TypeId) : Option Val :=
  match a.TryCast w P with
  | some (some q) => m.cells q
  | _ => convertedValue w m a P

/-- The rule applied to every argument and its parameter type, in declaration order. -/
def specResolveAll (w : World) (m : Mem) : List BasicAny → List TypeId → List (Option Val)
  | a :: as, P :: Ps => specResolve w m a P :: specResolveAll w m as Ps
  | _, _ => []

/-- The element of `convertedArgs` built for the argument `a` and the parameter type `P`:
an alias of the cast pointer, else the owner of the converted value inside `[lo, hi)`,
else an empty container. -/
def Converted1 (w : World) (m0 mf : Mem) (lo hi : Nat) (a : BasicAny) (P : TypeId)
    (c : BasicAny) : Prop :=
  match a.TryCast w P with
  | some (some q) => c.Aliases q P
  | _ =>
    match convertedValue w m0 a P with
    | some v => c.Temp lo hi mf P v
    | none => c.Blank lo hi

/-- The vector `convertedArgs` as a whole: its elements occupy consecutive address ranges
from `lo` up to the end of the memory `mf`. -/
def ConvertedAll (w : World) (m0 mf : Mem) :
    Nat → List BasicAny → List TypeId → List BasicAny → Prop
  | lo, [], [], [] => lo ≤ mf.next
  | lo, a :: as, P :: Ps, c :: cs =>
    ∃ hi, lo ≤ hi ∧ Converted1 w m0 mf lo hi a P c ∧ ConvertedAll w m0 mf hi as Ps cs
  | _, _, _, _ => False

/-- The containers of a vector can be destroyed one after the other: each has no destroy
operation or owns a live object, the owned objects lying at increasing addresses of
`[lo, hi)`. -/
def Disposable (m : Mem) : Nat → Nat → List BasicAny → Prop
  | lo, hi, [] => lo ≤ hi
  | lo, hi, c :: cs =>
    ∃ k, lo ≤ k ∧
      (c.mDestroy = none ∨
        ∃ a tr, c.mInstance = some a ∧ c.mDestroy = some tr ∧ lo ≤ a ∧ a < k ∧
          (m.cells a).isSome = true) ∧
      Disposable m k hi cs

/-- An argument of a variadic call is usable: a container is valid, a reference is null
or points to a live object of a known type. -/
def Arg.Valid (m : Mem) : Arg → Prop
  | .value _ _ => True
  | .any a => a.Valid m
  | .ref r =>
    match r.mInstance with
    | none => True
    | some a => a < m.next ∧ (m.cells a).isSome = true ∧ r.mType.isSome = true

/-- The object after the member is set to `x`: `obj->*mDataMemberPtr = x`, or the object
the setter leaves. -/
def DataMember.write (dm : DataMember) (o x : Val) : Option Val :=
  match dm.impl with
  | .ptr idx _ => o.setField idx x
  | .setGet setter _ => some (setter o x)

/-- The value the final statement of `Set` hands to the member for the object `x` at
`casted`: its `Type` part for a pointer to member, which is assigned through
`Type const*`, and `x` itself for a setter, which receives the reference. -/
def DataMember.stored (w : World) (dm : DataMember) (x : Val) : Val :=
  match dm.impl with
  | .ptr _ _ => w.slice dm.mType x
  | .setGet _ _ => x

/-- Whether the member's declared type is constant (`std::is_const<Type>`); a member with
setter and getter never is. -/
def DataMember.isConst (dm : DataMember) : Bool :=
  match dm.impl with
  | .ptr _ c => c
  | .setGet _ _ => false

/-- A caller's `Pair{5, 6}` at address 0. -/
def pairMem : Mem :=
  { cells := fun a => if a = 0 then some (.obj [.num 5, .num 6]) else none,
    next := 1, log := [] }

/-- The reference `AnyRef(pair)` to the caller's object of `pairMem`. -/
def pairRef : AnyRef := AnyRef.ctorObject 0 9

/-- The memory and the container after `Any(7)` next to the caller's Pair. -/
def sevenBuilt : Mem × BasicAny := BasicAny.ctorValue demoWorld pairMem 0 (.num 7)

/-- The memory and the container after `Any(5.8f)` next to the caller's Point. -/
def floatOnPoint : Mem × BasicAny := BasicAny.ctorValue demoWorld pointMem 1 (.num 58)

/-- The memory and the container after `Any(Celsius{21.5})` next to the caller's Point. -/
def celsiusOnPoint : Mem × BasicAny := BasicAny.ctorValue demoWorld pointMem 7 (.num 215)

/-- The argument vector `{ Any(3), Any(4.7f) }` and the memory holding it. -/
def mixedArgs : Mem × List BasicAny :=
  (buildArgs demoWorld emptyMem [.value 0 (.num 3), .value 1 (.num 47)]).getD (emptyMem, [])

/-- A caller's `int x = 3` at address 0 and `float y = 3.7f` at address 1. -/
def twoObjectsMem : Mem :=
  { cells := fun a => if a = 0 then some (.num 3) else if a = 1 then some (.num 37) else none,
    next := 2, log := [] }

/-- The memory and the container after `Any a(AnyRef(x))` over `twoObjectsMem`. -/
def aliasX : Mem × BasicAny := BasicAny.ctorRef twoObjectsMem (AnyRef.ctorObject 0 0)

/-- The memory and the container after `Any b(AnyRef(y))`, built after `aliasX`. -/
def aliasY : Mem × BasicAny := BasicAny.ctorRef aliasX.1 (AnyRef.ctorObject 1 1)

/-- The memory and the container after `Any b(AnyRef(point))`, built after the owner
`Any(5.8f)` of `floatOnPoint`. -/
def aliasAfterFloat : Mem × BasicAny := BasicAny.ctorRef floatOnPoint.1 pointRef

/-- The memory and the container after `Any e;`, built after the owner `Any(3.7f)` of
`floatBuilt`. -/
def emptyAfterFloat : Mem × BasicAny := BasicAny.ctorDefault floatBuilt.1

/-- The containers obtained from a container constructed of a non-owning reference by copy
construction, by move construction (the new container and the moved-from one) and by
`Swap` with another such container (both sides). -/
inductive FromRef : BasicAny → Prop where
  | ctorRef (m : Mem) (handle : AnyRef) : FromRef (BasicAny.ctorRef m handle).2
  | ctorCopy (m m1 : Mem) (c d : BasicAny) :
    FromRef c → BasicAny.ctorCopy m c = some (m1, d) → FromRef d
  | ctorMove (m m1 : Mem) (c d c1 : BasicAny) :
    FromRef c → BasicAny.ctorMove m c = some (m1, d, c1) → FromRef d
  | movedFrom (m m1 : Mem) (c d c1 : BasicAny) :
    FromRef c → BasicAny.ctorMove m c = some (m1, d, c1) → FromRef c1
  | swapThis (m m1 : Mem) (a b a1 b1 : BasicAny) :
    FromRef a → FromRef b → BasicAny.Swap m a b = some (m1, a1, b1) → FromRef a1
  | swapOther (m m1 : Mem) (a b a1 b1 : BasicAny) :
    FromRef a → FromRef b → BasicAny.Swap m a b = some (m1, a1, b1) → FromRef b1

/-! ## TypeDescriptor.hpp, TypeFactory.hpp, Reflect.hpp: type identity and the name registry -/

/-- The object types of C++ as far as `RawType` looks at them: a named type (a scalar or a
class) or a pointer, each with its own top-level `const` and `volatile` qualifiers. -/
inductive ObjType where
  | named (n : Nat) (isConst isVolatile : Bool)
  | pointer (pointee : ObjType) (isConst isVolatile : Bool)
  deriving Repr, DecidableEq

/-- A template argument `T`: an object type, or an lvalue or rvalue reference to one. -/
inductive CppType where
  | object (t : ObjType)
  | lvalueRef (t : ObjType)
  | rvalueRef (t : ObjType)
  deriving Repr, DecidableEq

/-- `std::remove_reference_t<T>`. -/
def remove_reference_t : CppType → ObjType
  | .object t => t
  | .lvalueRef t => t
  | .rvalueRef t => t

/-- `std::remove_cv<T>::type`: the top-level qualifiers only. -/
def remove_cv : ObjType → ObjType
  | .named n _ _ => .named n false false
  | .pointer p _ _ => .pointer p false false

/-- `Details::RawType<T>` (TypeDescriptor.hpp 127-132):
`std::remove_cv<std::remove_reference_t<T>>::type`. -/
def Details.RawType (T : CppType) : ObjType := remove_cv (remove_reference_t T)

/-- The address of a `TypeDescriptor`.  Every descriptor of the program is the
function-local static of one instantiation `Details::GetTypeDescriptor<T>`, and each
instantiation has a static of its own, so the address is given by `T`. -/
structure DescriptorPtr where
  instantiation : ObjType
  deriving Repr, DecidableEq

/-- `&Details::GetTypeDescriptor<T>()` (TypeDescriptor.hpp 134-140). -/
def Details.GetTypeDescriptor (T : ObjType) : DescriptorPtr := ⟨T⟩

/-- The statics behind type identity and names: for every instantiation the pointer
`typeDescriptorPtr` of `Details::GetTypeDescriptorPtr<T>` (TypeDescriptor.hpp 142-148), for
every descriptor its field `mName`, and the map `typeRegistry` of
`Details::GetTypeRegistry` (TypeDescriptor.hpp 150-155), `none` where `find` gives
`end()`. -/
structure Statics where
  typeDescriptorPtr : ObjType → Option DescriptorPtr
  mName : DescriptorPtr → String
  typeRegistry : String → Option DescriptorPtr

/-- The statics at program start: null pointers, empty names, an empty map. -/
def Statics.initial : Statics :=
  { typeDescriptorPtr := fun _ => none, mName := fun _ => "", typeRegistry := fun _ => none }

/-- `Details::Resolve<Type>()` (TypeDescriptor.hpp 170-198) without the category flags:
returns the statics after the call and the returned pointer. -/
def Details.Resolve (T : CppType) (g : Statics) : Statics × Option DescriptorPtr :=
  match g.typeDescriptorPtr (Details.RawType T) with
  | some p => (g, some p)
  | none =>
    let typeDesc := Details.GetTypeDescriptor (Details.RawType T)
    let ptrs := Function.update g.typeDescriptorPtr (Details.RawType T) (some typeDesc)
    let g1 : Statics := { g with typeDescriptorPtr := ptrs }
    (g1, g1.typeDescriptorPtr (Details.RawType T))

/-- `Details::Resolve(Type &&object)` (TypeDescriptor.hpp 200-209), `T` being the deduced
`Type`: `U&` for an lvalue of type `U`, `U` for an rvalue. -/
def Details.ResolveObject (T : CppType) (g : Statics) : Statics × Option DescriptorPtr :=
  let g1 : Statics :=
    if (g.typeDescriptorPtr (Details.RawType T)).isNone then (Details.Resolve T g).1 else g
  (g1, g1.typeDescriptorPtr (Details.RawType T))

/-- `Reflect::Resolve(const std::string &name)` (Reflect.hpp 46-52). -/
def ResolveName (name : String) (g : Statics) : Option DescriptorPtr := g.typeRegistry name

/-- `TypeFactory<Type>::ReflectType(name)` (TypeFactory.hpp 22-30); `none` would be the
write through a null `typeDescriptor`. -/
def TypeFactory.ReflectType (T : CppType) (name : String) (g : Statics) : Option Statics :=
  match Details.Resolve T g with
  | (_, none) => none
  | (g1, some typeDescriptor) =>
    let names := Function.update g1.mName typeDescriptor name
    let registry := Function.update g1.typeRegistry name (some typeDescriptor)
    some { g1 with mName := names, typeRegistry := registry }

/-- What a program does to these statics: it resolves a type (directly, or inside
`Any(T&&)`, `AnyRef(T&)` and every `AddConstructor`, `AddBase`, `AddConversion`,
`AddDataMember`, `AddMemberFunction`, which resolve the types of their signature and
append to the lists of a descriptor), or it registers a type under a name. -/
inductive RegOp where
  | resolve (T : CppType)
  | reflectType (T : CppType) (name : String)
  deriving Repr, DecidableEq

/-- One operation. -/
def RegOp.run (g : Statics) : RegOp → Option Statics
  | .resolve T => some (Details.Resolve T g).1
  | .reflectType T name => TypeFactory.ReflectType T name g

/-- A sequence of operations, from left to right. -/
def runAll : Statics → List RegOp → Option Statics
  | g, [] => some g
  | g, op :: ops =>
    match op.run g with
    | none => none
    | some g1 => runAll g1 ops

/-- The type `int`. -/
def intT : CppType := .object (.named 0 false false)

/-- The pointer type `int*`. -/
def intPtrT : CppType := .object (.pointer (.named 0 false false) false false)

/-- The reference type `const int&`. -/
def constIntRefT : CppType := .lvalueRef (.named 0 true false)

/-- The class type `Point`. -/
def pointT : CppType := .object (.named 2 false false)

/-- A registration: `int*` and `const int&` are resolved, `Point` is registered under the
name "Point". -/
def demoOps : List RegOp :=
  [.resolve intPtrT, .resolve constIntRefT, .reflectType pointT "Point"]

/-- Every pointer `typeDescriptorPtr` is null or points to the static of its own
instantiation. -/
def Statics.Good (g : Statics) : Prop :=
  ∀ R, g.typeDescriptorPtr R = none ∨
    g.typeDescriptorPtr R = some (Details.GetTypeDescriptor R)

/-! ## TypeDescriptor.inl: the search of a member by name -/

/-- `DataMember::GetName`. -/
def DataMember.GetName (dm : DataMember) : String := dm.mName

/-- `Function::GetName`. -/
def Function.GetName (f : Function) : String := f.mName

/-- The second loop of `GetDataMember` and `GetMemberFunction` (TypeDescriptor.inl 144-146,
168-170): the first non-null result of `search` on the bases, in the order of the Base
edges; `none` when a recursive call does not return. -/
def searchBases {α : Type} (search : TypeId → Option (Option α)) :
    List Base → Option (Option α)
  | [] => some none
  | base :: rest =>
    match search base.GetType with
    | none => none
    | some (some member) => some (some member)
    | some none => searchBases search rest

/-- `TypeDescriptor::GetDataMember(name)` (TypeDescriptor.inl 138-149) on the descriptor
of the type `self`.  `fuel` bounds the depth of the recursion; the outer `none` is a
recursion that is not over within that depth. -/
def TypeDescriptor.GetDataMember (w : World) : Nat → TypeId → String → Option (Option DataMember)
  | 0, _, _ => none
  | fuel + 1, self, name =>
    match (w.desc self).mDataMembers.find? (fun dataMember => dataMember.GetName == name) with
    | some dataMember => some (some dataMember)
    | none =>
      searchBases (fun B => TypeDescriptor.GetDataMember w fuel B name) (w.desc self).mBases

/-- `TypeDescriptor::GetMemberFunction(name)` (TypeDescriptor.inl 162-173), as
`GetDataMember`. -/
def TypeDescriptor.GetMemberFunction (w : World) :
    Nat → TypeId → String → Option (Option Function)
  | 0, _, _ => none
  | fuel + 1, self, name =>
    match (w.desc self).mMemberFunctions.find?
        (fun memberFunction => memberFunction.GetName == name) with
    | some memberFunction => some (some memberFunction)
    | none =>
      searchBases (fun B => TypeDescriptor.GetMemberFunction w fuel B name) (w.desc self).mBases

/-- The shape common to the two searches, over any list of own members. -/
def lookupMember {α : Type} (w : World) (own : TypeDescriptor → List α) (nameOf : α → String) :
    Nat → TypeId → String → Option (Option α)
  | 0, _, _ => none
  | fuel + 1, self, name =>
    match (own (w.desc self)).find? (fun x => nameOf x == name) with
    | some x => some (some x)
    | none => searchBases (fun B => lookupMember w own nameOf fuel B name) (w.desc self).mBases

/-- The type `A` is `T` itself or is reached from `T` through a chain of Base edges. -/
inductive Ancestor (w : World) : TypeId → TypeId → Prop where
  | self (T : TypeId) : Ancestor w T T
  | step (T A : TypeId) (base : Base) :
    base ∈ (w.desc T).mBases → Ancestor w base.GetType A → Ancestor w T A

/-- The Base edges are acyclic: every edge leads to a type of smaller rank. -/
def World.Ranked (w : World) (rank : TypeId → Nat) : Prop :=
  ∀ T, ∀ base ∈ (w.desc T).mBases, rank base.GetType < rank T

/-- The rank of the types of the registered program. -/
def demoRank : TypeId → Nat
  | 4 => 1
  | 5 => 2
  | _ => 0

/-- The memory `m2` comes after `m1` and keeps alive what was alive, without any further
native execution recorded. -/
def Mem.Keeps (m1 m2 : Mem) : Prop :=
  m1.next ≤ m2.next ∧ m2.calls = m1.calls ∧
  ∀ x, (m1.cells x).isSome = true → (m2.cells x).isSome = true

/-- The native function ends no lifetime, releases no address and writes no trace. -/
def NativeFun.Tame : NativeFun → Prop
  | .retVoid g => ∀ m obj ptrs, Mem.Keeps m (g m obj ptrs)
  | .retValue g => ∀ m obj ptrs, Mem.Keeps m (g m obj ptrs).1
  | .retRef g => ∀ m obj ptrs, Mem.Keeps m (g m obj ptrs).1
  | .retAny g => ∀ m obj ptrs, Mem.Keeps m (g m obj ptrs).1
  | .retHandle g => ∀ m obj ptrs, Mem.Keeps m (g m obj ptrs).1
  | .retRefToAny g => ∀ m obj ptrs, Mem.Keeps m (g m obj ptrs).1

/-- A constant data member `const int Point::id`, registered on Point. -/
def pointId : DataMember :=
  { mName := "id", mType := 0, mParent := 2, impl := .ptr 0 true }

/-- The memory and the container after `Any e;`, built next to the caller's Point. -/
def emptyOnPoint : Mem × BasicAny := BasicAny.ctorDefault pointMem

/-- The type `float`. -/
def floatT : CppType := .object (.named 1 false false)

/-! ## TypeDescriptor.inl: the listings, and the registration of a Base edge -/

/-- The nested loops of `GetDataMembers` and `GetMemberFunctions` (TypeDescriptor.inl
131-133, 155-157): the listing of every base is appended to the vector, in the order of
the Base edges; `none` when a recursive call does not return. -/
def collectBases {α : Type} (collect : TypeId → Option (List α)) :
    List Base → List α → Option (List α)
  | [], members => some members
  | base :: rest, members =>
    match collect base.GetType with
    | none => none
    | some baseMembers => collectBases collect rest (members ++ baseMembers)

/-- `TypeDescriptor::GetDataMembers()` (TypeDescriptor.inl 127-136) on the descriptor of
the type `self`, with the fuel of `GetDataMember`. -/
def TypeDescriptor.GetDataMembers (w : World) : Nat → TypeId → Option (List DataMember)
  | 0, _ => none
  | fuel + 1, self =>
    collectBases (fun B => TypeDescriptor.GetDataMembers w fuel B) (w.desc self).mBases
      (w.desc self).mDataMembers

/-- `TypeDescriptor::GetMemberFunctions()` (TypeDescriptor.inl 151-160), as
`GetDataMembers`. -/
def TypeDescriptor.GetMemberFunctions (w : World) : Nat → TypeId → Option (List Function)
  | 0, _ => none
  | fuel + 1, self =>
    collectBases (fun B => TypeDescriptor.GetMemberFunctions w fuel B) (w.desc self).mBases
      (w.desc self).mMemberFunctions

/-- The shape common to the two listings, over any list of own members. -/
def listMembers {α : Type} (w : World) (own : TypeDescriptor → List α) :
    Nat → TypeId → Option (List α)
  | 0, _ => none
  | fuel + 1, self =>
    collectBases (fun B => listMembers w own fuel B) (w.desc self).mBases (own (w.desc self))

/-- `TypeDescriptor::AddBase<B, T>()` (TypeDescriptor.inl 30-36): a new `BaseImpl<B, T>`,
the edge from `T` to `B`, is pushed to the back of `mBases`. -/
def TypeDescriptor.AddBase (d : TypeDescriptor) (B T : TypeId) : TypeDescriptor :=
  { d with mBases := d.mBases ++ [{ mParent := T, mType := B }] }

/-- The classes of the C++ program: which types are non-union classes, and which class
derives, directly or indirectly, from which other class. -/
structure Classes where
  isClass : TypeId → Bool
  derives : TypeId → TypeId → Bool

/-- `std::is_base_of<Base, Derived>::value`: `Derived` derives from `Base`, or both are
the same non-union class. -/
def is_base_of (cs : Classes) (Base Derived : TypeId) : Bool :=
  cs.derives Derived Base || (cs.isClass Derived && decide (Base = Derived))

/-- `TypeFactory<Type>::AddBase<Base>()` (TypeFactory.hpp 48-56): the `static_assert`
rejects the program (`none`) unless `is_base_of<Base, Type>`; otherwise the edge is added
to the descriptor of `Type`. -/
def TypeFactory.AddBase (cs : Classes) (w : World) (T B : TypeId) : Option World :=
  if is_base_of cs B T then
    some { w with desc := Function.update w.desc T ((w.desc T).AddBase B T) }
  else none

/-- The classes of the registered program: Point, Base, Derived, Most, Big, Celsius and
Pair are classes, Derived derives from Base, Most from Derived and from Base. -/
def demoClasses : Classes :=
  { isClass := fun t => decide (t = 2 ∨ t = 3 ∨ t = 4 ∨ t = 5 ∨ t = 6 ∨ t = 7 ∨ t = 9),
    derives := fun d b => decide ((d = 4 ∧ b = 3) ∨ (d = 5 ∧ b = 4) ∨ (d = 5 ∧ b = 3)) }

/-- The registered program after `Reflect<Point>(...).AddBase<Point>()`. -/
def selfBaseWorld : World :=
  (TypeFactory.AddBase demoClasses demoWorld 2 2).getD demoWorld

/-! ## Constructor.hpp: the static check -/

/-- The member function `Point& Point::Self()`, which returns `*this`. -/
def pointSelf : Function :=
  { mName := "Self", mParent := some 2, mReturnType := 2, mParamTypes := [],
    native := .retRef (fun m obj _ => (m, obj.getD 0)) }

/-- The memory and the container after `Any(Big{})`: the object lives in a heap block. -/
def bigBuilt : Mem × BasicAny := BasicAny.ctorValue demoWorld emptyMem 6 (.obj [])

/-- The member function `Any Point::Find()`, which returns an empty container `Any()`;
`10` stands for the type `Any`. -/
def pointFind : Function :=
  { mName := "Find", mParent := some 2, mReturnType := 10, mParamTypes := [],
    native := .retAny (fun m _ _ => BasicAny.ctorDefault m) }

/-- The member function `AnyRef Point::Peer()`, which returns a null handle `AnyRef()`;
`11` stands for the type `AnyRef`. -/
def pointPeer : Function :=
  { mName := "Peer", mParent := some 2, mReturnType := 11, mParamTypes := [],
    native := .retHandle (fun m _ _ => (m, AnyRef.ctorDefault)) }

/-! ## The layout of base subobjects -/

/-- The index of the field at which the subobject of the class `C` starts in an object of
type `D`: the start of the object when `D` is `C`, the offset of the base otherwise. -/
def World.offsetOf (w : World) (D C : TypeId) : Nat :=
  if D = C then 0 else w.baseOffset D C

/-- The subobject that starts `off` fields into an object. -/
def Val.subobject (v : Val) (off : Nat) : Val :=
  match v with
  | .num n => .num n
  | .obj fields => .obj (fields.drop off)

/-- The member that a data member denotes in an object `o` of type `D`, by the layout of
`D`: the member is read in the subobject of its class. -/
def DataMember.field (w : World) (dm : DataMember) (D : TypeId) (o : Val) : Option Val :=
  dm.read (o.subobject (w.offsetOf D dm.mParent))

/-! ## A program with a class of two bases

Types: `12` Left with the field `l`, `13` Right with the field `r`, `14` Both, which
derives from Left and from Right, in this order, and adds a field of its own.  In an
object of Both the subobject of Left starts at field 0 and the subobject of Right at
field 1.  Both registers a Base edge to Left and a Base edge to Right. -/

/-- The data member `Left::l`. -/
def leftL : DataMember :=
  { mName := "l", mType := 0, mParent := 12, impl := .ptr 0 false }

/-- The data member `Right::r`. -/
def rightR : DataMember :=
  { mName := "r", mType := 0, mParent := 13, impl := .ptr 0 false }

/-- The descriptors: those of the registered program, and Left, Right and Both. -/
def layoutDesc : TypeId → TypeDescriptor
  | 12 => { blankDescriptor with mName := "Left", mDataMembers := [leftL] }
  | 13 => { blankDescriptor with mName := "Right", mDataMembers := [rightR] }
  | 14 => { blankDescriptor with mName := "Both", mBases := [⟨14, 12⟩, ⟨14, 13⟩] }
  | t => demoDesc t

/-- The program with Left, Right and Both; an object of Both has three fields of the size
of an int. -/
def layoutWorld : World :=
  { SIZE := 8,
    sizeOf := fun t => if t = 14 then 12 else demoWorld.sizeOf t,
    staticCast := demoCast,
    desc := layoutDesc,
    numFields := fun t => if t = 12 ∨ t = 13 then 1 else if t = 14 then 3 else
      demoWorld.numFields t,
    baseOffset := fun D B => if D = 14 ∧ B = 13 then 1 else 0 }

/-- The classes of that program: Both derives from Left and from Right. -/
def layoutClasses : Classes :=
  { isClass := fun t => decide (t = 12 ∨ t = 13 ∨ t = 14),
    derives := fun d b => decide (d = 14 ∧ (b = 12 ∨ b = 13)) }

/-- The memory and the container after `Any(Both{1, 2, 3})`. -/
def bothBuilt : Mem × BasicAny :=
  BasicAny.ctorValue layoutWorld emptyMem 14 (.obj [.num 1, .num 2, .num 3])

/-- A caller's `Both{1, 2, 3}` at address 0. -/
def bothMem : Mem :=
  { cells := fun a => if a = 0 then some (.obj [.num 1, .num 2, .num 3]) else none,
    next := 1, log := [] }

/-- The reference `AnyRef(both)` to the caller's object of `bothMem`. -/
def bothRef : AnyRef := AnyRef.ctorObject 0 14

/-- The memory and the container after `Any(9)` next to the caller's Both. -/
def nineOnBoth : Mem × BasicAny := BasicAny.ctorValue layoutWorld bothMem 0 (.num 9)

/-- The free function `Any& Slot()`, which returns a reference to the container
`Any(3.7f)` of `floatBuilt`; `10` stands for the type `Any`. -/
def slotRef : Function :=
  { mName := "Slot", mParent := none, mReturnType := 10, mParamTypes := [],
    native := .retRefToAny (fun m _ _ => (m, floatBuilt.2)) }

/-- The free function `Any& Blank()`, which returns a reference to the empty container of
`emptyAfterFloat`. -/
def blankRef : Function :=
  { mName := "Blank", mParent := none, mReturnType := 10, mParamTypes := [],
    native := .retRefToAny (fun m _ _ => (m, emptyAfterFloat.2)) }

/-! # Theorems -/

/-! ## The pointer constructed in a buffer leaves objects, addresses and trace alone -/

@[simp] theorem Mem.bind_cells (m : Mem) (s : Nat) (p : Option Nat) :
    (m.bind s p).cells = m.cells := rfl

@[simp] theorem Mem.bind_next (m : Mem) (s : Nat) (p : Option Nat) :
    (m.bind s p).next = m.next := rfl

@[simp] theorem Mem.bind_log (m : Mem) (s : Nat) (p : Option Nat) :
    (m.bind s p).log = m.log := rfl

/-! ## `TryCast` -/

/-- The loop of `TryCast` leaves the held pointer when some direct base edge leads to `T`. -/
theorem castLoop_hit (T : TypeId) (inst : Option Nat) (bases : List Base) (init : Option Nat)
    (h : ∃ b ∈ bases, b.mType = T) :
    bases.foldl (fun casted base => if base.GetType = T then base.Cast inst else casted) init
      = inst := by
  induction bases generalizing init with
  | nil => simp at h
  | cons b bs ih =>
    simp only [List.foldl_cons]
    by_cases hbs : ∃ b' ∈ bs, b'.mType = T
    · exact ih _ hbs
    · have hb : b.mType = T := by
        obtain ⟨x, hx, hxT⟩ := h
        rcases List.mem_cons.mp hx with rfl | hx'
        · exact hxT
        · exact absurd ⟨x, hx', hxT⟩ hbs
      have hno : ∀ (i : Option Nat),
          bs.foldl (fun casted base => if base.GetType = T then base.Cast inst else casted) i
            = i := by
        intro i
        clear ih h
        induction bs generalizing i with
        | nil => rfl
        | cons c cs ihc =>
          have hc : c.mType ≠ T := fun hc => hbs ⟨c, List.mem_cons_self _ _, hc⟩
          simp only [List.foldl_cons, Base.GetType, hc, if_false]
          exact ihc (fun ⟨x, hx, hxT⟩ => hbs ⟨x, List.mem_cons_of_mem _ hx, hxT⟩) i
      rw [hno]
      simp [Base.GetType, Base.Cast, hb]

/-- The loop of `TryCast` leaves its initial value when no direct base edge leads to `T`. -/
theorem castLoop_miss (T : TypeId) (inst : Option Nat) (bases : List Base) (init : Option Nat)
    (h : ∀ b ∈ bases, b.mType ≠ T) :
    bases.foldl (fun casted base => if base.GetType = T then base.Cast inst else casted) init
      = init := by
  induction bases generalizing init with
  | nil => rfl
  | cons b bs ih =>
    have hb : b.mType ≠ T := h b (List.mem_cons_self _ _)
    simp only [List.foldl_cons, Base.GetType, hb, if_false]
    exact ih _ (fun x hx => h x (List.mem_cons_of_mem _ hx))

/-- C2. `TryCast<T>` on a container: null when the container is empty; the held pointer
when the held type is `T`; the upcast of the held pointer (not null) when the held type
has a direct Base edge to `T`; null otherwise, also when a chain of two Base edges leads
to `T`; and on a container built from a value `v` of type `T` the result points to `v`. -/
theorem TryCast_cases (w : World) (c : BasicAny) (T : TypeId) :
    (c.mInstance = none → c.TryCast w T = some none) ∧
    (∀ a S, c.mInstance = some a → c.mType = some S →
      (S = T → c.TryCast w T = some (some a)) ∧
      (S ≠ T → ∀ b ∈ (w.desc S).mBases, b.mType = T →
        c.TryCast w T = some (b.Cast (some a)) ∧ b.Cast (some a) ≠ none) ∧
      (S ≠ T → (∀ b ∈ (w.desc S).mBases, b.mType ≠ T) →
        c.TryCast w T = some none ∧
        (∀ b ∈ (w.desc S).mBases, ∀ b2 ∈ (w.desc b.mType).mBases, b2.mType = T →
          c.TryCast w T = some none))) ∧
    (∀ m v, ∃ p, (BasicAny.ctorValue w m T v).2.TryCast w T = some (some p) ∧
      (BasicAny.ctorValue w m T v).2.mInstance = some p ∧
      (BasicAny.ctorValue w m T v).1.cells p = some v) := by
  refine ⟨?_, ?_, ?_⟩
  · intro h
    simp [BasicAny.TryCast, BasicAny.toBool, BasicAny.Get, h]
  · intro a S ha hS
    refine ⟨?_, ?_, ?_⟩
    · intro hST
      simp [BasicAny.TryCast, BasicAny.toBool, BasicAny.Get, ha, hS, hST]
    · intro hST b hb hbT
      have hST2 : ¬ T = S := fun h => hST h.symm
      have := castLoop_hit T (some a) (w.desc S).mBases none ⟨b, hb, hbT⟩
      simp only [Base.Cast] at this
      simp [BasicAny.TryCast, BasicAny.toBool, BasicAny.Get, ha, hS, hST2,
        TypeDescriptor.GetBases, this, Base.Cast]
    · intro hST hno
      have hST2 : ¬ T = S := fun h => hST h.symm
      have := castLoop_miss T (some a) (w.desc S).mBases none hno
      have hres : c.TryCast w T = some none := by
        simp [BasicAny.TryCast, BasicAny.toBool, BasicAny.Get, ha, hS, hST2,
          TypeDescriptor.GetBases, this]
      exact ⟨hres, fun _ _ _ _ _ => hres⟩
  · intro m v
    cases htr : w.traits T <;>
      simp [BasicAny.ctorValue, BasicAny.TryCast, BasicAny.toBool, BasicAny.Get, Mem.fresh,
        TypeTraits.New, Mem.store, Mem.emit, htr]

/-! ## Memory steps -/

theorem Mem.Above.refl (lo : Nat) (m : Mem) : Mem.Above lo m m :=
  ⟨le_refl _, rfl, fun _ _ => rfl⟩

theorem Mem.Above.trans {lo : Nat} {m1 m2 m3 : Mem} (h1 : Mem.Above lo m1 m2)
    (h2 : Mem.Above lo m2 m3) : Mem.Above lo m1 m3 :=
  ⟨le_trans h1.1 h2.1, h2.2.1.trans h1.2.1, fun x hx => (h2.2.2 x hx).trans (h1.2.2 x hx)⟩

theorem Mem.Above.mono {lo lo2 : Nat} {m1 m2 : Mem} (h : Mem.Above lo m1 m2)
    (hle : lo2 ≤ lo) : Mem.Above lo2 m1 m2 :=
  ⟨h.1, h.2.1, fun x hx => h.2.2 x (lt_of_lt_of_le hx hle)⟩

/-- Move-assignment of a freshly built owner to an empty or owning local: it succeeds, the
local now owns the value, and nothing below `lo` changes. -/
theorem assignMove_temp (m : Mem) (self other : BasicAny) (lo k : Nat) (T To : TypeId)
    (vs v : Val) (hk : k ≤ m.next)
    (hself : self.Blank lo k ∨ self.Temp lo k m T vs)
    (hother : other.Temp k m.next m To v) :
    ∃ m1 self1, BasicAny.assignMove m self other
        = some (m1, self1, { other with mDestroy := none }) ∧
      self1.Temp lo m1.next m1 To v ∧ Mem.Above lo m m1 ∧
      self1.mStorage = self.mStorage := by
  obtain ⟨oi, os, ot, oc, om, od⟩ := other
  obtain ⟨si, ss, st, sc, sm, sd⟩ := self
  obtain ⟨a, tr, h1, h2, h3, h4, h5, h6, h7, h8, h9, h10, h11, h12⟩ := hother
  simp only at h1 h3 h4 h5 h6 h7 h8 h11 h12
  subst h1 h3 h4 h5 h6
  rcases hself with ⟨e1, e2, e3, e4, e5, e6⟩ |
    ⟨b, trs, g1, g2, g3, g4, g5, g6, g7, g8, g9, g10, g11, g12⟩
  · simp only at e1 e2 e3 e4 e5 e6
    subst e1 e2 e3 e4
    cases tr <;>
    · try (have e := h11 rfl; subst e)
      try (have hne := h12 rfl)
      simp (disch := omega) [BasicAny.assignMove, BasicAny.ctorMove, BasicAny.Swap,
        BasicAny.dtor, TypeTraits.Move, Mem.fresh, Mem.store, Mem.kill, Mem.emit, h2,
        Function.update_apply, if_neg]
      refine ⟨_, _, ⟨rfl, rfl⟩, ?_, ⟨?_, ?_, ?_⟩, rfl⟩
      · simp (disch := omega) [BasicAny.Temp, Function.update_apply, if_neg, h2]
        try omega
      · simp
        try omega
      · simp [Mem.calls]
      · intro x hx
        simp (disch := omega) [Function.update_apply, if_neg]
  · simp only at g1 g3 g4 g5 g6 g7 g8 g11 g12
    subst g1 g3 g4 g5 g6
    cases tr <;> cases trs <;>
    · try (have e := h11 rfl; subst e)
      try (have hne := h12 rfl)
      try (have e := g11 rfl; subst e)
      try (have hne2 := g12 rfl)
      simp (disch := omega) [BasicAny.assignMove, BasicAny.ctorMove, BasicAny.Swap,
        BasicAny.dtor, TypeTraits.Move, TypeTraits.Destroy, Mem.fresh, Mem.store, Mem.kill,
        Mem.emit, h2, g2, Function.update_apply, if_neg, BasicAny.Temp, Mem.Above, Mem.calls]
      refine ⟨_, _, ⟨rfl, rfl⟩, ?_, ⟨?_, ?_, ?_⟩, rfl⟩
      · simp (disch := omega) [BasicAny.Temp, Function.update_apply, if_neg, h2]
        try omega
      · simp
        try omega
      · simp [Mem.calls]
      · intro x hx
        simp (disch := omega) [Function.update_apply, if_neg]

theorem BasicAny.Temp.frame {lo hi : Nat} {m m2 : Mem} {c : BasicAny} {T : TypeId} {v : Val}
    (h : c.Temp lo hi m T v) (hm : ∀ x, lo ≤ x → x < hi → m2.cells x = m.cells x) :
    c.Temp lo hi m2 T v := by
  obtain ⟨a, tr, h1, h2, h3, h4, h5, h6, h7, h8, h9, h10, h11, h12⟩ := h
  exact ⟨a, tr, h1, (hm a h9 h10).trans h2, h3, h4, h5, h6, h7, h8, h9, h10, h11, h12⟩

theorem BasicAny.Temp.widen {lo hi hi2 : Nat} {m : Mem} {c : BasicAny} {T : TypeId} {v : Val}
    (h : c.Temp lo hi m T v) (hle : hi ≤ hi2) : c.Temp lo hi2 m T v := by
  obtain ⟨a, tr, h1, h2, h3, h4, h5, h6, h7, h8, h9, h10, h11, h12⟩ := h
  exact ⟨a, tr, h1, h2, h3, h4, h5, h6, h7, lt_of_lt_of_le h8 hle, h9,
    lt_of_lt_of_le h10 hle, h11, h12⟩

theorem BasicAny.Blank.widenBlank {lo hi hi2 : Nat} {c : BasicAny}
    (h : c.Blank lo hi) (hle : hi ≤ hi2) : c.Blank lo hi2 := by
  obtain ⟨h1, h2, h3, h4, h5, h6⟩ := h
  exact ⟨h1, h2, h3, h4, h5, lt_of_lt_of_le h6 hle⟩

/-- A container built from a value owns it in fresh memory. -/
theorem ctorValue_temp (w : World) (m : Mem) (U : TypeId) (v : Val) :
    (BasicAny.ctorValue w m U v).2.Temp m.next (BasicAny.ctorValue w m U v).1.next
      (BasicAny.ctorValue w m U v).1 U v ∧
    Mem.Above m.next m (BasicAny.ctorValue w m U v).1 ∧
    (BasicAny.ctorValue w m U v).2.mStorage = m.next := by
  cases htr : w.traits U <;>
    simp [BasicAny.ctorValue, BasicAny.Temp, Mem.Above, Mem.calls, Mem.fresh, TypeTraits.New,
      Mem.store, Mem.emit, htr, List.count_append]
  all_goals
    try refine ⟨by omega, by omega, ?_⟩
    intro x hx
    rw [Function.update_noteq]
    omega

/-- The default constructor gives an empty container with a fresh buffer. -/
theorem ctorDefault_blank (m : Mem) :
    (BasicAny.ctorDefault m).2.Blank m.next (BasicAny.ctorDefault m).1.next ∧
    Mem.Above m.next m (BasicAny.ctorDefault m).1 ∧
    (BasicAny.ctorDefault m).1.cells = m.cells ∧
    (BasicAny.ctorDefault m).1.log = m.log ∧
    (BasicAny.ctorDefault m).1.next = m.next + 1 := by
  simp [BasicAny.ctorDefault, BasicAny.Blank, Mem.Above, Mem.calls, Mem.fresh]

/-- The destructor of a container without destroy operation does nothing. -/
theorem dtor_inert (m : Mem) (c : BasicAny) (h : c.mDestroy = none) :
    BasicAny.dtor m c = some m := by
  simp [BasicAny.dtor, h]

/-- The loop of `TryConvert`: with a readable source below `lo` and a local `converted`
that is empty or owning above `lo`, the loop succeeds; without a matching edge nothing
changes, otherwise `converted` owns the conversion of the last matching edge. -/
theorem convertLoop_temp (w : World) (T : TypeId) (a : Nat) (v : Val) (lo : Nat)
    (convs : List Conversion) :
    ∀ (m : Mem) (converted : BasicAny) (U : TypeId) (vs : Val),
      a < lo → lo ≤ m.next → m.cells a = some v →
      (converted.Blank lo m.next ∨ converted.Temp lo m.next m U vs) →
      ∃ m1 r, BasicAny.convertLoop w T (some a) convs m converted = some (m1, r) ∧
        Mem.Above lo m m1 ∧ r.mStorage = converted.mStorage ∧
        match lastConversion T convs with
        | none => r = converted ∧ m1 = m
        | some e => r.Temp lo m1.next m1 T (w.staticCast e.mFromType T v) := by
  induction convs with
  | nil =>
    intro m converted U vs _ _ _ _
    exact ⟨m, converted, rfl, Mem.Above.refl _ _, rfl, rfl, rfl⟩
  | cons c cs ih =>
    intro m converted U vs ha hlo hv hconv
    by_cases hc : c.GetToType = T
    · have hcT : c.mToType = T := hc
      obtain ⟨ht, hab, hst⟩ := ctorValue_temp w m c.mToType (w.staticCast c.mFromType c.mToType v)
      generalize hcv : BasicAny.ctorValue w m c.mToType
        (w.staticCast c.mFromType c.mToType v) = cv at ht hab hst
      obtain ⟨m1, tmp⟩ := cv
      simp only at ht hab hst
      have hconv1 : converted.Blank lo m.next ∨ converted.Temp lo m.next m1 U vs := by
        rcases hconv with hb | ht2
        · exact Or.inl hb
        · exact Or.inr (ht2.frame (fun x _ hx => hab.2.2 x hx))
      obtain ⟨m2, self1, hass, hself1, hab2, hsto1⟩ :=
        assignMove_temp m1 converted tmp lo m.next U c.mToType vs _ hab.1 hconv1 ht
      have hab02 : Mem.Above lo m m2 := (hab.mono hlo).trans hab2
      have hv2 : m2.cells a = some v := (hab02.2.2 a ha).trans hv
      obtain ⟨m3, r, hloop, hab3, hsto, hres⟩ :=
        ih m2 self1 c.mToType _ ha (le_trans hlo hab02.1) hv2 (Or.inr hself1)
      refine ⟨m3, r, ?_, hab02.trans hab3, hsto.trans hsto1, ?_⟩
      · simp only [BasicAny.convertLoop, hc, if_true, Conversion.Convert, Mem.deref, hv, hcv,
          hass, dtor_inert, hloop]
      · simp only [lastConversion]
        cases hl : lastConversion T cs with
        | none =>
          simp only [hl] at hres
          obtain ⟨hr, hm⟩ := hres
          subst hr hm
          simpa [hc, hcT] using (hcT ▸ hself1)
        | some e =>
          simp only [hl] at hres
          exact hres
    · obtain ⟨m3, r, hloop, hab3, hsto, hres⟩ := ih m converted U vs ha hlo hv hconv
      refine ⟨m3, r, ?_, hab3, hsto, ?_⟩
      · simp only [BasicAny.convertLoop, hc, if_false, hloop]
      · simp only [lastConversion]
        cases hl : lastConversion T cs with
        | none =>
          simp only [hl] at hres
          simpa [hc] using hres
        | some e =>
          simp only [hl] at hres
          exact hres

/-- Copy-assignment of a readable source below `lo` to an empty local above `lo`: the
local becomes an alias of the same object when the source is one, and otherwise owns a
copy of the value. -/
theorem assignCopy_blank (m : Mem) (self other : BasicAny) (lo a : Nat) (S : TypeId)
    (v : Val) (hlo : lo ≤ m.next) (hself : self.Blank lo m.next)
    (hinst : other.mInstance = some a) (hv : m.cells a = some v)
    (hS : other.mType = some S) (hmv : other.mMove = other.mCopy)
    (hds : other.mDestroy = other.mCopy) :
    ∃ m1 r, BasicAny.assignCopy m self other = some (m1, r) ∧ Mem.Above lo m m1 ∧
      r.mStorage = self.mStorage ∧
      (other.mCopy = none → r.Aliases a S) ∧
      (other.mCopy ≠ none → r.Temp lo m1.next m1 S v) := by
  obtain ⟨oi, os, ot, oc, om, od⟩ := other
  obtain ⟨si, ss, st, sc, sm, sd⟩ := self
  obtain ⟨e1, e2, e3, e4, e5, e6⟩ := hself
  simp only at e1 e2 e3 e4 e5 e6 hinst hS hmv hds
  subst e1 e2 e3 e4 hinst hS hmv hds
  cases od with
  | none =>
    simp (disch := omega) [BasicAny.assignCopy, BasicAny.ctorCopy, BasicAny.assignMove,
      BasicAny.ctorMove, BasicAny.Swap, BasicAny.dtor, Mem.fresh]
    refine ⟨_, _, ⟨rfl, rfl⟩, ⟨?_, ?_, ?_⟩, rfl, ?_⟩
    · simp
      try omega
    · simp [Mem.calls]
    · intro x hx
      rfl
    · simp [BasicAny.Aliases]
  | some tr =>
    cases tr <;>
    · simp (disch := omega) [BasicAny.assignCopy, BasicAny.ctorCopy, BasicAny.assignMove,
        BasicAny.ctorMove, BasicAny.Swap, BasicAny.dtor, TypeTraits.Copy, TypeTraits.Move,
        Mem.deref, Mem.fresh, Mem.store, Mem.kill, Mem.emit, hv, Function.update_apply, if_neg]
      refine ⟨_, _, ⟨rfl, rfl⟩, ⟨?_, ?_, ?_⟩, rfl, ?_⟩
      · simp
        try omega
      · simp [Mem.calls]
      · intro x hx
        simp (disch := omega) [Function.update_apply, if_neg]
      · simp (disch := omega) [BasicAny.Temp, Function.update_apply, if_neg, hv]
        try omega

/-- What `TryConvert<T>` returns on a valid container: always a result, built in fresh
memory; empty for an empty source and for a type without a direct edge to `T`; for a
source of type `T` an alias of the same object (aliasing source) or the owner of a copy
(owning source); otherwise the owner of the conversion of the last matching edge. -/
theorem TryConvert_result (w : World) (m : Mem) (c : BasicAny) (T : TypeId)
    (hv : c.Valid m) :
    ∃ m1 r, c.TryConvert w m T = some (m1, r) ∧ Mem.Above m.next m m1 ∧
      r.mStorage = m.next ∧ m.next < m1.next ∧
      (c.mInstance = none → r.Blank m.next m1.next) ∧
      (∀ a S v, c.mInstance = some a → c.mType = some S → m.cells a = some v →
        (S = T → (c.mCopy = none → r.Aliases a T) ∧
          (c.mCopy ≠ none → r.Temp m.next m1.next m1 T v)) ∧
        (S ≠ T →
          match lastConversion T (w.desc S).mConversions with
          | none => r.Blank m.next m1.next
          | some e => r.Temp m.next m1.next m1 T (w.staticCast e.mFromType T v))) := by
  obtain ⟨hmv, hds, hinst⟩ := hv
  obtain ⟨hb, hab, hcells, hlog, hnext⟩ := ctorDefault_blank m
  generalize hcd : BasicAny.ctorDefault m = cd at hb hab hcells hlog hnext
  obtain ⟨m0, converted⟩ := cd
  simp only at hb hab hcells hlog hnext
  have hsto0 : converted.mStorage = m.next := by
    have := congrArg (fun p => p.2.mStorage) hcd
    simpa [BasicAny.ctorDefault, Mem.fresh] using this.symm
  cases hi : c.mInstance with
  | none =>
    refine ⟨m0, converted, ?_, hab, hsto0, by omega, fun _ => hb, ?_⟩
    · simp [BasicAny.TryConvert, hcd, BasicAny.toBool, BasicAny.Get, hi]
    · intro a S v h
      simp at h
  | some a =>
    simp only [hi] at hinst
    obtain ⟨halt, hlive, htype⟩ := hinst
    obtain ⟨S, hS⟩ := Option.isSome_iff_exists.mp htype
    obtain ⟨v, hval⟩ := Option.isSome_iff_exists.mp hlive
    have hval0 : m0.cells a = some v := by rw [hcells]; exact hval
    by_cases hTS : T = S
    · obtain ⟨m1, r, hass, habv, hsto, hal, hown⟩ :=
        assignCopy_blank m0 converted c m.next a S v hab.1 hb hi hval0 hS hmv hds
      refine ⟨m1, r, ?_, hab.trans habv, hsto.trans hsto0, ?_, ?_, ?_⟩
      · simp [BasicAny.TryConvert, hcd, BasicAny.toBool, BasicAny.Get, hi, hS, hTS, hass]
      · have := habv.1
        omega
      · intro h
        simp at h
      · intro a2 S2 v2 h1 h2 h3
        simp only [Option.some.injEq] at h1
        subst h1
        rw [hS] at h2
        simp only [Option.some.injEq] at h2
        subst h2
        rw [hval] at h3
        simp only [Option.some.injEq] at h3
        subst h3
        subst hTS
        exact ⟨fun _ => ⟨hal, hown⟩, fun h => absurd rfl h⟩
    · obtain ⟨m1, r, hloop, habv, hsto, hres⟩ :=
        convertLoop_temp w T a v m.next (w.desc S).mConversions m0 converted T v
          halt hab.1 hval0 (Or.inl hb)
      refine ⟨m1, r, ?_, hab.trans habv, hsto.trans hsto0, ?_, ?_, ?_⟩
      · simp [BasicAny.TryConvert, hcd, BasicAny.toBool, BasicAny.Get, hi, hS, hTS,
          TypeDescriptor.GetConversions, hloop]
      · have := habv.1
        omega
      · intro h
        simp at h
      · intro a2 S2 v2 h1 h2 h3
        simp only [Option.some.injEq] at h1
        subst h1
        rw [hS] at h2
        simp only [Option.some.injEq] at h2
        subst h2
        rw [hval] at h3
        simp only [Option.some.injEq] at h3
        subst h3
        refine ⟨fun h => absurd h.symm hTS, fun _ => ?_⟩
        cases hl : lastConversion T (w.desc S).mConversions with
        | none =>
          simp only [hl] at hres
          obtain ⟨hr, hm⟩ := hres
          subst hr hm
          exact hb
        | some e =>
          simp only [hl] at hres
          exact hres

theorem lastConversion_none_iff (T : TypeId) (convs : List Conversion) :
    lastConversion T convs = none ↔ ∀ e ∈ convs, e.mToType ≠ T := by
  induction convs with
  | nil => simp [lastConversion]
  | cons c cs ih =>
    simp only [lastConversion, List.mem_cons, forall_eq_or_imp]
    cases hl : lastConversion T cs with
    | none =>
      have := ih.mp hl
      by_cases hc : c.mToType = T
      · simp [Conversion.GetToType, hc]
      · simpa [Conversion.GetToType, hc] using this
    | some e =>
      have : ¬ ∀ e ∈ cs, e.mToType ≠ T := fun h => by
        have := ih.mpr h
        rw [hl] at this
        exact Option.noConfusion this
      simp [this]

theorem lastConversion_some (T : TypeId) (convs : List Conversion) (e : Conversion)
    (h : lastConversion T convs = some e) : e ∈ convs ∧ e.mToType = T := by
  induction convs with
  | nil => simp [lastConversion] at h
  | cons c cs ih =>
    simp only [lastConversion] at h
    cases hl : lastConversion T cs with
    | none =>
      simp only [hl] at h
      by_cases hc : c.GetToType = T
      · simp only [hc, if_true, Option.some.injEq] at h
        subst h
        exact ⟨List.mem_cons_self _ _, hc⟩
      · simp [hc] at h
    | some e2 =>
      simp only [hl, Option.some.injEq] at h
      subst h
      exact ⟨List.mem_cons_of_mem _ (ih hl).1, (ih hl).2⟩

theorem BasicAny.Blank.toBool_false {lo hi : Nat} {c : BasicAny} (h : c.Blank lo hi) :
    c.toBool = false := by
  simp [BasicAny.toBool, BasicAny.Get, h.1]

theorem BasicAny.Temp.toBool_true {lo hi : Nat} {m : Mem} {c : BasicAny} {T : TypeId}
    {v : Val} (h : c.Temp lo hi m T v) : c.toBool = true ∧ c.mType = some T := by
  obtain ⟨a, tr, h1, _, h3, _⟩ := h
  simp [BasicAny.toBool, BasicAny.Get, h1, h3]

/-- C3. `TryConvert<T>` on a valid container of held type `S` returns a container that is
non-empty exactly when the source is non-empty and `S` is `T` or `S` has a direct
Conversion edge to `T`; a non-empty result has type identity `T`; with edges `S` to `M`
and `M` to `T` but no direct edge from `S` to `T` the result is empty. -/
theorem TryConvert_nonempty_iff (w : World) (m : Mem) (c : BasicAny) (T : TypeId)
    (hv : c.Valid m) :
    ∃ m1 r, c.TryConvert w m T = some (m1, r) ∧
      (r.toBool = true ↔ c.toBool = true ∧ ∃ S, c.mType = some S ∧
        (S = T ∨ ∃ e ∈ (w.desc S).mConversions, e.mToType = T)) ∧
      (r.toBool = true → r.mType = some T) ∧
      (∀ S M, c.mType = some S → S ≠ T →
        (∃ e ∈ (w.desc S).mConversions, e.mToType = M) →
        (∃ e ∈ (w.desc M).mConversions, e.mToType = T) →
        (∀ e ∈ (w.desc S).mConversions, e.mToType ≠ T) → r.toBool = false) := by
  obtain ⟨m1, r, hres, _, _, _, hempty, hfull⟩ := TryConvert_result w m c T hv
  refine ⟨m1, r, hres, ?_⟩
  cases hi : c.mInstance with
  | none =>
    have hb := (hempty hi).toBool_false
    refine ⟨?_, ?_, ?_⟩
    · simp only [hb, Bool.false_eq_true, false_iff]
      rintro ⟨h, _⟩
      simp [BasicAny.toBool, BasicAny.Get, hi] at h
    · simp [hb]
    · intro _ _ _ _ _ _ _
      exact hb
  | some a =>
    have hinst := hv.2.2
    simp only [hi] at hinst
    obtain ⟨_, hlive, htype⟩ := hinst
    obtain ⟨S, hS⟩ := Option.isSome_iff_exists.mp htype
    obtain ⟨v, hval⟩ := Option.isSome_iff_exists.mp hlive
    obtain ⟨hsame, hdiff⟩ := hfull a S v hi hS hval
    have hcb : c.toBool = true := by simp [BasicAny.toBool, BasicAny.Get, hi]
    by_cases hST : S = T
    · obtain ⟨hal, hown⟩ := hsame hST
      have hr : r.toBool = true ∧ r.mType = some T := by
        cases hc : c.mCopy with
        | none =>
          obtain ⟨h1, h2, _⟩ := hal hc
          simp [BasicAny.toBool, BasicAny.Get, h1, h2]
        | some tr =>
          exact (hown (by simp [hc])).toBool_true
      refine ⟨?_, fun _ => hr.2, ?_⟩
      · simp only [hr.1, hcb, true_and, true_iff]
        exact ⟨S, hS, Or.inl hST⟩
      · intro S2 M h2 hne
        rw [hS] at h2
        simp only [Option.some.injEq] at h2
        exact absurd (h2 ▸ hST) hne
    · have hd := hdiff hST
      cases hl : lastConversion T (w.desc S).mConversions with
      | none =>
        simp only [hl] at hd
        have hb := hd.toBool_false
        have hno := (lastConversion_none_iff T _).mp hl
        refine ⟨?_, ?_, fun _ _ _ _ _ _ _ => hb⟩
        · simp only [hb, hcb, true_and, false_iff, Bool.false_eq_true]
          rintro ⟨S2, h2, h3⟩
          rw [hS] at h2
          simp only [Option.some.injEq] at h2
          subst h2
          rcases h3 with h3 | ⟨e, he, heT⟩
          · exact hST h3
          · exact hno e he heT
        · simp [hb]
      | some e =>
        simp only [hl] at hd
        have hr := hd.toBool_true
        obtain ⟨he, heT⟩ := lastConversion_some T _ e hl
        refine ⟨?_, fun _ => hr.2, ?_⟩
        · simp only [hr.1, hcb, true_and, true_iff]
          exact ⟨S, hS, Or.inr ⟨e, he, heT⟩⟩
        · intro S2 M h2 _ _ _ hno
          rw [hS] at h2
          simp only [Option.some.injEq] at h2
          subst h2
          exact absurd heT (hno e he)

/-- C10. Copy-construction.  From a source that owns a live value the new container owns
a distinct instance holding an equal value, with the same type identity and operations,
and a later write to either instance leaves the other unchanged.  From a source that
aliases an object the new container aliases the same object, with the same type, no
operation, no copy made and nothing allocated. -/
theorem ctorCopy_independent (m : Mem) (other : BasicAny) :
    (∀ a tr v, other.mInstance = some a → a < m.next → m.cells a = some v →
      other.mCopy = some tr → other.mMove = some tr → other.mDestroy = some tr →
      ∃ m1 c b, BasicAny.ctorCopy m other = some (m1, c) ∧ c.mInstance = some b ∧ b ≠ a ∧
        m1.cells b = some v ∧ m1.cells a = some v ∧ c.mType = other.mType ∧
        c.mCopy = some tr ∧ c.mMove = some tr ∧ c.mDestroy = some tr ∧
        (∀ x, (m1.store b x).cells a = some v) ∧ (∀ x, (m1.store a x).cells b = some v)) ∧
    (∀ a T, other.Aliases a T →
      ∃ m1 c, BasicAny.ctorCopy m other = some (m1, c) ∧ c.Aliases a T ∧
        c.mInstance = other.mInstance ∧ c.mType = other.mType ∧ c.IsRef = true ∧
        m1.cells = m.cells ∧ m1.log = m.log) := by
  obtain ⟨oi, os, ot, oc, om, od⟩ := other
  refine ⟨?_, ?_⟩
  · intro a tr v h1 ha hv h2 h3 h4
    simp only at h1 h2 h3 h4
    subst h1 h2 h3 h4
    cases tr
    · simp only [BasicAny.ctorCopy, TypeTraits.Copy, Mem.deref, Mem.fresh, hv,
        Option.some.injEq, Prod.mk.injEq]
      refine ⟨_, _, m.next, ⟨rfl, rfl⟩, rfl, ?_⟩
      simp (disch := omega) [Mem.store, Function.update_apply, if_neg, hv]
      omega
    · simp only [BasicAny.ctorCopy, TypeTraits.Copy, Mem.deref, Mem.fresh, hv,
        Option.some.injEq, Prod.mk.injEq]
      refine ⟨_, _, m.next + 1, ⟨rfl, rfl⟩, rfl, ?_⟩
      simp (disch := omega) [Mem.store, Mem.emit, Function.update_apply, if_neg, hv]
      omega
  · rintro a T ⟨h1, h2, h3, h4, h5⟩
    simp only at h1 h2 h3 h4 h5
    subst h1 h2 h3 h4 h5
    simp only [BasicAny.ctorCopy, Mem.fresh, Option.some.injEq, Prod.mk.injEq]
    refine ⟨_, _, ⟨rfl, rfl⟩, ?_⟩
    simp [BasicAny.Aliases, BasicAny.IsRef]

/-- C6. A call whose number of arguments differs from the number of declared parameters
returns the default-constructed, empty container at once, for both `NewInstance`
overloads and for `Invoke`: no cell of the memory changes and the trace gets no event, so
neither the resolution lines nor the native operation ran, and no error exists on this
path. -/
theorem arity_mismatch_empty (w : World) (m : Mem) :
    (∀ (c : Constructor) (args : List BasicAny), args.length ≠ c.mParamTypes.length →
      c.NewInstance w m args = some (BasicAny.ctorDefault m)) ∧
    (∀ (c : Constructor) (args : List Arg), args.length ≠ c.mParamTypes.length →
      c.NewInstanceV w m args = some (BasicAny.ctorDefault m)) ∧
    (∀ (f : Function) (object : AnyRef) (args : List Arg),
      args.length ≠ f.mParamTypes.length →
      f.Invoke w m object args = some (BasicAny.ctorDefault m)) ∧
    (BasicAny.ctorDefault m).2.toBool = false ∧
    (BasicAny.ctorDefault m).1.cells = m.cells ∧
    (BasicAny.ctorDefault m).1.log = m.log := by
  refine ⟨?_, ?_, ?_, ?_, ?_, ?_⟩
  · intro c args h
    simp [Constructor.NewInstance, h]
  · intro c args h
    simp [Constructor.NewInstanceV, h]
  · intro f object args h
    simp [Function.Invoke, h]
  · simp [BasicAny.ctorDefault, BasicAny.toBool, BasicAny.Get, Mem.fresh]
  · simp [BasicAny.ctorDefault, Mem.fresh]
  · simp [BasicAny.ctorDefault, Mem.fresh]

/-! ## `DataMember::Get` -/

theorem TryCast_defined (w : World) (c : BasicAny) (T : TypeId)
    (h : c.mInstance = none ∨ c.mType.isSome = true) : ∃ p, c.TryCast w T = some p := by
  rcases h with h | h
  · exact ⟨none, by simp [BasicAny.TryCast, BasicAny.toBool, BasicAny.Get, h]⟩
  · obtain ⟨S, hS⟩ := Option.isSome_iff_exists.mp h
    simp only [BasicAny.TryCast, hS]
    split
    · exact ⟨_, rfl⟩
    · split
      · exact ⟨_, rfl⟩
      · exact ⟨_, rfl⟩

/-- `Get` on a non-empty receiver of held type `S`, every object the receiver casts to
being live and readable at the member's index: the call raises `BadCastException` exactly
when `TryCast<Class>` is null; the message names the class's registered name as expected
and the name of `S` as contained; otherwise the call returns, without raising, a
non-empty owning container of the member's type holding a copy of what the member reads
in the object at the cast pointer, the object itself unchanged. -/
theorem Get_raises_iff (w : World) (m : Mem) (dm : DataMember) (o : BasicAny) (a : Nat)
    (S : TypeId) (_hi : o.mInstance = some a) (hS : o.mType = some S)
    (hwt : ∀ p, o.TryCast w dm.mParent = some (some p) →
      p < m.next ∧ ∃ ov x, m.cells p = some ov ∧ dm.read ov = some x) :
    ((∃ m1 e, dm.Get w m o = some (m1, .error e)) ↔ o.TryCast w dm.mParent = some none) ∧
    (o.TryCast w dm.mParent = some none →
      dm.Get w m o = some (m, .error
        (BadCastException.ctor (w.desc dm.mParent).mName (w.desc S).mName "")) ∧
      (BadCastException.ctor (w.desc dm.mParent).mName (w.desc S).mName "").mMessage =
        " wrong type from Get: tried to get " ++ (w.desc dm.mParent).mName ++
          ", contained " ++ (w.desc S).mName) ∧
    (∀ p ov x, o.TryCast w dm.mParent = some (some p) → m.cells p = some ov →
      dm.read ov = some x →
      ∃ m1 r, dm.Get w m o = some (m1, .ok r) ∧ r.toBool = true ∧
        r.Temp m.next m1.next m1 dm.mType x ∧ m1.cells p = some ov) := by
  have hraise : o.TryCast w dm.mParent = some none →
      dm.Get w m o = some (m, .error
        (BadCastException.ctor (w.desc dm.mParent).mName (w.desc S).mName "")) := by
    intro h
    simp [DataMember.Get, h, typeName, BasicAny.GetType, hS, TypeDescriptor.GetName]
  have hok : ∀ p ov x, o.TryCast w dm.mParent = some (some p) → m.cells p = some ov →
      dm.read ov = some x →
      ∃ m1 r, dm.Get w m o = some (m1, .ok r) ∧ r.toBool = true ∧
        r.Temp m.next m1.next m1 dm.mType x ∧ m1.cells p = some ov := by
    intro p ov x hp hov hx
    have hlt := (hwt p hp).1
    cases himpl : dm.impl with
    | ptr idx isConst =>
      simp only [DataMember.read, himpl] at hx
      obtain ⟨ht, hab, _⟩ := ctorValue_temp w m dm.mType x
      refine ⟨_, _, ?_, ht.toBool_true.1, ht, (hab.2.2 p hlt).trans hov⟩
      simp [DataMember.Get, hp, hov, himpl, hx]
    | setGet setter getter =>
      simp only [DataMember.read, himpl, Option.some.injEq] at hx
      subst hx
      obtain ⟨ht, hab, _⟩ := ctorValue_temp w (m.emit .native) dm.mType (getter ov)
      refine ⟨_, _, ?_, ht.toBool_true.1, ht, (hab.2.2 p hlt).trans hov⟩
      simp [DataMember.Get, hp, hov, himpl]
  refine ⟨⟨?_, fun h => ⟨_, _, hraise h⟩⟩, fun h => ⟨hraise h, ?_⟩, hok⟩
  · rintro ⟨m1, e, he⟩
    obtain ⟨p, hp⟩ := TryCast_defined w o dm.mParent (Or.inr (by simp [hS]))
    cases p with
    | none => exact hp
    | some q =>
      obtain ⟨_, ov, x, hov, hx⟩ := hwt q hp
      obtain ⟨m2, r, hget, _⟩ := hok q ov x hp hov hx
      rw [hget] at he
      simp at he
  · simp [BadCastException.ctor]

/-- C2 on the registered program: a Derived casts to itself and to its direct base Base,
a Most does not cast to Base, which only the chain Most, Derived, Base reaches. -/
theorem TryCast_cases_witness :
    derivedBuilt.2.TryCast demoWorld 4 = some (some 0) ∧
    (derivedBuilt.2.TryCast demoWorld 3 = some ((⟨4, 3⟩ : Base).Cast (some 0)) ∧
      (⟨4, 3⟩ : Base).Cast (some 0) ≠ none) ∧
    mostBuilt.2.TryCast demoWorld 3 = some none :=
  ⟨((TryCast_cases demoWorld derivedBuilt.2 4).2.1 0 4 rfl rfl).1 rfl,
   ((TryCast_cases demoWorld derivedBuilt.2 3).2.1 0 4 rfl rfl).2.1 (by decide) ⟨4, 3⟩
     (by simp [demoWorld, demoDesc]) rfl,
   (((TryCast_cases demoWorld mostBuilt.2 3).2.1 1 5 rfl rfl).2.2 (by decide)
     (by simp [demoWorld, demoDesc])).1⟩

theorem floatBuilt_valid : floatBuilt.2.Valid floatBuilt.1 := by
  unfold BasicAny.Valid
  exact ⟨rfl, rfl, by decide, rfl, rfl⟩

theorem celsiusBuilt_valid : celsiusBuilt.2.Valid celsiusBuilt.1 := by
  unfold BasicAny.Valid
  exact ⟨rfl, rfl, by decide, rfl, rfl⟩

/-- C3 on the registered program: a float converts to int through its edge, and a
Celsius, which reaches int only through float, converts to an empty container. -/
theorem TryConvert_nonempty_iff_witness :
    (floatBuilt.2.Valid floatBuilt.1 ∧
      ∃ m1 r, floatBuilt.2.TryConvert demoWorld floatBuilt.1 0 = some (m1, r) ∧
        r.toBool = true ∧ r.mType = some 0) ∧
    (celsiusBuilt.2.Valid celsiusBuilt.1 ∧
      ∃ m1 r, celsiusBuilt.2.TryConvert demoWorld celsiusBuilt.1 0 = some (m1, r) ∧
        r.toBool = false) := by
  refine ⟨⟨floatBuilt_valid, ?_⟩, ⟨celsiusBuilt_valid, ?_⟩⟩
  · obtain ⟨m1, r, h, hiff, hty, _⟩ :=
      TryConvert_nonempty_iff demoWorld floatBuilt.1 floatBuilt.2 0 floatBuilt_valid
    have hr : r.toBool = true :=
      hiff.mpr ⟨rfl, 1, rfl, Or.inr ⟨⟨1, 0⟩, by simp [demoWorld, demoDesc], rfl⟩⟩
    exact ⟨m1, r, h, hr, hty hr⟩
  · obtain ⟨m1, r, h, _, _, hhop⟩ :=
      TryConvert_nonempty_iff demoWorld celsiusBuilt.1 celsiusBuilt.2 0 celsiusBuilt_valid
    exact ⟨m1, r, h, hhop 7 1 rfl (by decide)
      ⟨⟨7, 1⟩, by simp [demoWorld, demoDesc], rfl⟩
      ⟨⟨1, 0⟩, by simp [demoWorld, demoDesc], rfl⟩
      (by simp [demoWorld, demoDesc])⟩

/-- C6 on the registered program: `NewInstance(3)` on `Point(int, int)` is empty. -/
theorem arity_mismatch_empty_witness :
    pointCtor.NewInstanceV demoWorld emptyMem [.value 0 (.num 3)]
      = some (BasicAny.ctorDefault emptyMem) ∧
    (BasicAny.ctorDefault emptyMem).2.toBool = false :=
  ⟨(arity_mismatch_empty demoWorld emptyMem).2.1 pointCtor [.value 0 (.num 3)] (by decide),
   (arity_mismatch_empty demoWorld emptyMem).2.2.2.1⟩

/-- On the registered program: `x` of a `Point{3, 4}` reads 3, and `x` of a float raises
with the names Point and float. -/
theorem Get_raises_iff_witness :
    (∃ m1 r, pointX.Get demoWorld pointBuilt.1 pointBuilt.2 = some (m1, .ok r) ∧
      r.toBool = true ∧ r.Temp pointBuilt.1.next m1.next m1 0 (.num 3) ∧
      m1.cells 0 = some (.obj [.num 3, .num 4])) ∧
    pointX.Get demoWorld floatBuilt.1 floatBuilt.2 = some (floatBuilt.1, .error
      ⟨" wrong type from Get: tried to get Point, contained float"⟩) :=
  ⟨(Get_raises_iff demoWorld pointBuilt.1 pointX pointBuilt.2 0 2 rfl rfl (by
      intro p hp
      have hp0 : p = 0 := by
        have h : pointBuilt.2.TryCast demoWorld pointX.mParent = some (some 0) := by decide
        rw [h] at hp
        simpa using hp.symm
      subst hp0
      exact ⟨by decide, _, _, rfl, rfl⟩)).2.2 0 _ _ (by decide) rfl rfl,
   ((Get_raises_iff demoWorld floatBuilt.1 pointX floatBuilt.2 0 1 rfl rfl (by
      intro p hp
      have h : floatBuilt.2.TryCast demoWorld pointX.mParent = some none := by decide
      rw [h] at hp
      simp at hp)).2.1 (by decide)).1⟩

/-- C10 on the registered program: the copy of an owned `Point{3, 4}` is a second
instance at another address, and the copy of a reference is the same reference. -/
theorem ctorCopy_independent_witness :
    (∃ m1 c b, BasicAny.ctorCopy pointBuilt.1 pointBuilt.2 = some (m1, c) ∧
      c.mInstance = some b ∧ b ≠ 0 ∧ m1.cells b = some (.obj [.num 3, .num 4]) ∧
      m1.cells 0 = some (.obj [.num 3, .num 4]) ∧ c.mType = pointBuilt.2.mType ∧
      c.mCopy = some .inl ∧ c.mMove = some .inl ∧ c.mDestroy = some .inl ∧
      (∀ x, (m1.store b x).cells 0 = some (.obj [.num 3, .num 4])) ∧
      (∀ x, (m1.store 0 x).cells b = some (.obj [.num 3, .num 4]))) ∧
    (∃ m1 c, BasicAny.ctorCopy pointMem (BasicAny.ctorRef pointMem pointRef).2 = some (m1, c) ∧
      c.Aliases 0 2 ∧ c.mInstance = (BasicAny.ctorRef pointMem pointRef).2.mInstance ∧
      c.mType = (BasicAny.ctorRef pointMem pointRef).2.mType ∧ c.IsRef = true ∧
      m1.cells = pointMem.cells ∧ m1.log = pointMem.log) :=
  ⟨(ctorCopy_independent pointBuilt.1 pointBuilt.2).1 0 .inl _ rfl (by decide) rfl rfl rfl rfl,
   (ctorCopy_independent pointMem (BasicAny.ctorRef pointMem pointRef).2).2 0 2
     ⟨rfl, rfl, rfl, rfl, rfl⟩⟩

/-! ## The resolution lines of `NewInstanceImpl` and `InvokeImpl` -/

theorem BasicAny.Valid.carry {m0 m : Mem} {c : BasicAny} (h : c.Valid m0)
    (hab : Mem.Above m0.next m0 m) : c.Valid m := by
  obtain ⟨h1, h2, h3⟩ := h
  refine ⟨h1, h2, ?_⟩
  cases hi : c.mInstance with
  | none => simpa [hi] using h3
  | some a =>
    simp only [hi] at h3 ⊢
    obtain ⟨hlt, hlive, hty⟩ := h3
    exact ⟨lt_of_lt_of_le hlt hab.1, by rw [hab.2.2 a hlt]; exact hlive, hty⟩

theorem BasicAny.Valid.castable {m : Mem} {c : BasicAny} (h : c.Valid m) :
    c.mInstance = none ∨ c.mType.isSome = true := by
  obtain ⟨_, _, h3⟩ := h
  cases hi : c.mInstance with
  | none => exact Or.inl rfl
  | some a =>
    simp only [hi] at h3
    exact Or.inr h3.2.2

/-- A valid container that does not cast to `P` is empty or holds another type. -/
theorem TryCast_none_type (w : World) (c : BasicAny) (P : TypeId) (a : Nat) (S : TypeId)
    (hi : c.mInstance = some a) (hS : c.mType = some S) (h : c.TryCast w P = some none) :
    S ≠ P := by
  intro hSP
  subst hSP
  simp [BasicAny.TryCast, BasicAny.toBool, BasicAny.Get, hi, hS] at h

/-- The pointer a successful cast returns is the held pointer. -/
theorem TryCast_some_eq (w : World) (c : BasicAny) (P : TypeId) (q : Nat)
    (h : c.TryCast w P = some (some q)) : c.mInstance = some q := by
  cases hi : c.mInstance with
  | none => simp [BasicAny.TryCast, BasicAny.toBool, BasicAny.Get, hi] at h
  | some a =>
    cases hS : c.mType with
    | none => simp [BasicAny.TryCast, BasicAny.toBool, BasicAny.Get, hi, hS] at h
    | some S =>
      by_cases hPS : P = S
      · simp [BasicAny.TryCast, BasicAny.toBool, BasicAny.Get, hi, hS, hPS] at h
        rw [h]
      · by_cases hex : ∃ b ∈ (w.desc S).mBases, b.mType = P
        · have := castLoop_hit P (some a) (w.desc S).mBases none hex
          simp only [Base.Cast] at this
          simp [BasicAny.TryCast, BasicAny.toBool, BasicAny.Get, hi, hS, hPS,
            TypeDescriptor.GetBases, Base.Cast, this] at h
          rw [h]
        · have hno : ∀ b ∈ (w.desc S).mBases, b.mType ≠ P := fun b hb hbP => hex ⟨b, hb, hbP⟩
          have := castLoop_miss P (some a) (w.desc S).mBases none hno
          simp only [Base.Cast] at this
          simp [BasicAny.TryCast, BasicAny.toBool, BasicAny.Get, hi, hS, hPS,
            TypeDescriptor.GetBases, Base.Cast, this] at h

theorem Converted1.carryOver {w : World} {m0 mf mf2 : Mem} {lo hi : Nat} {a : BasicAny}
    {P : TypeId} {c : BasicAny} (h : Converted1 w m0 mf lo hi a P c)
    (hm : ∀ x, lo ≤ x → x < hi → mf2.cells x = mf.cells x) :
    Converted1 w m0 mf2 lo hi a P c := by
  unfold Converted1 at h ⊢
  split
  · rename_i q hq
    simpa [hq] using h
  · rename_i hq
    split at h
    · exact absurd ‹_› (hq _)
    · cases hcv : convertedValue w m0 a P with
      | none => simpa [hcv] using h
      | some v =>
        simp only [hcv] at h ⊢
        exact BasicAny.Temp.frame h hm

/-- The element `convertedArgs[i]` built by one step of the second line. -/
theorem convertOne_spec (w : World) (m0 m : Mem) (a : BasicAny) (P : TypeId)
    (p : Option Nat) (hv : a.Valid m0) (hab : Mem.Above m0.next m0 m)
    (hp : a.TryCast w P = some p) :
    ∃ m1 c,
      (match p with
        | some ptr => some (BasicAny.ctorRef m (AnyRef.ctorObject ptr P))
        | none => a.TryConvert w m P) = some (m1, c) ∧
      Mem.Above m.next m m1 ∧ Converted1 w m0 m1 m.next m1.next a P c := by
  cases p with
  | some q =>
    refine ⟨_, _, rfl, ?_, ?_⟩
    · simp [BasicAny.ctorRef, BasicAny.ctorDefault, Mem.fresh, Mem.Above, Mem.calls]
    · simp [Converted1, hp, BasicAny.ctorRef, BasicAny.ctorDefault, Mem.fresh,
        AnyRef.ctorObject, BasicAny.Aliases]
  | none =>
    have hvm : a.Valid m := hv.carry hab
    obtain ⟨m1, r, hres, habv, _, _, hempty, hfull⟩ := TryConvert_result w m a P hvm
    refine ⟨m1, r, hres, habv, ?_⟩
    simp only [Converted1, hp]
    cases hi : a.mInstance with
    | none =>
      have hb := hempty hi
      simp only [convertedValue, hi]
      exact hb
    | some i =>
      have h3 := hv.2.2
      simp only [hi] at h3
      obtain ⟨hlt, hlive, hty⟩ := h3
      obtain ⟨S, hS⟩ := Option.isSome_iff_exists.mp hty
      obtain ⟨v, hval⟩ := Option.isSome_iff_exists.mp hlive
      have hvalm : m.cells i = some v := (hab.2.2 i hlt).trans hval
      have hSP := TryCast_none_type w a P i S hi hS hp
      have hd := (hfull i S v hi hS hvalm).2 hSP
      cases hl : lastConversion P (w.desc S).mConversions with
      | none =>
        simp only [hl] at hd
        simp only [convertedValue, hi, hS, hl]
        exact hd
      | some e =>
        simp only [hl] at hd
        simp only [convertedValue, hi, hS, hl, hval]
        exact hd

/-- The first line succeeds on valid containers. -/
theorem castAll_defined (w : World) :
    ∀ (args : List BasicAny) (params : List TypeId), args.length = params.length →
      (∀ a ∈ args, a.mInstance = none ∨ a.mType.isSome = true) →
      ∃ ps, castAll w args params = some ps := by
  intro args
  induction args with
  | nil =>
    intro params hlen _
    cases params with
    | nil => exact ⟨[], rfl⟩
    | cons P Ps => simp at hlen
  | cons a as ih =>
    intro params hlen hv
    cases params with
    | nil => simp at hlen
    | cons P Ps =>
      obtain ⟨p, hp⟩ := TryCast_defined w a P (hv a (List.mem_cons_self _ _))
      obtain ⟨ps, hps⟩ := ih Ps (by simpa using hlen)
        (fun x hx => hv x (List.mem_cons_of_mem _ hx))
      exact ⟨p :: ps, by simp [castAll, hp, hps]⟩

/-- The second line succeeds on valid containers and builds `convertedArgs` in fresh
memory, one address range per element. -/
theorem convertAll_spec (w : World) (m0 : Mem) :
    ∀ (args : List BasicAny) (params : List TypeId) (tuple : List (Option Nat)) (m : Mem),
      args.length = params.length → (∀ a ∈ args, a.Valid m0) → Mem.Above m0.next m0 m →
      castAll w args params = some tuple →
      ∃ mf cs, convertAll w m args params tuple = some (mf, cs) ∧ Mem.Above m.next m mf ∧
        ConvertedAll w m0 mf m.next args params cs := by
  intro args
  induction args with
  | nil =>
    intro params tuple m hlen _ _ hc
    cases params with
    | nil =>
      exact ⟨m, [], by simp [convertAll], Mem.Above.refl _ _, by simp [ConvertedAll]⟩
    | cons P Ps => simp at hlen
  | cons a as ih =>
    intro params tuple m hlen hv hab hc
    cases params with
    | nil => simp at hlen
    | cons P Ps =>
      obtain ⟨p, hp⟩ := TryCast_defined w a P (hv a (List.mem_cons_self _ _)).castable
      simp only [castAll, hp] at hc
      cases hps : castAll w as Ps with
      | none => simp [hps] at hc
      | some ps =>
        simp only [hps, Option.some.injEq] at hc
        subst hc
        obtain ⟨m1, c, hfirst, hab1, hconv1⟩ :=
          convertOne_spec w m0 m a P p (hv a (List.mem_cons_self _ _)) hab hp
        have hab01 : Mem.Above m0.next m0 m1 := hab.trans (hab1.mono hab.1)
        obtain ⟨mf, cs, hrest, habf, hconvs⟩ :=
          ih Ps ps m1 (by simpa using hlen) (fun x hx => hv x (List.mem_cons_of_mem _ hx))
            hab01 hps
        refine ⟨mf, c :: cs, ?_, hab1.trans (habf.mono hab1.1), ?_⟩
        · simp only [convertAll, hfirst, hrest]
        · exact ⟨m1.next, hab1.1,
            hconv1.carryOver (fun x _ hx => habf.2.2 x hx), hconvs⟩

/-- The third line returns the pointers held by the elements of `convertedArgs`. -/
theorem castAll_converted (w : World) (m0 mf : Mem) :
    ∀ (args : List BasicAny) (params : List TypeId) (cs : List BasicAny) (lo : Nat),
      ConvertedAll w m0 mf lo args params cs →
      castAll w cs params = some (cs.map (fun c => c.mInstance)) := by
  intro args
  induction args with
  | nil =>
    intro params cs lo h
    cases params <;> cases cs <;> simp [ConvertedAll] at h
    rfl
  | cons a as ih =>
    intro params cs lo h
    cases params with
    | nil => simp [ConvertedAll] at h
    | cons P Ps =>
      cases cs with
      | nil => simp [ConvertedAll] at h
      | cons c cs =>
        obtain ⟨hi, _, h1, hrest⟩ := h
        have hc : c.TryCast w P = some c.mInstance := by
          unfold Converted1 at h1
          split at h1
          · obtain ⟨e1, e2, _⟩ := h1
            simp [BasicAny.TryCast, BasicAny.toBool, BasicAny.Get, e1, e2]
          · split at h1
            · obtain ⟨x, tr, e1, _, e3, _⟩ := h1
              simp [BasicAny.TryCast, BasicAny.toBool, BasicAny.Get, e1, e3]
            · simp [BasicAny.TryCast, BasicAny.toBool, BasicAny.Get, h1.1]
        simp [castAll, hc, ih Ps cs hi hrest]

theorem Disposable.transport {m m2 : Mem} :
    ∀ {cs : List BasicAny} {lo hi : Nat}, Disposable m lo hi cs →
      (∀ x, lo ≤ x → x < hi → m2.cells x = m.cells x) → Disposable m2 lo hi cs := by
  intro cs
  induction cs with
  | nil =>
    intro lo hi h _
    exact h
  | cons c cs ih =>
    intro lo hi h hm
    obtain ⟨k, hk, hc, hrest⟩ := h
    have hkhi : k ≤ hi := by
      clear ih hc hm
      induction cs generalizing k with
      | nil => exact hrest
      | cons d ds ihd =>
        obtain ⟨k2, hk2, _, hrest2⟩ := hrest
        exact le_trans hk2 (ihd k2 (le_trans hk hk2) hrest2)
    refine ⟨k, hk, ?_, ih hrest (fun x hx1 hx2 => hm x (le_trans hk hx1) hx2)⟩
    rcases hc with hc | ⟨a, tr, h1, h2, h3, h4, h5⟩
    · exact Or.inl hc
    · exact Or.inr ⟨a, tr, h1, h2, h3, h4, by rw [hm a h3 (lt_of_lt_of_le h4 hkhi)]; exact h5⟩

theorem Disposable.le {m : Mem} :
    ∀ {cs : List BasicAny} {lo hi : Nat}, Disposable m lo hi cs → lo ≤ hi := by
  intro cs
  induction cs with
  | nil =>
    intro lo hi h
    exact h
  | cons c cs ih =>
    intro lo hi h
    obtain ⟨k, hk, _, hrest⟩ := h
    exact le_trans hk (ih hrest)

/-- Destroying a disposable vector succeeds; it ends the lifetime of objects of
`[lo, hi)` only, allocates nothing and runs no native operation. -/
theorem dtorAll_spec :
    ∀ (cs : List BasicAny) (m : Mem) (lo hi : Nat), Disposable m lo hi cs →
      ∃ m1, dtorAll m cs = some m1 ∧ m1.next = m.next ∧ m1.calls = m.calls ∧
        ∀ x, (x < lo ∨ hi ≤ x) → m1.cells x = m.cells x := by
  intro cs
  induction cs with
  | nil =>
    intro m lo hi _
    exact ⟨m, rfl, rfl, rfl, fun _ _ => rfl⟩
  | cons c cs ih =>
    intro m lo hi h
    obtain ⟨k, hk, hc, hrest⟩ := h
    have hkhi := hrest.le
    rcases hc with hc | ⟨a, tr, h1, h2, h3, h4, h5⟩
    · obtain ⟨m1, hd, hn, hcalls, hfr⟩ := ih m k hi hrest
      refine ⟨m1, by simp [dtorAll, dtor_inert m c hc, hd], hn, hcalls, ?_⟩
      intro x hx
      exact hfr x (by omega)
    · obtain ⟨v, hv⟩ := Option.isSome_iff_exists.mp h5
      have hdt : ∃ m2, BasicAny.dtor m c = some m2 ∧ m2.next = m.next ∧
          m2.calls = m.calls ∧ ∀ x, x ≠ a → m2.cells x = m.cells x := by
        cases tr <;>
        · simp only [BasicAny.dtor, h2, TypeTraits.Destroy, h1, hv]
          refine ⟨_, rfl, rfl, ?_, ?_⟩
          · simp [Mem.calls, Mem.emit, Mem.kill, List.count_append]
          · intro x hx
            simp [Mem.emit, Mem.kill, Function.update_apply, hx]
      obtain ⟨m2, hd2, hn2, hc2, hfr2⟩ := hdt
      have hrest2 : Disposable m2 k hi cs :=
        hrest.transport (fun x hx1 _ => hfr2 x (by omega))
      obtain ⟨m1, hd, hn, hcalls, hfr⟩ := ih m2 k hi hrest2
      refine ⟨m1, by simp [dtorAll, hd2, hd], hn.trans hn2, hcalls.trans hc2, ?_⟩
      intro x hx
      rw [hfr x (by omega), hfr2 x (by omega)]

/-- The vector `convertedArgs` is disposable in the memory it was built in. -/
theorem ConvertedAll.disposable {w : World} {m0 mf : Mem} :
    ∀ {args : List BasicAny} {params : List TypeId} {cs : List BasicAny} {lo : Nat},
      ConvertedAll w m0 mf lo args params cs → Disposable mf lo mf.next cs := by
  intro args
  induction args with
  | nil =>
    intro params cs lo h
    cases params <;> cases cs <;> simp [ConvertedAll] at h
    exact h
  | cons a as ih =>
    intro params cs lo h
    cases params with
    | nil => simp [ConvertedAll] at h
    | cons P Ps =>
      cases cs with
      | nil => simp [ConvertedAll] at h
      | cons c cs =>
        obtain ⟨hi, hlo, h1, hrest⟩ := h
        refine ⟨hi, hlo, ?_, ih hrest⟩
        unfold Converted1 at h1
        split at h1
        · exact Or.inl h1.2.2.2.2
        · split at h1
          · obtain ⟨x, tr, e1, e2, _, _, _, e6, _, _, e9, e10, _⟩ := h1
            exact Or.inr ⟨x, tr, e1, e6, e9, e10, by simp [e2]⟩
          · exact Or.inl h1.2.2.2.1

/-- The element built for an argument holds the pointer to the value the specification's
rule resolves the argument to, and a non-null pointer of it points to a live object. -/
theorem Converted1.value {w : World} {m0 mf : Mem} {lo hi : Nat} {a : BasicAny}
    {P : TypeId} {c : BasicAny} (h : Converted1 w m0 mf lo hi a P c) (hv : a.Valid m0)
    (hm : ∀ x, x < m0.next → mf.cells x = m0.cells x) :
    mf.deref c.mInstance = specResolve w m0 a P ∧
    (c.mInstance.isSome = true → (mf.deref c.mInstance).isSome = true) := by
  unfold Converted1 at h
  unfold specResolve
  split at h
  · rename_i q hq
    have hq2 := TryCast_some_eq w a P q hq
    have h3 := hv.2.2
    simp only [hq2] at h3
    obtain ⟨hlt, hlive, _⟩ := h3
    have hd : mf.deref c.mInstance = m0.cells q := by
      simp only [Mem.deref, h.1, hm q hlt]
    refine ⟨hd, fun _ => ?_⟩
    rw [hd]
    exact hlive
  · rename_i hq
    cases hcv : convertedValue w m0 a P with
    | none =>
      simp only [hcv] at h
      simp [Mem.deref, h.1]
    | some v =>
      simp only [hcv] at h
      obtain ⟨x, tr, e1, e2, _⟩ := h
      simp [Mem.deref, e1, e2]

/-- The pointers of `convertedArgs` read as the values of the specification's rule. -/
theorem ConvertedAll.values {w : World} {m0 mf : Mem} :
    ∀ {args : List BasicAny} {params : List TypeId} {cs : List BasicAny} {lo : Nat},
      ConvertedAll w m0 mf lo args params cs → (∀ a ∈ args, a.Valid m0) →
      (∀ x, x < m0.next → mf.cells x = m0.cells x) →
      cs.map (fun c => mf.deref c.mInstance) = specResolveAll w m0 args params ∧
      ∀ c ∈ cs, c.mInstance.isSome = true → (mf.deref c.mInstance).isSome = true := by
  intro args
  induction args with
  | nil =>
    intro params cs lo h _ _
    cases params <;> cases cs <;> simp [ConvertedAll] at h
    simp [specResolveAll]
  | cons a as ih =>
    intro params cs lo h hv hm
    cases params with
    | nil => simp [ConvertedAll] at h
    | cons P Ps =>
      cases cs with
      | nil => simp [ConvertedAll] at h
      | cons c cs =>
        obtain ⟨hi, _, h1, hrest⟩ := h
        obtain ⟨hval, hlive⟩ := h1.value (hv a (List.mem_cons_self _ _)) hm
        obtain ⟨hvals, hlives⟩ := ih hrest (fun x hx => hv x (List.mem_cons_of_mem _ hx)) hm
        refine ⟨by simp [specResolveAll, hval, hvals], ?_⟩
        intro d hd
        rcases List.mem_cons.mp hd with rfl | hd
        · exact hlive
        · exact hlives d hd

/-- Reading a pack of pointers whose targets are the values `vs`. -/
theorem derefAll_of_map (m : Mem) :
    ∀ (ps : List (Option Nat)) (vs : List Val), ps.map m.deref = vs.map some →
      derefAll m ps = some vs ∧ allValid ps = true := by
  intro ps
  induction ps with
  | nil =>
    intro vs h
    cases vs with
    | nil => exact ⟨rfl, rfl⟩
    | cons v vs => simp at h
  | cons p ps ih =>
    intro vs h
    cases vs with
    | nil => simp at h
    | cons v vs =>
      simp only [List.map_cons, List.cons.injEq] at h
      obtain ⟨h1, h2⟩ := h
      obtain ⟨hd, hall⟩ := ih vs h2
      refine ⟨by simp [derefAll, h1, hd], ?_⟩
      cases p with
      | none => simp [Mem.deref] at h1
      | some q =>
        simp only [allValid] at hall ⊢
        simp [hall]

/-- A pack with an unresolved argument fails the validity fold. -/
theorem allValid_false_of_none (m : Mem) (ps : List (Option Nat))
    (hlive : ∀ p ∈ ps, p.isSome = true → (m.deref p).isSome = true)
    (h : ∃ o ∈ ps.map m.deref, o = none) : allValid ps = false := by
  obtain ⟨o, ho, hnone⟩ := h
  subst hnone
  obtain ⟨p, hp, hpd⟩ := List.mem_map.mp ho
  have hpn : p = none := by
    cases p with
    | none => rfl
    | some q =>
      have := hlive (some q) hp rfl
      rw [hpd] at this
      simp at this
  subst hpn
  simp only [allValid, List.all_eq_false]
  exact ⟨none, hp, by simp⟩

/-- The three resolution lines succeed on valid arguments: `convertedArgs` is built in
fresh memory and the final `argsTuple` holds its pointers. -/
theorem resolveArguments_spec (w : World) (m : Mem) (args : List BasicAny)
    (params : List TypeId) (hlen : args.length = params.length)
    (hv : ∀ a ∈ args, a.Valid m) :
    ∃ mf cs, resolveArguments w m args params = some (mf, cs, cs.map (fun c => c.mInstance)) ∧
      Mem.Above m.next m mf ∧ ConvertedAll w m mf m.next args params cs := by
  obtain ⟨tuple, htuple⟩ := castAll_defined w args params hlen (fun a ha => (hv a ha).castable)
  obtain ⟨mf, cs, hconv, hab, hall⟩ :=
    convertAll_spec w m args params tuple m hlen hv (Mem.Above.refl _ _) htuple
  refine ⟨mf, cs, ?_, hab, hall⟩
  simp [resolveArguments, htuple, hconv, castAll_converted w m mf args params cs m.next hall]

/-- `NewInstanceImpl` on valid arguments of the right number: it returns; when every
argument resolves, the result owns the native constructor's value of the resolved
arguments, of the parent type, after one native execution; when one does not, the result
is empty and the native constructor did not run.  Memory below the call is unchanged. -/
theorem NewInstanceImpl_spec (w : World) (c : Constructor) (m : Mem) (args : List BasicAny)
    (hlen : args.length = c.mParamTypes.length) (hv : ∀ a ∈ args, a.Valid m) :
    ∃ m1 r, c.NewInstanceImpl w m args = some (m1, r) ∧ m.next ≤ m1.next ∧
      (∀ x, x < m.next → m1.cells x = m.cells x) ∧
      (∀ vs, specResolveAll w m args c.mParamTypes = vs.map some →
        r.Temp m.next m1.next m1 c.mParent (c.native vs) ∧ m1.calls = m.calls + 1) ∧
      ((∃ o ∈ specResolveAll w m args c.mParamTypes, o = none) →
        r.Blank m.next m1.next ∧ m1.calls = m.calls) := by
  obtain ⟨mf, cs, hres, hab, hall⟩ := resolveArguments_spec w m args c.mParamTypes hlen hv
  obtain ⟨hvals, hlives⟩ := hall.values hv hab.2.2
  have hdisp := hall.disposable
  have hmap : (cs.map (fun c => c.mInstance)).map mf.deref
      = specResolveAll w m args c.mParamTypes := by
    rw [← hvals, List.map_map]
    rfl
  by_cases hok : ∃ vs : List Val, specResolveAll w m args c.mParamTypes = List.map some vs
  · obtain ⟨vs, hvs⟩ := hok
    obtain ⟨hderef, hvalid⟩ := derefAll_of_map mf _ vs (hmap.trans hvs)
    obtain ⟨ht, habv, _⟩ := ctorValue_temp w (mf.emit .native) c.mParent (c.native vs)
    generalize hcv : BasicAny.ctorValue w (mf.emit .native) c.mParent (c.native vs) = cv
      at ht habv
    obtain ⟨m2, r⟩ := cv
    simp only at ht habv
    have hdisp2 : Disposable m2 m.next mf.next cs :=
      hdisp.transport (fun x _ hx => habv.2.2 x hx)
    obtain ⟨m3, hdt, hn3, hc3, hfr3⟩ := dtorAll_spec cs m2 m.next mf.next hdisp2
    have hle2 : mf.next ≤ m2.next := habv.1
    refine ⟨m3, r, ?_, ?_, ?_, ?_, ?_⟩
    · simp [Constructor.NewInstanceImpl, hres, hvalid, hderef, hcv, hdt]
    · rw [hn3]
      exact le_trans hab.1 hle2
    · intro x hx
      rw [hfr3 x (Or.inl hx), habv.2.2 x (lt_of_lt_of_le hx hab.1)]
      exact hab.2.2 x hx
    · intro vs2 hvs2
      have hvv : vs2 = vs := by
        have := hvs2.symm.trans hvs
        exact (List.map_injective_iff.mpr (Option.some_injective _)) this
      subst hvv
      refine ⟨?_, ?_⟩
      · have ht3 : r.Temp mf.next m2.next m3 c.mParent (c.native vs2) :=
          ht.frame (fun x hx _ => hfr3 x (Or.inr hx))
        obtain ⟨a, tr, h1, h2, h3, h4, h5, h6, h7, h8, h9, h10, h11, h12⟩ := ht3
        exact ⟨a, tr, h1, h2, h3, h4, h5, h6, le_trans hab.1 h7, by rw [hn3]; exact h8,
          le_trans hab.1 h9, by rw [hn3]; exact h10, h11, h12⟩
      · rw [hc3, habv.2.1]
        have := hab.2.1
        simp only [Mem.calls] at this
        simp [Mem.calls, Mem.emit, List.count_append, this]
    · rintro ⟨o, ho, hnone⟩
      subst hnone
      rw [hvs] at ho
      simp at ho
  · have hnone : ∃ o ∈ specResolveAll w m args c.mParamTypes, o = none := by
      by_contra hcon
      apply hok
      refine ⟨(specResolveAll w m args c.mParamTypes).filterMap id, ?_⟩
      generalize specResolveAll w m args c.mParamTypes = l at hcon
      induction l with
      | nil => rfl
      | cons o os ih =>
        cases o with
        | none => exact absurd ⟨none, List.mem_cons_self _ _, rfl⟩ hcon
        | some v =>
          simp only [List.filterMap_cons, id, List.map_cons, List.cons.injEq, true_and]
          exact ih (fun ⟨o, ho, hn⟩ => hcon ⟨o, List.mem_cons_of_mem _ ho, hn⟩)
    have hinvalid : allValid (cs.map (fun c => c.mInstance)) = false := by
      apply allValid_false_of_none mf
      · intro p hp hps
        obtain ⟨d, hd, hdp⟩ := List.mem_map.mp hp
        subst hdp
        exact hlives d hd hps
      · rw [hmap]
        exact hnone
    obtain ⟨hb, habv, hcells, hlog, hnext⟩ := ctorDefault_blank mf
    generalize hcd : BasicAny.ctorDefault mf = cd at hb habv hcells hlog hnext
    obtain ⟨m2, r⟩ := cd
    simp only at hb habv hcells hlog hnext
    have hdisp2 : Disposable m2 m.next mf.next cs :=
      hdisp.transport (fun x _ hx => habv.2.2 x hx)
    obtain ⟨m3, hdt, hn3, hc3, hfr3⟩ := dtorAll_spec cs m2 m.next mf.next hdisp2
    refine ⟨m3, r, ?_, ?_, ?_, ?_, ?_⟩
    · simp [Constructor.NewInstanceImpl, hres, hinvalid, hcd, hdt]
    · rw [hn3]
      exact le_trans hab.1 habv.1
    · intro x hx
      rw [hfr3 x (Or.inl hx), habv.2.2 x (lt_of_lt_of_le hx hab.1)]
      exact hab.2.2 x hx
    · intro vs hvs
      exact absurd ⟨vs, hvs⟩ hok
    · intro _
      refine ⟨?_, ?_⟩
      · obtain ⟨h1, h2, h3, h4, h5, h6⟩ := hb
        exact ⟨h1, h2, h3, h4, le_trans hab.1 h5, by rw [hn3]; exact h6⟩
      · rw [hc3, habv.2.1]
        exact hab.2.1

/-! ## The argument vector of the variadic calls -/

theorem BasicAny.Temp.valid {lo hi : Nat} {m : Mem} {c : BasicAny} {T : TypeId} {v : Val}
    (h : c.Temp lo hi m T v) (hhi : hi ≤ m.next) : c.Valid m := by
  obtain ⟨a, tr, h1, h2, h3, h4, h5, h6, _, _, _, h10, _⟩ := h
  refine ⟨by rw [h4, h5], by rw [h4, h6], ?_⟩
  simp only [h1]
  exact ⟨lt_of_lt_of_le h10 hhi, by simp [h2], by simp [h3]⟩

theorem Arg.Valid.lift {m0 m : Mem} {x : Arg} (h : x.Valid m0)
    (hab : Mem.Above m0.next m0 m) : x.Valid m := by
  cases x with
  | value U v => trivial
  | any a => exact BasicAny.Valid.carry h hab
  | ref r =>
    simp only [Arg.Valid] at h ⊢
    cases hi : r.mInstance with
    | none => simp
    | some a =>
      simp only [hi] at h ⊢
      exact ⟨lt_of_lt_of_le h.1 hab.1, by rw [hab.2.2 a h.1]; exact h.2.1, h.2.2⟩

/-- One element of the argument vector: built in fresh memory, valid, and either without
destroy operation or owning a live object of the fresh range. -/
theorem buildOne_spec (w : World) (m : Mem) (x : Arg) (hx : x.Valid m) :
    ∃ m1 c,
      (match x with
        | .value U v => some (BasicAny.ctorValue w m U v)
        | .any a => BasicAny.ctorCopy m a
        | .ref r => some (BasicAny.ctorRef m r)) = some (m1, c) ∧
      Mem.Above m.next m m1 ∧ c.Valid m1 ∧
      (c.mDestroy = none ∨ ∃ a tr, c.mInstance = some a ∧ c.mDestroy = some tr ∧
        m.next ≤ a ∧ a < m1.next ∧ (m1.cells a).isSome = true) := by
  cases x with
  | value U v =>
    obtain ⟨ht, hab, _⟩ := ctorValue_temp w m U v
    refine ⟨(BasicAny.ctorValue w m U v).1, (BasicAny.ctorValue w m U v).2, rfl, hab,
      ht.valid (le_refl _), Or.inr ?_⟩
    obtain ⟨a, tr, h1, h2, _, _, _, h6, _, _, h9, h10, _⟩ := ht
    exact ⟨a, tr, h1, h6, h9, h10, by rw [h2]; rfl⟩
  | any a =>
    obtain ⟨ai, as, at1, ac, am, ad⟩ := a
    obtain ⟨h1, h2, h3⟩ := hx
    simp only at h1 h2 h3
    subst h1 h2
    cases ad with
    | none =>
      refine ⟨_, _, by simp [BasicAny.ctorCopy, Mem.fresh]; exact ⟨rfl, rfl⟩, ?_, ?_, Or.inl rfl⟩
      · simp [Mem.Above, Mem.calls]
      · refine ⟨rfl, rfl, ?_⟩
        cases ai with
        | none => rfl
        | some i =>
          simp only at h3 ⊢
          exact ⟨by omega, h3.2.1, h3.2.2⟩
    | some tr =>
      cases ai with
      | none => simp at h3
      | some i =>
        simp only at h3
        obtain ⟨hlt, hlive, hty⟩ := h3
        obtain ⟨v, hv⟩ := Option.isSome_iff_exists.mp hlive
        cases tr
        · refine ⟨_, _, by
            simp [BasicAny.ctorCopy, TypeTraits.Copy, Mem.deref, Mem.fresh, hv]
            exact ⟨rfl, rfl⟩, ?_, ?_, Or.inr ⟨m.next, .inl, rfl, rfl, ?_⟩⟩
          · refine ⟨by simp [Mem.store], by simp [Mem.calls, Mem.store], ?_⟩
            intro x hx
            simp (disch := omega) [Mem.store, Function.update_apply, if_neg]
          · refine ⟨rfl, rfl, ?_⟩
            simp [Mem.store, hty]
          · simp [Mem.store]
        · refine ⟨_, _, by
            simp [BasicAny.ctorCopy, TypeTraits.Copy, Mem.deref, Mem.fresh, hv]
            exact ⟨rfl, rfl⟩, ?_, ?_, Or.inr ⟨m.next + 1, .heap, rfl, rfl, ?_⟩⟩
          · refine ⟨by simp only [Mem.store, Mem.emit, Mem.bind_next]; omega, ?_, ?_⟩
            · simp [Mem.calls, Mem.store, Mem.emit, List.count_append]
            · intro x hx
              simp (disch := omega) [Mem.store, Mem.emit, Function.update_apply, if_neg]
          · refine ⟨rfl, rfl, ?_⟩
            simp [Mem.store, Mem.emit, hty]
          · simp [Mem.store, Mem.emit]
  | ref r =>
    refine ⟨_, _, rfl, ?_, ?_, Or.inl ?_⟩
    · simp [BasicAny.ctorRef, BasicAny.ctorDefault, Mem.fresh, Mem.Above, Mem.calls]
    · simp only [Arg.Valid] at hx
      refine ⟨rfl, rfl, ?_⟩
      simp only [BasicAny.ctorRef, BasicAny.ctorDefault, Mem.fresh, Mem.bind_next,
        Mem.bind_cells]
      cases hi : r.mInstance with
      | none => trivial
      | some a =>
        simp only [hi] at hx ⊢
        exact ⟨by omega, hx.2.1, hx.2.2⟩
    · simp [BasicAny.ctorRef, BasicAny.ctorDefault, Mem.fresh]

/-- The argument vector of a variadic call: built in fresh memory from usable arguments,
all its elements valid, the vector disposable. -/
theorem buildArgs_spec (w : World) (m0 : Mem) :
    ∀ (args : List Arg) (m : Mem), (∀ x ∈ args, x.Valid m0) → Mem.Above m0.next m0 m →
      ∃ m1 cs, buildArgs w m args = some (m1, cs) ∧ Mem.Above m.next m m1 ∧
        (∀ c ∈ cs, c.Valid m1) ∧ Disposable m1 m.next m1.next cs ∧
        cs.length = args.length := by
  intro args
  induction args with
  | nil =>
    intro m _ _
    exact ⟨m, [], rfl, Mem.Above.refl _ _, by simp, le_refl _, rfl⟩
  | cons x xs ih =>
    intro m hv hab
    obtain ⟨m1, c, hfirst, hab1, hval, hdisp⟩ :=
      buildOne_spec w m x ((hv x (List.mem_cons_self _ _)).lift hab)
    have hab01 : Mem.Above m0.next m0 m1 := hab.trans (hab1.mono hab.1)
    obtain ⟨m2, cs, hrest, hab2, hvals, hdisps, hlen⟩ :=
      ih m1 (fun y hy => hv y (List.mem_cons_of_mem _ hy)) hab01
    refine ⟨m2, c :: cs, ?_, hab1.trans (hab2.mono hab1.1), ?_, ?_, by simp [hlen]⟩
    · simp only [buildArgs, hfirst, hrest]
    · intro d hd
      rcases List.mem_cons.mp hd with rfl | hd
      · exact hval.carry hab2
      · exact hvals d hd
    · refine ⟨m1.next, hab1.1, ?_, hdisps⟩
      rcases hdisp with h | ⟨a, tr, h1, h2, h3, h4, h5⟩
      · exact Or.inl h
      · exact Or.inr ⟨a, tr, h1, h2, h3, h4, by rw [hab2.2.2 a h4]; exact h5⟩

/-! ## `Constructor::NewInstance` -/

/-- The variadic `NewInstance` on usable arguments of the right number: it returns; the
result is that of `NewInstanceImpl` on the argument vector, which survives the
destruction of the vector; memory below the call is unchanged. -/
theorem NewInstanceV_spec (w : World) (c : Constructor) (m : Mem) (args : List Arg)
    (hlen : args.length = c.mParamTypes.length) (hv : ∀ x ∈ args, x.Valid m) :
    ∃ m0 anyArgs, buildArgs w m args = some (m0, anyArgs) ∧
      ∃ m1 r, c.NewInstanceV w m args = some (m1, r) ∧ m.next ≤ m1.next ∧
        (∀ x, x < m.next → m1.cells x = m.cells x) ∧
        (∀ vs, specResolveAll w m0 anyArgs c.mParamTypes = vs.map some →
          r.Temp m.next m1.next m1 c.mParent (c.native vs) ∧ m1.calls = m.calls + 1) ∧
        ((∃ o ∈ specResolveAll w m0 anyArgs c.mParamTypes, o = none) →
          r.Blank m.next m1.next ∧ m1.calls = m.calls) := by
  obtain ⟨m0, cs, hbuild, hab, hvals, hdisp, hlen2⟩ :=
    buildArgs_spec w m args m hv (Mem.Above.refl _ _)
  obtain ⟨m2, r, himpl, hle2, hfr2, hok, hfail⟩ :=
    NewInstanceImpl_spec w c m0 cs (hlen2.trans hlen) hvals
  have hdisp2 : Disposable m2 m.next m0.next cs :=
    hdisp.transport (fun x _ hx => hfr2 x hx)
  obtain ⟨m3, hdt, hn3, hc3, hfr3⟩ := dtorAll_spec cs m2 m.next m0.next hdisp2
  refine ⟨m0, cs, hbuild, m3, r, ?_, ?_, ?_, ?_, ?_⟩
  · simp [Constructor.NewInstanceV, hlen, hbuild, himpl, hdt]
  · rw [hn3]
    exact le_trans hab.1 hle2
  · intro x hx
    rw [hfr3 x (Or.inl hx), hfr2 x (lt_of_lt_of_le hx hab.1)]
    exact hab.2.2 x hx
  · intro vs hvs
    obtain ⟨ht, hcalls⟩ := hok vs hvs
    refine ⟨?_, by rw [hc3, hcalls, hab.2.1]⟩
    have ht3 : r.Temp m0.next m2.next m3 c.mParent (c.native vs) :=
      ht.frame (fun x hx _ => hfr3 x (Or.inr hx))
    obtain ⟨a, tr, h1, h2, h3, h4, h5, h6, h7, h8, h9, h10, h11, h12⟩ := ht3
    exact ⟨a, tr, h1, h2, h3, h4, h5, h6, le_trans hab.1 h7, by rw [hn3]; exact h8,
      le_trans hab.1 h9, by rw [hn3]; exact h10, h11, h12⟩
  · intro hnone
    obtain ⟨hb, hcalls⟩ := hfail hnone
    refine ⟨?_, by rw [hc3, hcalls, hab.2.1]⟩
    obtain ⟨h1, h2, h3, h4, h5, h6⟩ := hb
    exact ⟨h1, h2, h3, h4, le_trans hab.1 h5, by rw [hn3]; exact h6⟩

/-- C4. With as many arguments as parameters, all valid and all resolving to the values
`vs`, `NewInstance` returns a non-empty, owning container whose type identity is the
constructor's parent type and whose value is the native constructor applied to `vs`, the
resolved arguments in declaration order, after exactly one native execution; for the
vector overload and for the variadic one, whose arguments resolve as elements of the
vector built from them. -/
theorem NewInstance_success (w : World) (c : Constructor) (m : Mem) :
    (∀ (args : List BasicAny) (vs : List Val), args.length = c.mParamTypes.length →
      (∀ a ∈ args, a.Valid m) → specResolveAll w m args c.mParamTypes = vs.map some →
      ∃ m1 r, c.NewInstance w m args = some (m1, r) ∧ r.toBool = true ∧ r.IsRef = false ∧
        r.mDestroy ≠ none ∧ r.mType = some c.mParent ∧
        m1.deref r.mInstance = some (c.native vs) ∧ m1.calls = m.calls + 1) ∧
    (∀ (args : List Arg) (vs : List Val), args.length = c.mParamTypes.length →
      (∀ x ∈ args, x.Valid m) →
      ∀ m0 anyArgs, buildArgs w m args = some (m0, anyArgs) →
      specResolveAll w m0 anyArgs c.mParamTypes = vs.map some →
      ∃ m1 r, c.NewInstanceV w m args = some (m1, r) ∧ r.toBool = true ∧ r.IsRef = false ∧
        r.mDestroy ≠ none ∧ r.mType = some c.mParent ∧
        m1.deref r.mInstance = some (c.native vs) ∧ m1.calls = m.calls + 1) := by
  have hsum : ∀ (m1 : Mem) (r : BasicAny) (v : Val),
      r.Temp m.next m1.next m1 c.mParent v →
      r.toBool = true ∧ r.IsRef = false ∧ r.mDestroy ≠ none ∧ r.mType = some c.mParent ∧
        m1.deref r.mInstance = some v := by
    intro m1 r v ht
    obtain ⟨a, tr, h1, h2, h3, h4, _, h6, _⟩ := ht
    simp [BasicAny.toBool, BasicAny.Get, BasicAny.IsRef, Mem.deref, h1, h2, h3, h4, h6]
  refine ⟨?_, ?_⟩
  · intro args vs hlen hv hvs
    obtain ⟨m1, r, himpl, _, _, hok, _⟩ := NewInstanceImpl_spec w c m args hlen hv
    obtain ⟨ht, hcalls⟩ := hok vs hvs
    obtain ⟨h1, h2, h3, h4, h5⟩ := hsum m1 r _ ht
    exact ⟨m1, r, by simp [Constructor.NewInstance, hlen, himpl], h1, h2, h3, h4, h5, hcalls⟩
  · intro args vs hlen hv m0 anyArgs hbuild hvs
    obtain ⟨m0b, cs, hbuild2, m1, r, hnew, _, _, hok, _⟩ := NewInstanceV_spec w c m args hlen hv
    rw [hbuild] at hbuild2
    simp only [Option.some.injEq, Prod.mk.injEq] at hbuild2
    obtain ⟨e1, e2⟩ := hbuild2
    subst e1 e2
    obtain ⟨ht, hcalls⟩ := hok vs hvs
    obtain ⟨h1, h2, h3, h4, h5⟩ := hsum m1 r _ ht
    exact ⟨m1, r, hnew, h1, h2, h3, h4, h5, hcalls⟩

/-! ## `Function::Invoke` -/

/-- `TryCast` looks at the held pointer and the held type only. -/
theorem TryCast_congr (w : World) (c d : BasicAny) (T : TypeId)
    (h1 : c.mInstance = d.mInstance) (h2 : c.mType = d.mType) :
    c.TryCast w T = d.TryCast w T := by
  simp [BasicAny.TryCast, BasicAny.toBool, BasicAny.Get, h1, h2]

/-- `InvokeImpl` on valid arguments of the right number, one of which does not resolve,
or with a receiver that does not cast to the class: it returns an empty container, the
native function did not run, and memory below the call is unchanged. -/
theorem InvokeImpl_nomatch (w : World) (f : Function) (m : Mem) (object : BasicAny)
    (args : List BasicAny) (hlen : args.length = f.mParamTypes.length)
    (hv : ∀ a ∈ args, a.Valid m)
    (hobj : object.mInstance = none ∨ object.mType.isSome = true)
    (hfail : (∃ o ∈ specResolveAll w m args f.mParamTypes, o = none) ∨
      ∃ C, f.mParent = some C ∧ object.TryCast w C = some none) :
    ∃ m1 r, f.InvokeImpl w m object args = some (m1, r) ∧ r.Blank m.next m1.next ∧
      m1.calls = m.calls ∧ m.next ≤ m1.next ∧ ∀ x, x < m.next → m1.cells x = m.cells x := by
  obtain ⟨mf, cs, hres, hab, hall⟩ := resolveArguments_spec w m args f.mParamTypes hlen hv
  obtain ⟨hvals, hlives⟩ := hall.values hv hab.2.2
  have hdisp := hall.disposable
  have hmap : (cs.map (fun c => c.mInstance)).map mf.deref
      = specResolveAll w m args f.mParamTypes := by
    rw [← hvals, List.map_map]
    rfl
  have hrecv : ∃ obj, (match f.mParent with
      | none => some none
      | some C => object.TryCast w C) = some obj := by
    cases f.mParent with
    | none => exact ⟨none, rfl⟩
    | some C => exact TryCast_defined w object C hobj
  obtain ⟨obj, hobjeq⟩ := hrecv
  have hguard : (allValid (cs.map (fun c => c.mInstance)) &&
      (f.mParent.isNone || obj.isSome)) = false := by
    rcases hfail with hnone | ⟨C, hC, hcast⟩
    · have : allValid (cs.map (fun c => c.mInstance)) = false := by
        apply allValid_false_of_none mf
        · intro p hp hps
          obtain ⟨d, hd, hdp⟩ := List.mem_map.mp hp
          subst hdp
          exact hlives d hd hps
        · rw [hmap]
          exact hnone
      simp [this]
    · simp only [hC, hcast, Option.some.injEq] at hobjeq
      subst hobjeq
      simp [hC]
  obtain ⟨hb, habv, hcells, hlog, hnext⟩ := ctorDefault_blank mf
  generalize hcd : BasicAny.ctorDefault mf = cd at hb habv hcells hlog hnext
  obtain ⟨m2, r⟩ := cd
  simp only at hb habv hcells hlog hnext
  have hdisp2 : Disposable m2 m.next mf.next cs :=
    hdisp.transport (fun x _ hx => habv.2.2 x hx)
  obtain ⟨m3, hdt, hn3, hc3, hfr3⟩ := dtorAll_spec cs m2 m.next mf.next hdisp2
  refine ⟨m3, r, ?_, ?_, ?_, ?_, ?_⟩
  · simp only [Function.InvokeImpl, hres, hobjeq, hguard]
    simp [hcd, hdt]
  · obtain ⟨h1, h2, h3, h4, h5, h6⟩ := hb
    exact ⟨h1, h2, h3, h4, le_trans hab.1 h5, by rw [hn3]; exact h6⟩
  · rw [hc3, habv.2.1]
    exact hab.2.1
  · rw [hn3]
    exact le_trans hab.1 habv.1
  · intro x hx
    rw [hfr3 x (Or.inl hx), habv.2.2 x (lt_of_lt_of_le hx hab.1)]
    exact hab.2.2 x hx

/-- The variadic `Invoke` on usable arguments of the right number, one of which does not
resolve, or with a receiver that does not cast to the class: it returns an empty
container and the native function did not run. -/
theorem Invoke_nomatch (w : World) (f : Function) (m : Mem) (object : AnyRef)
    (args : List Arg) (hlen : args.length = f.mParamTypes.length)
    (hv : ∀ x ∈ args, x.Valid m)
    (hobj : object.mInstance = none ∨ object.mType.isSome = true)
    (m0 : Mem) (anyArgs : List BasicAny) (hbuild : buildArgs w m args = some (m0, anyArgs))
    (hfail : (∃ o ∈ specResolveAll w m0 anyArgs f.mParamTypes, o = none) ∨
      ∃ C, f.mParent = some C ∧ (BasicAny.ctorRef m object).2.TryCast w C = some none) :
    ∃ m1 r, f.Invoke w m object args = some (m1, r) ∧ r.toBool = false ∧
      m1.calls = m.calls ∧ ∀ x, x < m.next → m1.cells x = m.cells x := by
  obtain ⟨m0b, cs, hbuild2, hab, hvals, hdisp, hlen2⟩ :=
    buildArgs_spec w m args m hv (Mem.Above.refl _ _)
  rw [hbuild] at hbuild2
  simp only [Option.some.injEq, Prod.mk.injEq] at hbuild2
  obtain ⟨e1, e2⟩ := hbuild2
  subst e1 e2
  generalize hcr : BasicAny.ctorRef m0 object = cr
  obtain ⟨m1, objectAny⟩ := cr
  have hm1 : m1.next = m0.next + 1 ∧ m1.cells = m0.cells ∧ m1.calls = m0.calls ∧
      objectAny.mInstance = object.mInstance ∧ objectAny.mType = object.mType ∧
      objectAny.mDestroy = none := by
    have h1 := congrArg Prod.fst hcr
    have h2 := congrArg Prod.snd hcr
    simp only [BasicAny.ctorRef, BasicAny.ctorDefault, Mem.fresh] at h1 h2
    subst h1 h2
    simp [Mem.calls]
  obtain ⟨hn1, hcells1, hcalls1, hoi, hot, hod⟩ := hm1
  have hab1 : Mem.Above m0.next m0 m1 :=
    ⟨by omega, hcalls1, fun x _ => by rw [hcells1]⟩
  have hvals1 : ∀ a ∈ anyArgs, a.Valid m1 := fun a ha => (hvals a ha).carry hab1
  have hspec : specResolveAll w m1 anyArgs f.mParamTypes
      = specResolveAll w m0 anyArgs f.mParamTypes := by
    have : m1.cells = m0.cells := hcells1
    clear hvals1 hvals hdisp hlen2 hfail hbuild
    generalize f.mParamTypes = ps
    induction anyArgs generalizing ps with
    | nil => cases ps <;> rfl
    | cons a as ih =>
      cases ps with
      | nil => rfl
      | cons P Ps =>
        simp only [specResolveAll, ih Ps, specResolve, convertedValue, this]
  have hfail1 : (∃ o ∈ specResolveAll w m1 anyArgs f.mParamTypes, o = none) ∨
      ∃ C, f.mParent = some C ∧ objectAny.TryCast w C = some none := by
    rcases hfail with h | ⟨C, hC, hcast⟩
    · exact Or.inl (hspec ▸ h)
    · refine Or.inr ⟨C, hC, ?_⟩
      rw [← hcast]
      apply TryCast_congr
      · rw [hoi]
        simp [BasicAny.ctorRef, BasicAny.ctorDefault, Mem.fresh]
      · rw [hot]
        simp [BasicAny.ctorRef, BasicAny.ctorDefault, Mem.fresh]
  obtain ⟨m2, r, himpl, hb, hcalls2, hle2, hfr2⟩ :=
    InvokeImpl_nomatch w f m1 objectAny anyArgs (hlen2.trans hlen) hvals1
      (by rw [hoi, hot]; exact hobj) hfail1
  have hdisp2 : Disposable m2 m.next m0.next anyArgs :=
    hdisp.transport (fun x _ hx => by rw [hfr2 x (by omega), hcells1])
  obtain ⟨m3, hdt, hn3, hc3, hfr3⟩ := dtorAll_spec anyArgs m2 m.next m0.next hdisp2
  refine ⟨m3, r, ?_, hb.toBool_false, ?_, ?_⟩
  · simp [Function.Invoke, hlen, hbuild, hcr, himpl, dtor_inert m2 objectAny hod, hdt]
  · rw [hc3, hcalls2, hcalls1, hab.2.1]
  · intro x hx
    rw [hfr3 x (Or.inl hx), hfr2 x (by have := hab.1; omega), hcells1]
    exact hab.2.2 x hx

/-- C5. A call whose argument count matches, whose arguments are valid and one of which
does not resolve, or, for a member function, whose receiver does not cast to the
declaring class, returns an empty container; the native operation is not executed (the
count of native executions is unchanged) and the call returns normally: for both
`NewInstance` overloads and for `Invoke` of free and member functions. -/
theorem nomatch_returns_empty (w : World) (m : Mem) :
    (∀ (c : Constructor) (args : List BasicAny), args.length = c.mParamTypes.length →
      (∀ a ∈ args, a.Valid m) →
      (∃ o ∈ specResolveAll w m args c.mParamTypes, o = none) →
      ∃ m1 r, c.NewInstance w m args = some (m1, r) ∧ r.toBool = false ∧
        m1.calls = m.calls) ∧
    (∀ (c : Constructor) (args : List Arg), args.length = c.mParamTypes.length →
      (∀ x ∈ args, x.Valid m) →
      ∀ m0 anyArgs, buildArgs w m args = some (m0, anyArgs) →
      (∃ o ∈ specResolveAll w m0 anyArgs c.mParamTypes, o = none) →
      ∃ m1 r, c.NewInstanceV w m args = some (m1, r) ∧ r.toBool = false ∧
        m1.calls = m.calls) ∧
    (∀ (f : Function) (object : AnyRef) (args : List Arg),
      args.length = f.mParamTypes.length → (∀ x ∈ args, x.Valid m) →
      (object.mInstance = none ∨ object.mType.isSome = true) →
      ∀ m0 anyArgs, buildArgs w m args = some (m0, anyArgs) →
      ((∃ o ∈ specResolveAll w m0 anyArgs f.mParamTypes, o = none) ∨
        ∃ C, f.mParent = some C ∧ (BasicAny.ctorRef m object).2.TryCast w C = some none) →
      ∃ m1 r, f.Invoke w m object args = some (m1, r) ∧ r.toBool = false ∧
        m1.calls = m.calls) := by
  refine ⟨?_, ?_, ?_⟩
  · intro c args hlen hv hnone
    obtain ⟨m1, r, himpl, _, _, _, hfail⟩ := NewInstanceImpl_spec w c m args hlen hv
    obtain ⟨hb, hcalls⟩ := hfail hnone
    exact ⟨m1, r, by simp [Constructor.NewInstance, hlen, himpl], hb.toBool_false, hcalls⟩
  · intro c args hlen hv m0 anyArgs hbuild hnone
    obtain ⟨m0b, cs, hbuild2, m1, r, hnew, _, _, _, hfail⟩ := NewInstanceV_spec w c m args hlen hv
    rw [hbuild] at hbuild2
    simp only [Option.some.injEq, Prod.mk.injEq] at hbuild2
    obtain ⟨e1, e2⟩ := hbuild2
    subst e1 e2
    obtain ⟨hb, hcalls⟩ := hfail hnone
    exact ⟨m1, r, hnew, hb.toBool_false, hcalls⟩
  · intro f object args hlen hv hobj m0 anyArgs hbuild hfail
    obtain ⟨m1, r, hinv, hr, hcalls, _⟩ :=
      Invoke_nomatch w f m object args hlen hv hobj m0 anyArgs hbuild hfail
    exact ⟨m1, r, hinv, hr, hcalls⟩

/-! ## `DataMember::Set` -/

/-- Move-assignment of an empty temporary to an empty local leaves the local empty. -/
theorem assignMove_blank (m : Mem) (self other : BasicAny) (lo k : Nat)
    (hself : self.Blank lo k) (hother : other.Blank k m.next) :
    ∃ m1 self1, BasicAny.assignMove m self other = some (m1, self1, other) ∧
      self1.Blank lo m1.next ∧ Mem.Above lo m m1 := by
  obtain ⟨oi, os, ot, oc, om, od⟩ := other
  obtain ⟨si, ss, st, sc, sm, sd⟩ := self
  obtain ⟨e1, e2, e3, e4, e5, e6⟩ := hself
  obtain ⟨g1, g2, g3, g4, g5, g6⟩ := hother
  simp only at e1 e2 e3 e4 e5 e6 g1 g2 g3 g4 g5 g6
  subst e1 e2 e3 e4 g1 g2 g3 g4
  simp only [BasicAny.assignMove, BasicAny.ctorMove, BasicAny.Swap, BasicAny.dtor, Mem.fresh,
    Option.some.injEq, Prod.mk.injEq]
  refine ⟨_, _, ⟨rfl, rfl, trivial⟩, ?_, ?_⟩
  · exact ⟨rfl, rfl, rfl, rfl, e5, by simp only; omega⟩
  · exact ⟨by simp, rfl, fun _ _ => rfl⟩

/-- The lines of `Set` that resolve the value: they succeed on a valid value; after a
successful cast `casted` is the cast pointer and `val` stays empty; otherwise `val` owns
the converted value and `casted` points to it, or both are empty. -/
theorem resolveValue_spec (w : World) (m : Mem) (value : BasicAny) (T : TypeId)
    (hv : value.Valid m) :
    ∃ m1 val casted, resolveValue w m value T = some (m1, val, casted) ∧
      Mem.Above m.next m m1 ∧
      match value.TryCast w T with
      | some (some q) => casted = some q ∧ val.Blank m.next m1.next
      | _ =>
        match convertedValue w m value T with
        | some v => val.Temp m.next m1.next m1 T v ∧ casted = val.mInstance
        | none => val.Blank m.next m1.next ∧ casted = none := by
  obtain ⟨hb, hab, hcells, hlog, hnext⟩ := ctorDefault_blank m
  generalize hcd : BasicAny.ctorDefault m = cd at hb hab hcells hlog hnext
  obtain ⟨m0, val0⟩ := cd
  simp only at hb hab hcells hlog hnext
  obtain ⟨p, hp⟩ := TryCast_defined w value T hv.castable
  cases p with
  | some q =>
    refine ⟨m0, val0, some q, ?_, hab, ?_⟩
    · simp [resolveValue, hcd, hp]
    · simp only [hp]
      exact ⟨trivial, hb⟩
  | none =>
    obtain ⟨m2, tmp, hconv, hab2, hc1⟩ := convertOne_spec w m m0 value T none hv hab hp
    simp only at hconv
    simp only [Converted1, hp] at hc1
    simp only [hp]
    cases hcv : convertedValue w m value T with
    | some v =>
      simp only [hcv] at hc1
      obtain ⟨m3, val1, hass, ht1, hab3, _⟩ :=
        assignMove_temp m2 val0 tmp m.next m0.next T T v v hab2.1 (Or.inl hb) hc1
      have hcast : val1.TryCast w T = some val1.mInstance := by
        obtain ⟨x, tr, e1, _, e3, _⟩ := ht1
        simp [BasicAny.TryCast, BasicAny.toBool, BasicAny.Get, e1, e3]
      refine ⟨m3, val1, val1.mInstance, ?_, ?_, ht1, rfl⟩
      · simp [resolveValue, hcd, hp, hconv, hass, dtor_inert, hcast]
      · exact hab.trans ((hab2.mono hab.1).trans hab3)
    | none =>
      simp only [hcv] at hc1
      obtain ⟨m3, val1, hass, hb1, hab3⟩ :=
        assignMove_blank m2 val0 tmp m.next m0.next hb hc1
      have hcast : val1.TryCast w T = some none := by
        simp [BasicAny.TryCast, BasicAny.toBool, BasicAny.Get, hb1.1]
      refine ⟨m3, val1, none, ?_, ?_, hb1, rfl⟩
      · simp [resolveValue, hcd, hp, hconv, hass, dtor_inert m3 tmp hc1.2.2.2.1, hcast]
      · exact hab.trans ((hab2.mono hab.1).trans hab3)

/-- Whether a cast succeeds depends on the emptiness and the held type only, and a
successful cast returns the held pointer. -/
theorem TryCast_shape (w : World) (c : BasicAny) (P : TypeId)
    (hc : c.mInstance = none ∨ c.mType.isSome = true) :
    c.TryCast w P = some none ∨ c.TryCast w P = some c.mInstance := by
  obtain ⟨p, hp⟩ := TryCast_defined w c P hc
  cases p with
  | none => exact Or.inl hp
  | some q => exact Or.inr (by rw [hp, TryCast_some_eq w c P q hp])

theorem TryCast_isSome_congr (w : World) (c d : BasicAny) (P : TypeId)
    (h1 : c.mInstance.isSome = d.mInstance.isSome) (h2 : c.mType = d.mType) :
    (c.TryCast w P = some none ↔ d.TryCast w P = some none) := by
  cases hc : c.mInstance with
  | none =>
    have hd : d.mInstance = none := by
      rw [hc] at h1
      cases hdi : d.mInstance with
      | none => rfl
      | some _ => rw [hdi] at h1; simp at h1
    simp [BasicAny.TryCast, BasicAny.toBool, BasicAny.Get, hc, hd]
  | some a =>
    obtain ⟨b, hd⟩ : ∃ b, d.mInstance = some b := by
      rw [hc] at h1
      cases hdi : d.mInstance with
      | none => rw [hdi] at h1; simp at h1
      | some b => exact ⟨b, rfl⟩
    cases hS : d.mType with
    | none => simp [BasicAny.TryCast, BasicAny.toBool, BasicAny.Get, hc, hd, h2, hS]
    | some S =>
      by_cases hPS : P = S
      · simp [BasicAny.TryCast, BasicAny.toBool, BasicAny.Get, hc, hd, h2, hS, hPS]
      · by_cases hex : ∃ e ∈ (w.desc S).mBases, e.mType = P
        · have ha := castLoop_hit P (some a) (w.desc S).mBases none hex
          have hb2 := castLoop_hit P (some b) (w.desc S).mBases none hex
          simp only [Base.Cast] at ha hb2
          simp [BasicAny.TryCast, BasicAny.toBool, BasicAny.Get, hc, hd, h2, hS, hPS,
            TypeDescriptor.GetBases, Base.Cast, ha, hb2]
        · have hno : ∀ e ∈ (w.desc S).mBases, e.mType ≠ P := fun e he heP => hex ⟨e, he, heP⟩
          have ha := castLoop_miss P (some a) (w.desc S).mBases none hno
          have hb2 := castLoop_miss P (some b) (w.desc S).mBases none hno
          simp only [Base.Cast] at ha hb2
          simp [BasicAny.TryCast, BasicAny.toBool, BasicAny.Get, hc, hd, h2, hS, hPS,
            TypeDescriptor.GetBases, Base.Cast, ha, hb2]

/-- The specification's rule gives the same value for two containers of the same type
that hold equal values. -/
theorem specResolve_congr (w : World) (m m1 : Mem) (a c : BasicAny) (P : TypeId)
    (ha : a.mInstance = none ∨ a.mType.isSome = true)
    (h1 : c.mInstance.isSome = a.mInstance.isSome) (h2 : c.mType = a.mType)
    (h3 : m1.deref c.mInstance = m.deref a.mInstance) :
    specResolve w m1 c P = specResolve w m a P := by
  have hc : c.mInstance = none ∨ c.mType.isSome = true := by
    rcases ha with ha | ha
    · left
      rw [ha] at h1
      cases hci : c.mInstance with
      | none => rfl
      | some _ => rw [hci] at h1; simp at h1
    · right
      rw [h2]
      exact ha
  have hiff := TryCast_isSome_congr w c a P h1 h2
  have hcv : convertedValue w m1 c P = convertedValue w m a P := by
    unfold convertedValue
    rw [h2]
    cases hci : c.mInstance with
    | none =>
      have hai : a.mInstance = none := by
        rw [hci] at h1
        cases hai : a.mInstance with
        | none => rfl
        | some _ => rw [hai] at h1; simp at h1
      simp [hai]
    | some i =>
      obtain ⟨j, hai⟩ : ∃ j, a.mInstance = some j := by
        rw [hci] at h1
        cases hai : a.mInstance with
        | none => rw [hai] at h1; simp at h1
        | some j => exact ⟨j, rfl⟩
      simp only [hci, hai, Mem.deref] at h3
      rw [hai]
      cases a.mType with
      | none => rfl
      | some S => simp only [h3]
  rcases TryCast_shape w c P hc with hcn | hcs
  · have han := hiff.mp hcn
    simp only [specResolve, hcn, han, hcv]
  · rcases TryCast_shape w a P ha with han | has
    · have hcn := hiff.mpr han
      simp only [specResolve, hcn, han, hcv]
    · cases hci : c.mInstance with
      | none =>
        rw [hci] at hcs
        have han := hiff.mp hcs
        simp only [specResolve, hcs, han, hcv]
      | some i =>
        obtain ⟨j, hai⟩ : ∃ j, a.mInstance = some j := by
          rw [hci] at h1
          cases hai : a.mInstance with
          | none => rw [hai] at h1; simp at h1
          | some j => exact ⟨j, rfl⟩
        rw [hci] at hcs
        rw [hai] at has
        simp only [hci, hai, Mem.deref] at h3
        simp only [specResolve, hcs, has, h3]

/-- Copy-construction from a valid container: it succeeds in fresh memory; the copy is
valid, has the same type and emptiness, holds an equal value, and either has no destroy
operation or owns a live object of the fresh range. -/
theorem ctorCopy_valid (m : Mem) (a : BasicAny) (hv : a.Valid m) :
    ∃ m1 c, BasicAny.ctorCopy m a = some (m1, c) ∧ Mem.Above m.next m m1 ∧ c.Valid m1 ∧
      c.mType = a.mType ∧ c.mInstance.isSome = a.mInstance.isSome ∧
      m1.deref c.mInstance = m.deref a.mInstance ∧
      (c.mDestroy = none ∨ ∃ x tr, c.mInstance = some x ∧ c.mDestroy = some tr ∧
        m.next ≤ x ∧ x < m1.next ∧ (m1.cells x).isSome = true) := by
  obtain ⟨ai, as, at1, ac, am, ad⟩ := a
  obtain ⟨h1, h2, h3⟩ := hv
  simp only at h1 h2 h3
  subst h1 h2
  cases ad with
  | none =>
    simp only [BasicAny.ctorCopy, Mem.fresh, Option.some.injEq, Prod.mk.injEq]
    refine ⟨_, _, ⟨rfl, rfl⟩, ?_, ?_, rfl, rfl, ?_, Or.inl rfl⟩
    · simp [Mem.Above, Mem.calls]
    · refine ⟨rfl, rfl, ?_⟩
      cases ai with
      | none => trivial
      | some i =>
        simp only at h3 ⊢
        exact ⟨by omega, h3.2.1, h3.2.2⟩
    · cases ai <;> rfl
  | some tr =>
    cases ai with
    | none => simp at h3
    | some i =>
      simp only at h3
      obtain ⟨hlt, hlive, hty⟩ := h3
      obtain ⟨v, hv⟩ := Option.isSome_iff_exists.mp hlive
      cases tr
      · simp only [BasicAny.ctorCopy, TypeTraits.Copy, Mem.deref, Mem.fresh, hv,
          Option.some.injEq, Prod.mk.injEq]
        refine ⟨_, _, ⟨rfl, rfl⟩, ?_, ?_, rfl, rfl, ?_,
          Or.inr ⟨m.next, .inl, rfl, rfl, ?_⟩⟩
        · refine ⟨by simp [Mem.store], by simp [Mem.calls, Mem.store], ?_⟩
          intro x hx
          simp (disch := omega) [Mem.store, Function.update_apply, if_neg]
        · refine ⟨rfl, rfl, ?_⟩
          simp [Mem.store, hty]
        · simp [Mem.store]
        · simp [Mem.store]
      · simp only [BasicAny.ctorCopy, TypeTraits.Copy, Mem.deref, Mem.fresh, hv,
          Option.some.injEq, Prod.mk.injEq]
        refine ⟨_, _, ⟨rfl, rfl⟩, ?_, ?_, rfl, rfl, ?_,
          Or.inr ⟨m.next + 1, .heap, rfl, rfl, ?_⟩⟩
        · refine ⟨by simp only [Mem.store, Mem.emit, Mem.bind_next]; omega, ?_, ?_⟩
          · simp [Mem.calls, Mem.store, Mem.emit, List.count_append]
          · intro x hx
            simp (disch := omega) [Mem.store, Mem.emit, Function.update_apply, if_neg]
        · refine ⟨rfl, rfl, ?_⟩
          simp [Mem.store, Mem.emit, hty]
        · simp [Mem.store, Mem.emit]
        · simp [Mem.store, Mem.emit]

/-- The destructor of a container that is empty or owns a live object of `[lo, hi)`
succeeds and touches that range only. -/
theorem dtor_local (m : Mem) (c : BasicAny) (lo hi : Nat) (T : TypeId) (v : Val)
    (h : c.Blank lo hi ∨ c.Temp lo hi m T v) :
    ∃ m1, BasicAny.dtor m c = some m1 ∧ m1.next = m.next ∧
      ∀ x, (x < lo ∨ hi ≤ x) → m1.cells x = m.cells x := by
  rcases h with hb | ⟨a, tr, h1, h2, _, _, _, h6, _, _, h9, h10, _⟩
  · exact ⟨m, dtor_inert m c hb.2.2.2.1, rfl, fun _ _ => rfl⟩
  · cases tr <;>
    · simp only [BasicAny.dtor, h6, TypeTraits.Destroy, h1, h2, Option.some.injEq]
      refine ⟨_, rfl, rfl, ?_⟩
      intro x hx
      simp (disch := omega) [Mem.emit, Mem.kill, Function.update_apply, if_neg]

/-- The specification's rule fails exactly when the cast is null and the conversion is
empty. -/
theorem specResolve_none_iff (w : World) (m : Mem) (a : BasicAny) (P : TypeId)
    (hv : a.Valid m) :
    specResolve w m a P = none ↔
      (a.TryCast w P = some none ∧
        ∃ m1 r, a.TryConvert w m P = some (m1, r) ∧ r.toBool = false) := by
  obtain ⟨m1, r, hres, _, _, _, hempty, hfull⟩ := TryConvert_result w m a P hv
  have hrr : (∃ m1 r, a.TryConvert w m P = some (m1, r) ∧ r.toBool = false) ↔
      r.toBool = false := by
    constructor
    · rintro ⟨m2, r2, h2, hb⟩
      rw [hres] at h2
      simp only [Option.some.injEq, Prod.mk.injEq] at h2
      rw [h2.2]
      exact hb
    · intro hb
      exact ⟨m1, r, hres, hb⟩
  rw [hrr]
  obtain ⟨p, hp⟩ := TryCast_defined w a P hv.castable
  cases p with
  | some q =>
    have hq := TryCast_some_eq w a P q hp
    have h3 := hv.2.2
    simp only [hq] at h3
    obtain ⟨v, hval⟩ := Option.isSome_iff_exists.mp h3.2.1
    simp [specResolve, hp, hval]
  | none =>
    simp only [specResolve, hp, true_and]
    cases hi : a.mInstance with
    | none =>
      simp [convertedValue, hi, (hempty hi).toBool_false]
    | some i =>
      have h3 := hv.2.2
      simp only [hi] at h3
      obtain ⟨hlt, hlive, hty⟩ := h3
      obtain ⟨S, hS⟩ := Option.isSome_iff_exists.mp hty
      obtain ⟨v, hval⟩ := Option.isSome_iff_exists.mp hlive
      have hSP := TryCast_none_type w a P i S hi hS hp
      have hd := (hfull i S v hi hS hval).2 hSP
      cases hl : lastConversion P (w.desc S).mConversions with
      | none =>
        simp only [hl] at hd
        simp [convertedValue, hi, hS, hl, hd.toBool_false]
      | some e =>
        simp only [hl] at hd
        simp [convertedValue, hi, hS, hl, hval, hd.toBool_true.1]

/-- The body of `Set` from the receiver container on, for a receiver and a value that are
not empty: a receiver that does not cast to the class raises with the memory untouched;
a value that does not resolve raises with the caller's memory untouched; otherwise the
final native statement runs on the cast receiver and the resolved value. -/
theorem setBody_spec (w : World) (dm : DataMember) (write : Mem → Nat → Nat → Option Mem)
    (m : Mem) (base : Nat) (hbase : base ≤ m.next) (object value : BasicAny) (S Sv : TypeId)
    (hS : object.mType = some S) (hval : value.Valid m) (hSv : value.mType = some Sv) :
    (object.TryCast w dm.mParent = some none →
      setBody w dm write m object value = some (m, .error
        (BadCastException.ctor (w.desc dm.mParent).mName (w.desc S).mName "object:"))) ∧
    (∀ obj, object.TryCast w dm.mParent = some (some obj) →
      (specResolve w m value dm.mType = none →
        ∃ m1, setBody w dm write m object value = some (m1, .error
            (BadCastException.ctor (w.desc dm.mType).mName (w.desc Sv).mName "value:")) ∧
          m.next ≤ m1.next ∧ ∀ a, a < m.next → m1.cells a = m.cells a) ∧
      (∀ x ov o1, specResolve w m value dm.mType = some x → obj < base →
        m.cells obj = some ov →
        (∀ m2 c, m2.cells obj = some ov → m2.cells c = some x →
          ∃ m3, write m2 obj c = some m3 ∧ m3.next = m2.next ∧ m3.cells obj = some o1 ∧
            ∀ a, a ≠ obj → m3.cells a = m2.cells a) →
        ∃ m1, setBody w dm write m object value = some (m1, .ok ()) ∧
          m.next ≤ m1.next ∧ m1.cells obj = some o1 ∧
          ∀ a, a < m.next → a ≠ obj → m1.cells a = m.cells a)) := by
  refine ⟨?_, ?_⟩
  · intro h
    simp [setBody, h, typeName, BasicAny.GetType, hS, TypeDescriptor.GetName]
  · intro obj hobj
    obtain ⟨m1, val, casted, hrv, hab, hmatch⟩ := resolveValue_spec w m value dm.mType hval
    refine ⟨?_, ?_⟩
    · intro hnone
      have hiff := (specResolve_none_iff w m value dm.mType hval).mp hnone
      simp only [hiff.1] at hmatch
      have hcv : convertedValue w m value dm.mType = none := by
        simpa [specResolve, hiff.1] using hnone
      simp only [hcv] at hmatch
      obtain ⟨hb, hc⟩ := hmatch
      subst hc
      refine ⟨m1, ?_, hab.1, hab.2.2⟩
      simp [setBody, hobj, hrv, typeName, BasicAny.GetType, hSv, TypeDescriptor.GetName,
        dtor_inert m1 val hb.2.2.2.1]
    · intro x ov o1 hx hlt hov hwrite
      have hlt' : obj < m.next := lt_of_lt_of_le hlt hbase
      have hov1 : m1.cells obj = some ov := (hab.2.2 obj hlt').trans hov
      have hcase : ∃ c, casted = some c ∧ m1.cells c = some x ∧
          (val.Blank m.next m1.next ∨ val.Temp m.next m1.next m1 dm.mType x) := by
        obtain ⟨p, hp⟩ := TryCast_defined w value dm.mType hval.castable
        cases p with
        | some q =>
          simp only [hp] at hmatch
          have hq := TryCast_some_eq w value dm.mType q hp
          have h3 := hval.2.2
          simp only [hq] at h3
          refine ⟨q, hmatch.1, ?_, Or.inl hmatch.2⟩
          rw [hab.2.2 q h3.1]
          simpa [specResolve, hp] using hx
        | none =>
          simp only [hp] at hmatch
          have hcv : convertedValue w m value dm.mType = some x := by
            simpa [specResolve, hp] using hx
          simp only [hcv] at hmatch
          obtain ⟨ht, hc⟩ := hmatch
          obtain ⟨a, tr, e1, e2, _⟩ := id ht
          exact ⟨a, hc.trans e1, e2, Or.inr ht⟩
      obtain ⟨c, hc, hcx, hvalc⟩ := hcase
      subst hc
      obtain ⟨m2, hw, hn2, ho2, hfr2⟩ := hwrite m1 c hov1 hcx
      have hvalc2 : val.Blank m.next m1.next ∨ val.Temp m.next m1.next m2 dm.mType x := by
        rcases hvalc with h | h
        · exact Or.inl h
        · exact Or.inr (h.frame (fun a ha _ => hfr2 a (by omega)))
      obtain ⟨m3, hd3, hn3, hfr3⟩ := dtor_local m2 val m.next m1.next dm.mType x hvalc2
      refine ⟨m3, ?_, ?_, ?_, ?_⟩
      · simp [setBody, hobj, hrv, hw, hd3]
      · rw [hn3, hn2]
        exact hab.1
      · rw [hfr3 obj (Or.inl hlt')]
        exact ho2
      · intro a ha hne
        rw [hfr3 a (Or.inl ha), hfr2 a hne]
        exact hab.2.2 a ha

/-- The destructor of a container without destroy operation or owning a live object of
`[lo, hi)` succeeds and touches that range only. -/
theorem dtor_owner (m : Mem) (c : BasicAny) (lo hi : Nat)
    (h : c.mDestroy = none ∨ ∃ x tr, c.mInstance = some x ∧ c.mDestroy = some tr ∧
      lo ≤ x ∧ x < hi ∧ (m.cells x).isSome = true) (hle : lo ≤ hi) :
    ∃ m1, BasicAny.dtor m c = some m1 ∧ m1.next = m.next ∧
      ∀ a, (a < lo ∨ hi ≤ a) → m1.cells a = m.cells a := by
  have hd : Disposable m lo hi [c] := ⟨hi, hle, h, le_refl _⟩
  obtain ⟨m1, hdt, hn, _, hfr⟩ := dtorAll_spec [c] m lo hi hd
  refine ⟨m1, ?_, hn, hfr⟩
  simp only [dtorAll] at hdt
  cases hdc : BasicAny.dtor m c with
  | none => simp [hdc] at hdt
  | some m2 =>
    simp only [hdc, Option.some.injEq] at hdt
    rw [hdt]

/-- The container built from a reference: a fresh buffer, the reference's pointer and
type, no operation, and no change to the objects. -/
theorem ctorRef_spec (m : Mem) (r : AnyRef) :
    (BasicAny.ctorRef m r).1.next = m.next + 1 ∧ (BasicAny.ctorRef m r).1.cells = m.cells ∧
    (BasicAny.ctorRef m r).1.log = m.log ∧
    (BasicAny.ctorRef m r).2.mInstance = r.mInstance ∧
    (BasicAny.ctorRef m r).2.mType = r.mType ∧ (BasicAny.ctorRef m r).2.mDestroy = none :=
  ⟨rfl, rfl, rfl, rfl, rfl, rfl⟩

/-- `Set` on a member that is not constant, with a receiver reference and a valid value
that both carry a type: a receiver that does not cast to the class raises the error
tagged `object:`; a value that does not resolve raises the error tagged `value:`; both
leave the caller's memory unchanged; otherwise the member of the object at the cast
receiver pointer is set to what the final statement hands over of the resolved value, and
nothing else of the caller's memory changes. -/
theorem Set_spec (w : World) (dm : DataMember) (m : Mem) (objectRef : AnyRef)
    (value : BasicAny) (S Sv : TypeId) (hnc : dm.isConst = false)
    (hS : objectRef.mType = some S) (hval : value.Valid m) (hSv : value.mType = some Sv) :
    ((BasicAny.ctorRef m objectRef).2.TryCast w dm.mParent = some none →
      ∃ m1, dm.Set w m objectRef value = some (m1, .error
          (BadCastException.ctor (w.desc dm.mParent).mName (w.desc S).mName "object:")) ∧
        ∀ a, a < m.next → m1.cells a = m.cells a) ∧
    (∀ obj, (BasicAny.ctorRef m objectRef).2.TryCast w dm.mParent = some (some obj) →
      (specResolve w m value dm.mType = none →
        ∃ m1, dm.Set w m objectRef value = some (m1, .error
            (BadCastException.ctor (w.desc dm.mType).mName (w.desc Sv).mName "value:")) ∧
          ∀ a, a < m.next → m1.cells a = m.cells a) ∧
      (∀ x ov o1, specResolve w m value dm.mType = some x → obj < m.next →
        m.cells obj = some ov → dm.write ov (dm.stored w x) = some o1 →
        ∃ m1, dm.Set w m objectRef value = some (m1, .ok ()) ∧ m.next ≤ m1.next ∧
          m1.cells obj = some o1 ∧ ∀ a, a < m.next → a ≠ obj → m1.cells a = m.cells a)) := by
  obtain ⟨hn1, hcells1, hlog1, hoi, hot, hod⟩ := ctorRef_spec m objectRef
  generalize hcr : BasicAny.ctorRef m objectRef = cr at hn1 hcells1 hlog1 hoi hot hod
  obtain ⟨m1, object⟩ := cr
  simp only at hn1 hcells1 hlog1 hoi hot hod ⊢
  have hab1 : Mem.Above m.next m m1 :=
    ⟨by omega, by simp [Mem.calls, hlog1], fun x _ => by rw [hcells1]⟩
  have hSo : object.mType = some S := hot.trans hS
  cases himpl : dm.impl with
  | ptr idx isConst =>
    have hic : isConst = false := by simpa [DataMember.isConst, himpl] using hnc
    subst hic
    obtain ⟨m2, value1, hcopy, hab2, hval1, hty1, hsome1, hderef1, hown1⟩ :=
      ctorCopy_valid m1 value (hval.carry hab1)
    have hSv1 : value1.mType = some Sv := hty1.trans hSv
    have hspec : specResolve w m2 value1 dm.mType = specResolve w m value dm.mType :=
      specResolve_congr w m m2 value value1 dm.mType hval.castable hsome1 hty1
        (by rw [hderef1]; cases value.mInstance <;> simp [Mem.deref, hcells1])
    have hle12 : m1.next ≤ m2.next := hab2.1
    obtain ⟨hA, hB⟩ := setBody_spec w dm (writeField w dm.mType idx) m2 m.next (by omega) object value1
      S Sv hSo hval1 hSv1
    have hfin : ∀ (m3 : Mem) (r : Except BadCastException Unit),
        setBody w dm (writeField w dm.mType idx) m2 object value1 = some (m3, r) →
        m2.next ≤ m3.next →
        (∀ a, m1.next ≤ a → a < m2.next → m3.cells a = m2.cells a) →
        ∃ m5, dm.Set w m objectRef value = some (m5, r) ∧ m3.next = m5.next ∧
          ∀ a, a < m.next → m5.cells a = m3.cells a := by
      intro m3 r hbody hle3 hfr
      have hown3 : value1.mDestroy = none ∨ ∃ x tr, value1.mInstance = some x ∧
          value1.mDestroy = some tr ∧ m1.next ≤ x ∧ x < m2.next ∧
          (m3.cells x).isSome = true := by
        rcases hown1 with h | ⟨x, tr, e1, e2, e3, e4, e5⟩
        · exact Or.inl h
        · exact Or.inr ⟨x, tr, e1, e2, e3, e4, by rw [hfr x e3 e4]; exact e5⟩
      obtain ⟨m4, hd4, hn4, hfr4⟩ := dtor_owner m3 value1 m1.next m2.next hown3 hle12
      refine ⟨m4, ?_, hn4.symm, fun a ha => hfr4 a (Or.inl (by omega))⟩
      simp [DataMember.Set, himpl, hcr, hcopy, hbody, hd4, dtor_inert m4 object hod]
    refine ⟨?_, ?_⟩
    · intro hcast
      obtain ⟨m5, hset, _, hfr5⟩ := hfin m2 _ (hA hcast) (le_refl _) (fun _ _ _ => rfl)
      refine ⟨m5, hset, ?_⟩
      intro a ha
      rw [hfr5 a ha, hab2.2.2 a (by omega), hcells1]
    · intro obj hcast
      obtain ⟨hBr, hBo⟩ := hB obj hcast
      refine ⟨?_, ?_⟩
      · intro hnone
        obtain ⟨m3, hbody, hle3, hfr3⟩ := hBr (hspec.trans hnone)
        obtain ⟨m5, hset, _, hfr5⟩ := hfin m3 _ hbody hle3 (fun a _ ha => hfr3 a ha)
        refine ⟨m5, hset, ?_⟩
        intro a ha
        rw [hfr5 a ha, hfr3 a (by omega), hab2.2.2 a (by omega), hcells1]
      · intro x ov o1 hx hlt hov hwr
        have hov2 : m2.cells obj = some ov := by
          rw [hab2.2.2 obj (by omega), hcells1]
          exact hov
        have hsf : ov.setField idx (w.slice dm.mType x) = some o1 := by
          simpa [DataMember.write, DataMember.stored, himpl] using hwr
        obtain ⟨m3, hbody, hle3, ho3, hfr3⟩ := hBo x ov o1 (hspec.trans hx) hlt hov2 (by
          intro mm c hmo hmc
          refine ⟨mm.store obj o1, ?_, rfl, ?_, ?_⟩
          · simp [writeField, hmo, hmc, hsf]
          · simp [Mem.store]
          · intro a hne
            simp [Mem.store, Function.update_apply, hne])
        obtain ⟨m5, hset, hn5, hfr5⟩ :=
          hfin m3 _ hbody hle3 (fun a ha1 ha2 => hfr3 a ha2 (by omega))
        refine ⟨m5, hset, by omega, ?_, ?_⟩
        · rw [hfr5 obj hlt]
          exact ho3
        · intro a ha hne
          rw [hfr5 a ha, hfr3 a (by omega) hne, hab2.2.2 a (by omega), hcells1]
  | setGet setter getter =>
    have hval1 : value.Valid m1 := hval.carry hab1
    have hspec : specResolve w m1 value dm.mType = specResolve w m value dm.mType :=
      specResolve_congr w m m1 value value dm.mType hval.castable rfl rfl
        (by cases value.mInstance <;> simp [Mem.deref, hcells1])
    obtain ⟨hA, hB⟩ := setBody_spec w dm (callSetter setter) m1 m.next (by omega) object value
      S Sv hSo hval1 hSv
    have hfin : ∀ (m3 : Mem) (r : Except BadCastException Unit),
        setBody w dm (callSetter setter) m1 object value = some (m3, r) →
        dm.Set w m objectRef value = some (m3, r) := by
      intro m3 r hbody
      simp [DataMember.Set, himpl, hcr, hbody, dtor_inert m3 object hod]
    refine ⟨?_, ?_⟩
    · intro hcast
      exact ⟨m1, hfin _ _ (hA hcast), fun a _ => by rw [hcells1]⟩
    · intro obj hcast
      obtain ⟨hBr, hBo⟩ := hB obj hcast
      refine ⟨?_, ?_⟩
      · intro hnone
        obtain ⟨m3, hbody, _, hfr3⟩ := hBr (hspec.trans hnone)
        refine ⟨m3, hfin _ _ hbody, ?_⟩
        intro a ha
        rw [hfr3 a (by omega), hcells1]
      · intro x ov o1 hx hlt hov hwr
        have hov1 : m1.cells obj = some ov := by
          rw [hcells1]
          exact hov
        have hsf : setter ov x = o1 := by
          simpa [DataMember.write, DataMember.stored, himpl] using hwr
        obtain ⟨m3, hbody, hle3, ho3, hfr3⟩ := hBo x ov o1 (hspec.trans hx) hlt hov1 (by
          intro mm c hmo hmc
          refine ⟨(mm.emit .native).store obj o1, ?_, rfl, ?_, ?_⟩
          · simp [callSetter, hmo, hmc, hsf]
          · simp [Mem.store]
          · intro a hne
            simp [Mem.store, Mem.emit, Function.update_apply, hne])
        refine ⟨m3, hfin _ _ hbody, by omega, ho3, ?_⟩
        intro a ha hne
        rw [hfr3 a (by omega) hne, hcells1]

/-! ## The resolution rule -/

/-- The element of `convertedArgs` at a position belongs to the argument and the
parameter type at that position. -/
theorem ConvertedAll.get {w : World} {m0 mf : Mem} :
    ∀ {args : List BasicAny} {params : List TypeId} {cs : List BasicAny} {lo : Nat} (i : Nat)
      (a : BasicAny) (P : TypeId), ConvertedAll w m0 mf lo args params cs →
      args[i]? = some a → params[i]? = some P →
      ∃ c lo2 hi2, cs[i]? = some c ∧ lo ≤ lo2 ∧ Converted1 w m0 mf lo2 hi2 a P c := by
  intro args
  induction args with
  | nil =>
    intro params cs lo i a P _ ha
    simp at ha
  | cons b bs ih =>
    intro params cs lo i a P h ha hP
    cases params with
    | nil => simp [ConvertedAll] at h
    | cons Q Qs =>
      cases cs with
      | nil => simp [ConvertedAll] at h
      | cons c cs =>
        obtain ⟨hi, hlo, h1, hrest⟩ := h
        cases i with
        | zero =>
          simp only [List.getElem?_cons_zero, Option.some.injEq] at ha hP
          subst ha hP
          exact ⟨c, lo, hi, by simp, le_refl _, h1⟩
        | succ j =>
          simp only [List.getElem?_cons_succ] at ha hP
          obtain ⟨c2, lo2, hi2, hc2, hlo2, hconv⟩ := ih j a P hrest ha hP
          exact ⟨c2, lo2, hi2, by simpa using hc2, le_trans hlo hlo2, hconv⟩

/-- `TryConvert<P>` on a valid container whose cast failed: the result is non-empty
exactly when the conversion step has a value, and then holds that value. -/
theorem TryConvert_value (w : World) (m : Mem) (a : BasicAny) (P : TypeId) (hv : a.Valid m)
    (hp : a.TryCast w P = some none) :
    ∃ m2 r, a.TryConvert w m P = some (m2, r) ∧
      match convertedValue w m a P with
      | some v => r.toBool = true ∧ m2.deref r.mInstance = some v
      | none => r.toBool = false := by
  obtain ⟨m2, r, hconv, _, hc1⟩ := convertOne_spec w m m a P none hv (Mem.Above.refl _ _) hp
  simp only at hconv
  simp only [Converted1, hp] at hc1
  refine ⟨m2, r, hconv, ?_⟩
  cases hcv : convertedValue w m a P with
  | none =>
    simp only [hcv] at hc1 ⊢
    exact hc1.toBool_false
  | some v =>
    simp only [hcv] at hc1 ⊢
    obtain ⟨x, tr, e1, e2, _⟩ := id hc1
    exact ⟨hc1.toBool_true.1, by simp [Mem.deref, e1, e2]⟩

/-- C1. The argument resolution rule.  In the three lines shared by `NewInstanceImpl` and
`InvokeImpl`, at every position: a non-null `TryCast` pointer, which is the held pointer
of the argument, is the final pointer and `convertedArgs` holds an alias, not a copy;
otherwise a non-empty `TryConvert` makes the final pointer point to a fresh object equal
to the converted value; otherwise the final pointer is null.  The final pointers are
what the native constructor and the native function receive.  The value lines of
`DataMember::Set` obey the same rule and their pointer is what the final native statement
receives. -/
theorem resolution_rule (w : World) (m : Mem) :
    (∀ (args : List BasicAny) (params : List TypeId), args.length = params.length →
      (∀ a ∈ args, a.Valid m) →
      ∃ mf cs ps, resolveArguments w m args params = some (mf, cs, ps) ∧
        ∀ (i : Nat) (a : BasicAny) (P : TypeId), args[i]? = some a → params[i]? = some P →
          (∀ q : Nat, a.TryCast w P = some (some q) →
            ps[i]? = some (some q) ∧ a.mInstance = some q ∧
            ∃ c : BasicAny, cs[i]? = some c ∧ c.Aliases q P) ∧
          (a.TryCast w P = some none →
            ∀ (m2 : Mem) (r : BasicAny), a.TryConvert w m P = some (m2, r) →
            (r.toBool = true → ∃ q, ps[i]? = some (some q) ∧ m.next ≤ q ∧
              (mf.cells q).isSome = true ∧ mf.cells q = m2.deref r.mInstance) ∧
            (r.toBool = false → ps[i]? = some none))) ∧
    (∀ (c : Constructor) (args : List BasicAny) (mf : Mem) (cs : List BasicAny)
      (ps : List (Option Nat)) (vs : List Val),
      resolveArguments w m args c.mParamTypes = some (mf, cs, ps) → allValid ps = true →
      derefAll mf ps = some vs →
      c.NewInstanceImpl w m args =
        (dtorAll (BasicAny.ctorValue w (mf.emit .native) c.mParent (c.native vs)).1 cs).map
          (fun m3 => (m3, (BasicAny.ctorValue w (mf.emit .native) c.mParent (c.native vs)).2))) ∧
    (∀ (f : Function) (object : BasicAny) (args : List BasicAny) (mf : Mem)
      (cs : List BasicAny) (ps : List (Option Nat)) (obj : Option Nat),
      resolveArguments w m args f.mParamTypes = some (mf, cs, ps) → allValid ps = true →
      (match f.mParent with
        | none => some none
        | some C => object.TryCast w C) = some obj →
      (f.mParent.isNone || obj.isSome) = true →
      f.InvokeImpl w m object args =
        (dtorAll (f.call w mf obj (ps.filterMap id)).1 cs).map
          (fun m3 => (m3, (f.call w mf obj (ps.filterMap id)).2))) ∧
    (∀ (value : BasicAny) (T : TypeId), value.Valid m →
      ∃ m1 val casted, resolveValue w m value T = some (m1, val, casted) ∧
        (∀ q : Nat, value.TryCast w T = some (some q) →
          casted = some q ∧ value.mInstance = some q) ∧
        (value.TryCast w T = some none →
          ∀ (m2 : Mem) (r : BasicAny), value.TryConvert w m T = some (m2, r) →
          (r.toBool = true → ∃ q, casted = some q ∧ m.next ≤ q ∧
            (m1.cells q).isSome = true ∧ m1.cells q = m2.deref r.mInstance) ∧
          (r.toBool = false → casted = none))) ∧
    (∀ (dm : DataMember) (write : Mem → Nat → Nat → Option Mem) (object value : BasicAny)
      (obj : Nat) (m1 : Mem) (val : BasicAny) (c : Nat),
      object.TryCast w dm.mParent = some (some obj) →
      resolveValue w m value dm.mType = some (m1, val, some c) →
      setBody w dm write m object value =
        (write m1 obj c).bind (fun m2 => (BasicAny.dtor m2 val).map (fun m3 => (m3, .ok ())))) := by
  refine ⟨?_, ?_, ?_, ?_, ?_⟩
  · intro args params hlen hv
    obtain ⟨mf, cs, hres, hab, hall⟩ := resolveArguments_spec w m args params hlen hv
    refine ⟨mf, cs, _, hres, ?_⟩
    intro i a P ha hP
    have hmem : a ∈ args := List.getElem?_mem ha
    obtain ⟨c, lo2, hi2, hc, hlo2, hconv⟩ := hall.get i a P ha hP
    have hps : (cs.map (fun c => c.mInstance))[i]? = some c.mInstance := by
      simp [hc]
    refine ⟨?_, ?_⟩
    · intro q hq
      simp only [Converted1, hq] at hconv
      exact ⟨by rw [hps, hconv.1], TryCast_some_eq w a P q hq, c, hc, hconv⟩
    · intro hnone m2 r hconvert
      obtain ⟨m2b, rb, hconvert2, hval⟩ := TryConvert_value w m a P (hv a hmem) hnone
      rw [hconvert] at hconvert2
      simp only [Option.some.injEq, Prod.mk.injEq] at hconvert2
      obtain ⟨e1, e2⟩ := hconvert2
      subst e1 e2
      simp only [Converted1, hnone] at hconv
      cases hcv : convertedValue w m a P with
      | none =>
        simp only [hcv] at hconv hval
        refine ⟨fun h => ?_, fun _ => by rw [hps, hconv.1]⟩
        rw [hval] at h
        exact absurd h (by simp)
      | some v =>
        simp only [hcv] at hconv hval
        obtain ⟨x, tr, e1, e2, _, _, _, _, _, _, e9, _⟩ := hconv
        refine ⟨fun _ => ⟨x, by rw [hps, e1], le_trans hlo2 e9, by simp [e2], ?_⟩, fun h => ?_⟩
        · rw [e2, hval.2]
        · rw [hval.1] at h
          exact absurd h (by simp)
  · intro c args mf cs ps vs hres hvalid hderef
    simp only [Constructor.NewInstanceImpl, hres, hvalid, hderef, if_true]
    cases dtorAll (BasicAny.ctorValue w (mf.emit .native) c.mParent (c.native vs)).1 cs <;> rfl
  · intro f object args mf cs ps obj hres hvalid hrecv hguard
    simp only [Function.InvokeImpl, hres, hrecv, hvalid, hguard, Bool.and_self, if_true]
    cases dtorAll (f.call w mf obj (ps.filterMap id)).1 cs <;> rfl
  · intro value T hv
    obtain ⟨m1, val, casted, hrv, hab, hmatch⟩ := resolveValue_spec w m value T hv
    refine ⟨m1, val, casted, hrv, ?_, ?_⟩
    · intro q hq
      simp only [hq] at hmatch
      exact ⟨hmatch.1, TryCast_some_eq w value T q hq⟩
    · intro hnone m2 r hconvert
      obtain ⟨m2b, rb, hconvert2, hval⟩ := TryConvert_value w m value T hv hnone
      rw [hconvert] at hconvert2
      simp only [Option.some.injEq, Prod.mk.injEq] at hconvert2
      obtain ⟨e1, e2⟩ := hconvert2
      subst e1 e2
      simp only [hnone] at hmatch
      cases hcv : convertedValue w m value T with
      | none =>
        simp only [hcv] at hmatch hval
        refine ⟨fun h => ?_, fun _ => hmatch.2⟩
        rw [hval] at h
        exact absurd h (by simp)
      | some v =>
        simp only [hcv] at hmatch hval
        obtain ⟨⟨x, tr, e1, e2, _, _, _, _, _, _, e9, _⟩, hc⟩ := hmatch
        refine ⟨fun _ => ⟨x, hc.trans e1, e9, by simp [e2], ?_⟩, fun h => ?_⟩
        · rw [e2, hval.2]
        · rw [hval.1] at h
          exact absurd h (by simp)
  · intro dm write object value obj m1 val c hobj hrv
    simp only [setBody, hobj, hrv]
    cases write m1 obj c with
    | none => rfl
    | some m2 =>
      simp only [Option.bind]
      cases BasicAny.dtor m2 val <;> rfl

/-- `Get` on a receiver that casts to the class of the member returns an owning
container of the member's type holding what the member reads in the object at the cast
pointer. -/
theorem Get_returns (w : World) (m : Mem) (dm : DataMember) (o : BasicAny) (p : Nat)
    (ov x : Val) (hp : o.TryCast w dm.mParent = some (some p)) (hov : m.cells p = some ov)
    (hx : dm.read ov = some x) :
    ∃ m1 r, dm.Get w m o = some (m1, .ok r) ∧ r.Temp m.next m1.next m1 dm.mType x := by
  cases himpl : dm.impl with
  | ptr idx isConst =>
    simp only [DataMember.read, himpl] at hx
    obtain ⟨ht, _, _⟩ := ctorValue_temp w m dm.mType x
    exact ⟨_, _, by simp [DataMember.Get, hp, hov, himpl, hx], ht⟩
  | setGet setter getter =>
    simp only [DataMember.read, himpl, Option.some.injEq] at hx
    subst hx
    obtain ⟨ht, _, _⟩ := ctorValue_temp w (m.emit .native) dm.mType (getter ov)
    exact ⟨_, _, by simp [DataMember.Get, hp, hov, himpl], ht⟩

/-- `Set` then `Get` at the cast receiver pointer: for a field at index `idx` that is
not constant, a caller's object at the pointer `obj` the receiver reference casts to, and
a valid value that resolves to the object `x`, `Set` returns normally; the field `idx` of
the object at `obj` is the `Type` part of `x`, which is `x` itself for a scalar and for an
object of no more fields than `Type`; every other field and every other object of the
caller is unchanged, and `Get` on the same reference then returns a container holding the
stored value.  The resolved `x` is the held object when the value has the member's type,
and the native conversion of the held value along the edge used when the cast is null. -/
theorem Set_Get_at_pointer (w : World) (dm : DataMember) (m : Mem) (objectRef : AnyRef)
    (value : BasicAny) (idx : Nat) (S Sv : TypeId) (obj : Nat) (fields : List Val) (x : Val)
    (himpl : dm.impl = .ptr idx false) (hS : objectRef.mType = some S)
    (hcast : (BasicAny.ctorRef m objectRef).2.TryCast w dm.mParent = some (some obj))
    (hlt : obj < m.next) (hov : m.cells obj = some (.obj fields)) (hidx : idx < fields.length)
    (hval : value.Valid m) (hSv : value.mType = some Sv)
    (hx : specResolve w m value dm.mType = some x) :
    (∃ m1, dm.Set w m objectRef value = some (m1, .ok ()) ∧
      m1.cells obj = some (.obj (fields.set idx (w.slice dm.mType x))) ∧
      (fields.set idx (w.slice dm.mType x))[idx]? = some (w.slice dm.mType x) ∧
      (∀ j, j ≠ idx → (fields.set idx (w.slice dm.mType x))[j]? = fields[j]?) ∧
      (∀ a, a < m.next → a ≠ obj → m1.cells a = m.cells a) ∧
      ∃ m2 r, dm.Get w m1 (BasicAny.ctorRef m1 objectRef).2 = some (m2, .ok r) ∧
        r.toBool = true ∧ r.mType = some dm.mType ∧
        m2.deref r.mInstance = some (w.slice dm.mType x)) ∧
    ((∀ n, x = .num n → w.slice dm.mType x = x) ∧
      ∀ fs, x = .obj fs → fs.length ≤ w.numFields dm.mType → w.slice dm.mType x = x) ∧
    (value.mType = some dm.mType → m.deref value.mInstance = some x) ∧
    (∀ (i : Nat) (v : Val) (e : Conversion), value.mInstance = some i →
      m.cells i = some v → value.TryCast w dm.mType = some none →
      lastConversion dm.mType (w.desc Sv).mConversions = some e →
      x = w.staticCast e.mFromType dm.mType v) := by
  have hnc : dm.isConst = false := by simp [DataMember.isConst, himpl]
  have hwr : dm.write (.obj fields) (dm.stored w x)
      = some (.obj (fields.set idx (w.slice dm.mType x))) := by
    simp [DataMember.write, DataMember.stored, himpl, Val.setField, hidx]
  obtain ⟨_, hB⟩ := Set_spec w dm m objectRef value S Sv hnc hS hval hSv
  obtain ⟨m1, hset, _, ho1, hfr1⟩ := (hB obj hcast).2 x _ _ hx hlt hov hwr
  refine ⟨⟨m1, hset, ho1, ?_, ?_, hfr1, ?_⟩, ⟨?_, ?_⟩, ?_, ?_⟩
  · simp [hidx]
  · intro j hj
    simp [List.getElem?_set_ne (Ne.symm hj)]
  · have hcast1 : (BasicAny.ctorRef m1 objectRef).2.TryCast w dm.mParent = some (some obj) := by
      rw [← hcast]
      exact TryCast_congr w _ _ _ rfl rfl
    have hrd : dm.read (.obj (fields.set idx (w.slice dm.mType x)))
        = some (w.slice dm.mType x) := by
      simp [DataMember.read, himpl, Val.getField, hidx]
    obtain ⟨m2, r, hget, ht⟩ := Get_returns w m1 dm _ obj _ _ hcast1 ho1 hrd
    obtain ⟨a, tr, e1, e2, e3, _⟩ := id ht
    exact ⟨m2, r, hget, ht.toBool_true.1, e3, by simp [Mem.deref, e1, e2]⟩
  · intro n hn
    subst hn
    rfl
  · intro fs hfs hlen
    subst hfs
    simp [World.slice, List.take_of_length_le hlen]
  · intro hty
    cases hi : value.mInstance with
    | none =>
      have hc : value.TryCast w dm.mType = some none := by
        simp [BasicAny.TryCast, BasicAny.toBool, BasicAny.Get, hi]
      simp [specResolve, hc, convertedValue, hi] at hx
    | some i =>
      have hc : value.TryCast w dm.mType = some (some i) := by
        simp [BasicAny.TryCast, BasicAny.toBool, BasicAny.Get, hi, hty]
      simpa [specResolve, hc, Mem.deref] using hx
  · intro i v e hi hv hc hl
    simp only [specResolve, hc, convertedValue, hi, hSv, hl, hv, Option.some.injEq] at hx
    exact hx.symm

/-- C9 as the code has it.  `Set` on a member that is not constant, with a receiver
reference and a valid value that are not empty, every object the receiver casts to being
live and having the member: the call raises `BadCastException` exactly when the receiver
does not cast to the class (`TryCast` is null; no conversion is tried for the receiver)
or the value does not resolve through the pipeline (its cast is null and its conversion
is empty); whenever it raises, every object of the caller, the receiver's included, is
unchanged. -/
theorem Set_raises_iff (w : World) (dm : DataMember) (m : Mem) (objectRef : AnyRef)
    (value : BasicAny) (S Sv : TypeId) (hnc : dm.isConst = false)
    (hS : objectRef.mType = some S) (hval : value.Valid m) (hSv : value.mType = some Sv)
    (hwt : ∀ obj, (BasicAny.ctorRef m objectRef).2.TryCast w dm.mParent = some (some obj) →
      obj < m.next ∧ ∃ ov, m.cells obj = some ov ∧ ∀ x, ∃ o1, dm.write ov x = some o1) :
    ((∃ m1 e, dm.Set w m objectRef value = some (m1, .error e)) ↔
      ((BasicAny.ctorRef m objectRef).2.TryCast w dm.mParent = some none ∨
        (value.TryCast w dm.mType = some none ∧
          ∃ m2 r, value.TryConvert w m dm.mType = some (m2, r) ∧ r.toBool = false))) ∧
    (∀ m1 e, dm.Set w m objectRef value = some (m1, .error e) →
      ∀ a, a < m.next → m1.cells a = m.cells a) := by
  obtain ⟨hA, hB⟩ := Set_spec w dm m objectRef value S Sv hnc hS hval hSv
  have hnone := specResolve_none_iff w m value dm.mType hval
  obtain ⟨p, hp⟩ := TryCast_defined w (BasicAny.ctorRef m objectRef).2 dm.mParent
    (Or.inr (by simp [BasicAny.ctorRef, BasicAny.ctorDefault, Mem.fresh, hS]))
  cases p with
  | none =>
    obtain ⟨m1, hset, hfr⟩ := hA hp
    refine ⟨⟨fun _ => Or.inl hp, fun _ => ⟨m1, _, hset⟩⟩, ?_⟩
    intro m2 e h2 a ha
    rw [hset] at h2
    simp only [Option.some.injEq, Prod.mk.injEq] at h2
    rw [← h2.1]
    exact hfr a ha
  | some obj =>
    obtain ⟨hBr, hBo⟩ := hB obj hp
    obtain ⟨hlt, ov, hov, hwr⟩ := hwt obj hp
    cases hx : specResolve w m value dm.mType with
    | none =>
      obtain ⟨m1, hset, hfr⟩ := hBr hx
      refine ⟨⟨fun _ => Or.inr (hnone.mp hx), fun _ => ⟨m1, _, hset⟩⟩, ?_⟩
      intro m2 e h2 a ha
      rw [hset] at h2
      simp only [Option.some.injEq, Prod.mk.injEq] at h2
      rw [← h2.1]
      exact hfr a ha
    | some x =>
      obtain ⟨o1, ho1⟩ := hwr (dm.stored w x)
      obtain ⟨m1, hset, _⟩ := hBo x ov o1 hx hlt hov ho1
      refine ⟨⟨?_, ?_⟩, ?_⟩
      · rintro ⟨m2, e, h2⟩
        rw [hset] at h2
        simp at h2
      · rintro (h | h)
        · rw [hp] at h
          simp at h
        · have := hnone.mpr h
          rw [hx] at this
          simp at this
      · intro m2 e h2
        rw [hset] at h2
        simp at h2

/-- C9 as stated fails on the registered program: the receiver, a caller's Pair, resolves
to the class Point through the pipeline (its cast is null, its conversion to Point is not
empty) and the value, an int, resolves to the member's type by cast, and yet `Set` of the
member `x` raises the error tagged `object:` and changes nothing. -/
theorem Set_receiver_conversion_counterexample :
    (BasicAny.ctorRef sevenBuilt.1 pairRef).2.TryCast demoWorld pointX.mParent = some none ∧
    ((BasicAny.ctorRef sevenBuilt.1 pairRef).2.TryConvert demoWorld sevenBuilt.1
      pointX.mParent).map (fun r => r.2.toBool) = some true ∧
    sevenBuilt.2.TryCast demoWorld pointX.mType = some (some 1) ∧
    (pointX.Set demoWorld sevenBuilt.1 pairRef sevenBuilt.2).map (fun r => r.2) = some (.error
      ⟨"object: wrong type from Get: tried to get Point, contained Pair"⟩) := by
  refine ⟨by decide, by rfl, by decide, by rfl⟩

theorem mixedArgs_valid : ∀ a ∈ mixedArgs.2, a.Valid mixedArgs.1 := by
  intro a ha
  have h : mixedArgs.2 =
      [⟨some 0, 0, some 0, some .inl, some .inl, some .inl⟩,
       ⟨some 1, 1, some 1, some .inl, some .inl, some .inl⟩] := by decide
  rw [h] at ha
  simp only [List.mem_cons, List.mem_singleton, List.not_mem_nil, or_false] at ha
  rcases ha with rfl | rfl
  · unfold BasicAny.Valid
    exact ⟨rfl, rfl, by decide, rfl, rfl⟩
  · unfold BasicAny.Valid
    exact ⟨rfl, rfl, by decide, rfl, rfl⟩

/-- C1 on the registered program, arguments `3` and `4.7f` for parameters `(int, int)`:
the first final pointer is the int's own address, the second points to a fresh int 4. -/
theorem resolution_rule_witness :
    ∃ mf cs ps, resolveArguments demoWorld mixedArgs.1 mixedArgs.2 [0, 0] = some (mf, cs, ps) ∧
      ps[0]? = some (some 0) ∧
      ∃ q, ps[1]? = some (some q) ∧ mixedArgs.1.next ≤ q ∧ mf.cells q = some (.num 4) := by
  obtain ⟨mf, cs, ps, hres, hpos⟩ :=
    (resolution_rule demoWorld mixedArgs.1).1 mixedArgs.2 [0, 0] rfl mixedArgs_valid
  refine ⟨mf, cs, ps, hres, ?_, ?_⟩
  · exact ((hpos 0 ⟨some 0, 0, some 0, some .inl, some .inl, some .inl⟩ 0 rfl rfl).1 0
      (by decide)).1
  · obtain ⟨q, h1, h2, _, h4⟩ :=
      ((hpos 1 ⟨some 1, 1, some 1, some .inl, some .inl, some .inl⟩ 0 rfl rfl).2
        (by decide) _ _ rfl).1 rfl
    exact ⟨q, h1, h2, h4.trans rfl⟩

theorem valueArgs_valid (m : Mem) (U1 U2 : TypeId) (v1 v2 : Val) :
    ∀ x ∈ [Arg.value U1 v1, Arg.value U2 v2], x.Valid m := by
  intro x hx
  simp only [List.mem_cons, List.mem_singleton, List.not_mem_nil, or_false] at hx
  rcases hx with rfl | rfl <;> trivial

/-- C4 on the registered program: `NewInstance(3, 4)` on `Point(int, int)` yields an
owning Point whose value is `Point{3, 4}`, with `x` reading 3. -/
theorem NewInstance_success_witness :
    (∃ m1 r, pointCtor.NewInstanceV demoWorld emptyMem [.value 0 (.num 3), .value 0 (.num 4)]
        = some (m1, r) ∧ r.toBool = true ∧ r.IsRef = false ∧ r.mDestroy ≠ none ∧
      r.mType = some pointCtor.mParent ∧
      m1.deref r.mInstance = some (pointCtor.native [.num 3, .num 4]) ∧
      m1.calls = emptyMem.calls + 1) ∧
    pointX.read (pointCtor.native [.num 3, .num 4]) = some (.num 3) :=
  ⟨(NewInstance_success demoWorld pointCtor emptyMem).2
      [.value 0 (.num 3), .value 0 (.num 4)] [.num 3, .num 4] rfl
      (valueArgs_valid _ _ _ _ _) _ _ rfl rfl,
   rfl⟩

/-- C5 on the registered program: `NewInstance(3, Celsius)` on `Point(int, int)`, whose
second argument does not resolve, and `Sum` invoked on a float receiver both return an
empty container without a native execution. -/
theorem nomatch_returns_empty_witness :
    (∃ m1 r, pointCtor.NewInstanceV demoWorld emptyMem
        [.value 0 (.num 3), .value 7 (.num 215)] = some (m1, r) ∧ r.toBool = false ∧
      m1.calls = emptyMem.calls) ∧
    (∃ m1 r, pointSum.Invoke demoWorld floatBuilt.1 (AnyRef.ctorAny floatBuilt.2) []
        = some (m1, r) ∧ r.toBool = false ∧ m1.calls = floatBuilt.1.calls) :=
  ⟨(nomatch_returns_empty demoWorld emptyMem).2.1 pointCtor
      [.value 0 (.num 3), .value 7 (.num 215)] rfl (valueArgs_valid _ _ _ _ _) _ _ rfl
      ⟨none, List.Mem.tail _ (List.Mem.head _), rfl⟩,
   (nomatch_returns_empty demoWorld floatBuilt.1).2.2 pointSum (AnyRef.ctorAny floatBuilt.2) []
      rfl (by simp) (Or.inr rfl) _ _ rfl (Or.inr ⟨2, rfl, by decide⟩)⟩

theorem floatOnPoint_valid : floatOnPoint.2.Valid floatOnPoint.1 := by
  unfold BasicAny.Valid
  exact ⟨rfl, rfl, by decide, rfl, rfl⟩

theorem celsiusOnPoint_valid : celsiusOnPoint.2.Valid celsiusOnPoint.1 := by
  unfold BasicAny.Valid
  exact ⟨rfl, rfl, by decide, rfl, rfl⟩

/-- On the registered program: setting `y` of the caller's `Point{3, 4}` to `5.8f` stores
the converted int 5 in the caller's object, keeps `x`, and `Get` reads 5 back. -/
theorem Set_Get_at_pointer_witness :
    ∃ m1, pointY.Set demoWorld floatOnPoint.1 pointRef floatOnPoint.2 = some (m1, .ok ()) ∧
      m1.cells 0 = some (.obj ([.num 3, .num 4].set 1 (.num 5))) ∧
      ([Val.num 3, Val.num 4].set 1 (.num 5))[1]? = some (.num 5) ∧
      (∀ j, j ≠ 1 → ([Val.num 3, Val.num 4].set 1 (.num 5))[j]? = [Val.num 3, Val.num 4][j]?) ∧
      (∀ a, a < floatOnPoint.1.next → a ≠ 0 → m1.cells a = floatOnPoint.1.cells a) ∧
      ∃ m2 r, pointY.Get demoWorld m1 (BasicAny.ctorRef m1 pointRef).2 = some (m2, .ok r) ∧
        r.toBool = true ∧ r.mType = some pointY.mType ∧
        m2.deref r.mInstance = some (.num 5) :=
  (Set_Get_at_pointer demoWorld pointY floatOnPoint.1 pointRef floatOnPoint.2 1 2 1 0
    [.num 3, .num 4] (.num 5) rfl rfl (by decide) (by decide) rfl (by decide)
    floatOnPoint_valid rfl rfl).1

/-- C9 as the code has it, on the registered program: a Celsius value, which has no
direct edge to int, makes `Set` of `y` raise and leaves the caller's memory unchanged. -/
theorem Set_raises_iff_witness :
    (∃ m1 e, pointY.Set demoWorld celsiusOnPoint.1 pointRef celsiusOnPoint.2
      = some (m1, .error e)) ∧
    (∀ m1 e, pointY.Set demoWorld celsiusOnPoint.1 pointRef celsiusOnPoint.2
        = some (m1, .error e) →
      ∀ a, a < celsiusOnPoint.1.next → m1.cells a = celsiusOnPoint.1.cells a) := by
  have h := Set_raises_iff demoWorld pointY celsiusOnPoint.1 pointRef celsiusOnPoint.2 2 7
    rfl rfl celsiusOnPoint_valid rfl (by
      intro obj hobj
      have hc : (BasicAny.ctorRef celsiusOnPoint.1 pointRef).2.TryCast demoWorld pointY.mParent
          = some (some 0) := by decide
      rw [hc] at hobj
      have h0 : obj = 0 := by simpa using hobj.symm
      subst h0
      refine ⟨by decide, .obj [.num 3, .num 4], rfl, fun x => ⟨_, rfl⟩⟩)
  exact ⟨h.1.mpr (Or.inr ⟨by decide, _, _, rfl, rfl⟩), h.2⟩

/-! ## Move construction -/

/-- The number of runs of `TypeTraits<T>::Destroy` on the address `x` in a trace with one
more event. -/
theorem count_destroy_emit (l : List Event) (e : Event) (x : Nat) :
    (l ++ [e]).count (Event.destroy x) =
      l.count (Event.destroy x) + if e = Event.destroy x then 1 else 0 := by
  rw [List.count_append]
  by_cases h : e = Event.destroy x
  · subst h; simp
  · have h2 : ¬ (Event.destroy x = e) := fun h3 => h h3.symm
    simp [h, List.count_cons, h2]

/-- C11 (move construction, Any.hpp 231-241 and 250-255): for a source `s` that owns a live
object `v` at `a`, the new container `d` holds `v` with the type and the three operations
of `s`: in its own buffer for an inline type, the move having run the destructor of the
moved-from object at `a`, and in the heap block of `s`, whose address is constructed in
the buffer of `d`, otherwise.  The source keeps everything but its destroy operation,
which is null, so that its destruction changes nothing, before and after that of `d`.
Over the move and the destruction of both containers one destructor runs on the object of
`d` and one on the moved-from object, which is the same object on the heap, and none on
any other address: no object is destroyed twice.  For a source that aliases an object, `d`
aliases the same object, the source is unchanged and no object is touched. -/
theorem ctorMove_transfers (m : Mem) (s : BasicAny) :
    (∀ a tr v, s.mInstance = some a → m.cells a = some v → a < m.next →
        s.mCopy = some tr → s.mMove = some tr → s.mDestroy = some tr →
      ∃ m1 d b, BasicAny.ctorMove m s = some (m1, d, { s with mDestroy := none }) ∧
        d.mInstance = some b ∧ m1.cells b = some v ∧ d.mType = s.mType ∧
        d.mCopy = some tr ∧ d.mMove = some tr ∧ d.mDestroy = some tr ∧
        d.mStorage = m.next ∧
        (tr = .inl → b = d.mStorage ∧ m1.cells a = none ∧
          m1.log = m.log ++ [Event.destroy a]) ∧
        (tr = .heap → b = a ∧ m1.slots d.mStorage = some (some a) ∧ m1.log = m.log) ∧
        BasicAny.dtor m1 { s with mDestroy := none } = some m1 ∧
        ∃ m2, BasicAny.dtor m1 d = some m2 ∧
          BasicAny.dtor m2 { s with mDestroy := none } = some m2 ∧
          m2.cells b = none ∧ m2.cells a = none ∧
          ∀ x, m2.log.count (Event.destroy x) =
            m.log.count (Event.destroy x) + if x = a ∨ x = b then 1 else 0) ∧
    (∀ a T, s.Aliases a T →
      ∃ m1 d, BasicAny.ctorMove m s = some (m1, d, s) ∧ d.Aliases a T ∧
        m1.cells = m.cells ∧ m1.log = m.log ∧
        BasicAny.dtor m1 d = some m1 ∧ BasicAny.dtor m1 s = some m1) := by
  constructor
  · intro a tr v hi hv ha hc hm hd
    obtain ⟨si, ss, st, sc, sm, sd⟩ := s
    simp only at hi hc hm hd
    subst hi hc hm hd
    have hne : m.next ≠ a := by omega
    cases tr
    · refine ⟨(((m.fresh.1).store m.next v).kill a).emit (.destroy a),
        ⟨some m.next, m.next, st, some .inl, some .inl, some .inl⟩, m.next, ?_, rfl, ?_, rfl,
        rfl, rfl, rfl, rfl, fun _ => ⟨rfl, ?_, rfl⟩, (fun h => by cases h), rfl, ?_⟩
      · simp [BasicAny.ctorMove, Mem.fresh, TypeTraits.Move, Mem.store, hv]
      · simp (disch := omega) [Mem.kill, Mem.store, Mem.fresh, Mem.emit,
          Function.update_apply, if_neg]
      · simp [Mem.kill, Mem.store, Mem.fresh, Mem.emit]
      · refine ⟨(((((m.fresh.1).store m.next v).kill a).emit (.destroy a)).kill m.next).emit
            (.destroy m.next), ?_, rfl, ?_, ?_, ?_⟩
        · simp [BasicAny.dtor, TypeTraits.Destroy, Mem.kill, Mem.store, Mem.fresh, Mem.emit,
            Function.update_apply, hne]
        · simp [Mem.kill, Mem.store, Mem.fresh, Mem.emit]
        · simp [Mem.kill, Mem.store, Mem.fresh, Mem.emit, Function.update_apply, hne.symm]
        · intro x
          simp only [Mem.kill, Mem.store, Mem.fresh, Mem.emit]
          rw [count_destroy_emit, count_destroy_emit]
          have hne2 : a ≠ m.next := fun h => hne h.symm
          by_cases h1 : x = a
          · subst h1
            simp [hne, hne2]
          · by_cases h2 : x = m.next
            · subst h2
              simp [hne, hne2]
            · have h3 : ¬ a = x := fun h => h1 h.symm
              have h4 : ¬ m.next = x := fun h => h2 h.symm
              simp [h1, h2, h3, h4]
    · refine ⟨(m.fresh.1).bind m.next (some a),
        ⟨some a, m.next, st, some .heap, some .heap, some .heap⟩, a, ?_,
        rfl, ?_, rfl, rfl, rfl, rfl, rfl, (fun h => by cases h), fun _ => ⟨rfl, ?_, rfl⟩, rfl, ?_⟩
      · simp [BasicAny.ctorMove, Mem.fresh, TypeTraits.Move]
      · simpa [Mem.fresh] using hv
      · simp [Mem.bind, Mem.fresh]
      · refine ⟨(((((m.fresh.1).bind m.next (some a)).kill a).emit (.destroy a)).emit (.free a)),
          ?_, rfl, ?_, ?_, ?_⟩
        · simp [BasicAny.dtor, TypeTraits.Destroy, Mem.fresh, hv]
        · simp [Mem.kill, Mem.fresh, Mem.emit]
        · simp [Mem.kill, Mem.fresh, Mem.emit]
        · intro x
          simp only [Mem.kill, Mem.fresh, Mem.emit]
          rw [count_destroy_emit, count_destroy_emit]
          simp [eq_comm]
  · intro a T h
    obtain ⟨si, ss, st, sc, sm, sd⟩ := s
    obtain ⟨h1, h2, h3, h4, h5⟩ := h
    simp only at h1 h2 h3 h4 h5
    subst h1 h2 h3 h4 h5
    refine ⟨m.fresh.1, ⟨some a, m.next, some T, none, none, none⟩, ?_,
      ⟨rfl, rfl, rfl, rfl, rfl⟩, rfl, rfl, rfl, rfl⟩
    simp [BasicAny.ctorMove, Mem.fresh]

/-- C11 at `Any(3.7f)` moved into a new container (inline), at `Any(Big{})` (on the heap),
and at a container aliasing the caller's Point. -/
theorem ctorMove_transfers_witness :
    (∃ m1 d b, BasicAny.ctorMove floatBuilt.1 floatBuilt.2 =
        some (m1, d, { floatBuilt.2 with mDestroy := none }) ∧
      d.mInstance = some b ∧ m1.cells b = some (.num 37) ∧ d.mType = floatBuilt.2.mType ∧
      d.mCopy = some .inl ∧ d.mMove = some .inl ∧ d.mDestroy = some .inl ∧
      d.mStorage = floatBuilt.1.next ∧
      (TypeTraits.inl = .inl → b = d.mStorage ∧ m1.cells 0 = none ∧
        m1.log = floatBuilt.1.log ++ [Event.destroy 0]) ∧
      (TypeTraits.inl = .heap → b = 0 ∧ m1.slots d.mStorage = some (some 0) ∧
        m1.log = floatBuilt.1.log) ∧
      BasicAny.dtor m1 { floatBuilt.2 with mDestroy := none } = some m1 ∧
      ∃ m2, BasicAny.dtor m1 d = some m2 ∧
        BasicAny.dtor m2 { floatBuilt.2 with mDestroy := none } = some m2 ∧
        m2.cells b = none ∧ m2.cells 0 = none ∧
        ∀ x, m2.log.count (Event.destroy x) =
          floatBuilt.1.log.count (Event.destroy x) + if x = 0 ∨ x = b then 1 else 0) ∧
    (∃ m1 d b, BasicAny.ctorMove bigBuilt.1 bigBuilt.2 =
        some (m1, d, { bigBuilt.2 with mDestroy := none }) ∧
      d.mInstance = some b ∧ m1.cells b = some (.obj []) ∧ d.mType = bigBuilt.2.mType ∧
      d.mCopy = some .heap ∧ d.mMove = some .heap ∧ d.mDestroy = some .heap ∧
      d.mStorage = bigBuilt.1.next ∧
      (TypeTraits.heap = .inl → b = d.mStorage ∧ m1.cells 1 = none ∧
        m1.log = bigBuilt.1.log ++ [Event.destroy 1]) ∧
      (TypeTraits.heap = .heap → b = 1 ∧ m1.slots d.mStorage = some (some 1) ∧
        m1.log = bigBuilt.1.log) ∧
      BasicAny.dtor m1 { bigBuilt.2 with mDestroy := none } = some m1 ∧
      ∃ m2, BasicAny.dtor m1 d = some m2 ∧
        BasicAny.dtor m2 { bigBuilt.2 with mDestroy := none } = some m2 ∧
        m2.cells b = none ∧ m2.cells 1 = none ∧
        ∀ x, m2.log.count (Event.destroy x) =
          bigBuilt.1.log.count (Event.destroy x) + if x = 1 ∨ x = b then 1 else 0) ∧
    (∃ m1 d, BasicAny.ctorMove pointMem (BasicAny.ctorRef pointMem pointRef).2 =
        some (m1, d, (BasicAny.ctorRef pointMem pointRef).2) ∧ d.Aliases 0 2 ∧
      m1.cells = pointMem.cells ∧ m1.log = pointMem.log ∧
      BasicAny.dtor m1 d = some m1 ∧
      BasicAny.dtor m1 (BasicAny.ctorRef pointMem pointRef).2 = some m1) :=
  ⟨(ctorMove_transfers floatBuilt.1 floatBuilt.2).1 0 .inl (.num 37) rfl rfl (by decide)
      rfl rfl rfl,
    (ctorMove_transfers bigBuilt.1 bigBuilt.2).1 1 .heap (.obj []) rfl rfl (by decide)
      rfl rfl rfl,
    (ctorMove_transfers pointMem (BasicAny.ctorRef pointMem pointRef).2).2 0 2
      ⟨rfl, rfl, rfl, rfl, rfl⟩⟩

/-! ## The moved-from container -/

/-- C12, counterexample: after `Any d(std::move(s))` with `s = Any(3.7f)`, and after
`d = std::move(s)` into an empty `d`, the moved-from `s` still tests non-empty, `Get()`
is its former pointer and `TryCast<float>()` returns it. -/
theorem moved_from_not_empty_counterexample :
    (∃ m1 d s1, BasicAny.ctorMove floatBuilt.1 floatBuilt.2 = some (m1, d, s1) ∧
      s1.toBool = true ∧ s1.Get = some 0 ∧ s1.TryCast demoWorld 1 = some (some 0)) ∧
    (∃ m1 d1 s1, BasicAny.assignMove (BasicAny.ctorDefault floatBuilt.1).1
        (BasicAny.ctorDefault floatBuilt.1).2 floatBuilt.2 = some (m1, d1, s1) ∧
      s1.toBool = true ∧ s1.Get = some 0 ∧ s1.TryCast demoWorld 1 = some (some 0)) :=
  ⟨⟨_, _, _, rfl, rfl, rfl, rfl⟩, ⟨_, _, _, rfl, rfl, rfl, rfl⟩⟩

/-- C12, amended: a container `s` that owns a live object at `a` is left by a move, be it
move construction or move assignment into any container, with its pointer, type, copy and
move operations and without its destroy operation: its boolean test stays true, `Get()`
is still `a`, `TryCast<T>()` returns for every `T` what it returned before the move (the
pointer `a` for the held type), and its destruction does nothing.  Both moves return, the
assignment for a destination that is empty or owns an object and was built before `s`. -/
theorem moved_from_keeps_pointer (w : World) (m : Mem) (s : BasicAny) (a : Nat)
    (tr : TypeTraits) (v : Val) (S : TypeId)
    (hi : s.mInstance = some a) (hv : m.cells a = some v) (hS : s.mType = some S)
    (hm : s.mMove = some tr) :
    (∃ m1 d, BasicAny.ctorMove m s = some (m1, d, { s with mDestroy := none })) ∧
    (∀ d0 m1 d1 s1, BasicAny.assignMove m d0 s = some (m1, d1, s1) →
      s1 = { s with mDestroy := none }) ∧
    (∀ d0 lo k T vs, k ≤ m.next → (d0.Blank lo k ∨ d0.Temp lo k m T vs) →
      s.Temp k m.next m S v →
      ∃ m1 d1, BasicAny.assignMove m d0 s = some (m1, d1, { s with mDestroy := none })) ∧
    ({ s with mDestroy := none } : BasicAny).toBool = true ∧
    ({ s with mDestroy := none } : BasicAny).Get = some a ∧
    ({ s with mDestroy := none } : BasicAny).TryCast w S = some (some a) ∧
    (∀ T, ({ s with mDestroy := none } : BasicAny).TryCast w T = s.TryCast w T) ∧
    (∀ m1, BasicAny.dtor m1 { s with mDestroy := none } = some m1) := by
  obtain ⟨si, ss, st, sc, sm, sd⟩ := s
  simp only at hi hS hm
  subst hi hS hm
  refine ⟨?_, ?_, ?_, rfl, rfl, ?_, fun T => rfl, fun m1 => rfl⟩
  · cases tr
    · simp only [BasicAny.ctorMove, Mem.fresh, TypeTraits.Move, Mem.store, hv,
        Function.update_apply, Option.some.injEq, Prod.mk.injEq]
      by_cases hne : a = m.next
      · simp [hne]
      · simp [hne, hv]
    · simp [BasicAny.ctorMove, Mem.fresh, TypeTraits.Move]
  · intro d0 m1 d1 s1 h
    simp only [BasicAny.assignMove, BasicAny.ctorMove] at h
    cases hmv : tr.Move m.fresh.1 m.fresh.2 (some a) with
    | none => simp [hmv] at h
    | some r =>
      obtain ⟨m2, inst⟩ := r
      simp only [hmv] at h
      split at h
      · simp at h
      · rename_i m3 self1 temp1 _
        split at h
        · simp at h
        · simp only [Option.some.injEq, Prod.mk.injEq] at h
          exact h.2.2.symm
  · intro d0 lo k T vs hk hd0 hs
    obtain ⟨m1, d1, h, _⟩ := assignMove_temp m d0 _ lo k T S vs v hk hd0 hs
    exact ⟨m1, d1, h⟩
  · simp [BasicAny.TryCast, BasicAny.toBool, BasicAny.Get]

/-- C12 amended, at `Any(3.7f)` moved from. -/
theorem moved_from_keeps_pointer_witness :
    (∃ m1 d, BasicAny.ctorMove floatBuilt.1 floatBuilt.2 =
      some (m1, d, { floatBuilt.2 with mDestroy := none })) ∧
    ({ floatBuilt.2 with mDestroy := none } : BasicAny).toBool = true ∧
    ({ floatBuilt.2 with mDestroy := none } : BasicAny).Get = some 0 :=
  have h := moved_from_keeps_pointer demoWorld floatBuilt.1 floatBuilt.2 0 .inl (.num 37) 1
    rfl rfl rfl rfl
  ⟨h.1, h.2.2.2.1, h.2.2.2.2.1⟩

/-! ## `Swap` -/

/-- C13, the code at two failing inputs.  `a` aliasing the caller's `x` and `b` aliasing
the caller's `y`: after `a.Swap(b)` both containers point to `y`, and `b` carries the type
of `x` over the object `y`.  `a` owning `5.8f` and `b` aliasing the caller's Point: after
`a.Swap(b)` the container `b` owns the float, while `a` carries the type of the Point and
null operations over its own former pointer, whose object is dead, instead of the Point at
address 0. -/
theorem Swap_keeps_stale_pointer :
    (∃ m1 a1 b1, BasicAny.Swap aliasY.1 aliasX.2 aliasY.2 = some (m1, a1, b1) ∧
      aliasX.2.mInstance = some 0 ∧ aliasY.2.mInstance = some 1 ∧
      a1.mInstance = some 1 ∧ a1.mType = some 1 ∧
      b1.mInstance = some 1 ∧ b1.mType = some 0) ∧
    (∃ m1 a1 b1, BasicAny.Swap aliasAfterFloat.1 floatOnPoint.2 aliasAfterFloat.2 =
        some (m1, a1, b1) ∧
      floatOnPoint.2.mInstance = some 1 ∧ aliasAfterFloat.2.mInstance = some 0 ∧
      b1.mInstance = some 2 ∧ b1.mType = some 1 ∧ m1.cells 2 = some (.num 58) ∧
      a1.mInstance = some 1 ∧ a1.mType = some 2 ∧ a1.mDestroy = none ∧
      m1.cells 1 = none) :=
  ⟨⟨_, _, _, rfl, rfl, rfl, rfl, rfl, rfl, rfl⟩,
    ⟨_, _, _, rfl, rfl, rfl, rfl, rfl, rfl, rfl, rfl, rfl, rfl⟩⟩

/-! ## Reachable states -/

/-- C15, the code at the failing input `Any a(3.7f); a = Any();`: the assignment returns
and leaves `a` with its former pointer, hence testing non-empty, and with a null type
descriptor; `a.TryCast<float>()` and `a.TryConvert<float>()` then dereference the null
descriptor. -/
theorem assign_empty_leaves_null_type :
    ∃ m1 a1 e1, BasicAny.assignMove emptyAfterFloat.1 floatBuilt.2 emptyAfterFloat.2 =
        some (m1, a1, e1) ∧
      a1.toBool = true ∧ a1.Get = some 0 ∧ a1.GetType = none ∧
      a1.TryCast demoWorld 1 = none ∧ a1.TryConvert demoWorld m1 1 = none :=
  ⟨_, _, _, rfl, rfl, rfl, rfl, rfl, rfl⟩

/-! ## Aliasing containers -/

/-- A container obtained from a non-owning reference has null operations. -/
theorem FromRef.null_ops (c : BasicAny) (h : FromRef c) :
    c.mCopy = none ∧ c.mMove = none ∧ c.mDestroy = none := by
  induction h with
  | ctorRef m handle => exact ⟨rfl, rfl, rfl⟩
  | ctorCopy m m1 c d _ hc ih =>
    obtain ⟨ci, cs, ct, cc, cm, cd⟩ := c
    obtain ⟨h1, h2, h3⟩ := ih
    simp only at h1 h2 h3
    subst h1 h2 h3
    simp only [BasicAny.ctorCopy, Option.some.injEq, Prod.mk.injEq] at hc
    rw [← hc.2]
    exact ⟨rfl, rfl, rfl⟩
  | ctorMove m m1 c d c1 _ hc ih =>
    obtain ⟨ci, cs, ct, cc, cm, cd⟩ := c
    obtain ⟨h1, h2, h3⟩ := ih
    simp only at h1 h2 h3
    subst h1 h2 h3
    simp only [BasicAny.ctorMove, Option.some.injEq, Prod.mk.injEq] at hc
    rw [← hc.2.1]
    exact ⟨rfl, rfl, rfl⟩
  | movedFrom m m1 c d c1 _ hc ih =>
    obtain ⟨ci, cs, ct, cc, cm, cd⟩ := c
    obtain ⟨h1, h2, h3⟩ := ih
    simp only at h1 h2 h3
    subst h1 h2 h3
    simp only [BasicAny.ctorMove, Option.some.injEq, Prod.mk.injEq] at hc
    rw [← hc.2.2]
    exact ⟨rfl, rfl, rfl⟩
  | swapThis m m1 a b a1 b1 _ _ hs iha ihb =>
    obtain ⟨ai, as, at1, ac, am, ad⟩ := a
    obtain ⟨bi, bs, bt, bc, bm, bd⟩ := b
    obtain ⟨h1, h2, h3⟩ := iha
    obtain ⟨g1, g2, g3⟩ := ihb
    simp only at h1 h2 h3 g1 g2 g3
    subst h1 h2 h3 g1 g2 g3
    simp only [BasicAny.Swap, Option.some.injEq, Prod.mk.injEq] at hs
    rw [← hs.2.1]
    exact ⟨rfl, rfl, rfl⟩
  | swapOther m m1 a b a1 b1 _ _ hs iha ihb =>
    obtain ⟨ai, as, at1, ac, am, ad⟩ := a
    obtain ⟨bi, bs, bt, bc, bm, bd⟩ := b
    obtain ⟨h1, h2, h3⟩ := iha
    obtain ⟨g1, g2, g3⟩ := ihb
    simp only at h1 h2 h3 g1 g2 g3
    subst h1 h2 h3 g1 g2 g3
    simp only [BasicAny.Swap, Option.some.injEq, Prod.mk.injEq] at hs
    rw [← hs.2.2]
    exact ⟨rfl, rfl, rfl⟩

/-- C14 (Any.hpp 243-255, 289-325): the destructor runs the destroy operation exactly when
one is set; a container constructed from a non-owning reference has null copy, move and
destroy operations, and so has every container obtained from it by copy construction,
move construction or `Swap` with another such container; its destruction leaves the
memory as it is, and its copy construction, move construction and `Swap` with another
aliasing container return without touching any object or running any operation. -/
theorem alias_never_destroys (c : BasicAny) (h : FromRef c) :
    (∀ (m : Mem) (x : BasicAny), BasicAny.dtor m x =
      match x.mDestroy with
      | some d => d.Destroy m x.mInstance
      | none => some m) ∧
    (∀ m handle, (BasicAny.ctorRef m handle).2.mCopy = none ∧
      (BasicAny.ctorRef m handle).2.mMove = none ∧
      (BasicAny.ctorRef m handle).2.mDestroy = none) ∧
    c.mCopy = none ∧ c.mMove = none ∧ c.mDestroy = none ∧
    (∀ m, BasicAny.dtor m c = some m) ∧
    (∀ m, ∃ m1 d, BasicAny.ctorCopy m c = some (m1, d) ∧ d.mDestroy = none ∧
      m1.cells = m.cells ∧ m1.log = m.log) ∧
    (∀ m, ∃ m1 d, BasicAny.ctorMove m c = some (m1, d, c) ∧ d.mDestroy = none ∧
      m1.cells = m.cells ∧ m1.log = m.log) ∧
    (∀ m b, FromRef b → ∃ c1 b1, BasicAny.Swap m c b = some (m, c1, b1) ∧
      c1.mDestroy = none ∧ b1.mDestroy = none) := by
  obtain ⟨h1, h2, h3⟩ := FromRef.null_ops c h
  refine ⟨fun m x => rfl, fun m handle => ⟨rfl, rfl, rfl⟩, h1, h2, h3, ?_, ?_, ?_, ?_⟩
  · intro m
    simp [BasicAny.dtor, h3]
  · intro m
    simp only [BasicAny.ctorCopy, h1, h3, Mem.fresh, Option.some.injEq, Prod.mk.injEq]
    exact ⟨_, _, ⟨rfl, rfl⟩, rfl, rfl, rfl⟩
  · intro m
    simp only [BasicAny.ctorMove, h2, h3, Mem.fresh, Option.some.injEq, Prod.mk.injEq]
    exact ⟨_, _, ⟨rfl, rfl, trivial⟩, rfl, rfl, rfl⟩
  · intro m b hb
    obtain ⟨g1, g2, g3⟩ := FromRef.null_ops b hb
    simp only [BasicAny.Swap, h2, h3, g2, g3, Option.some.injEq, Prod.mk.injEq]
    exact ⟨_, _, ⟨trivial, rfl, rfl⟩, rfl, rfl⟩

/-- C14 at the container that `Swap` leaves on the side of `a`, for `a` and `b` aliasing
the caller's `x` and `y`. -/
theorem alias_never_destroys_witness :
    FromRef ⟨some 1, 2, some 1, none, none, none⟩ ∧
    BasicAny.dtor aliasY.1 ⟨some 1, 2, some 1, none, none, none⟩ = some aliasY.1 :=
  have hreach : FromRef ⟨some 1, 2, some 1, none, none, none⟩ :=
    FromRef.swapThis aliasY.1 aliasY.1 aliasX.2 aliasY.2 _ _
      (FromRef.ctorRef twoObjectsMem (AnyRef.ctorObject 0 0))
      (FromRef.ctorRef aliasX.1 (AnyRef.ctorObject 1 1)) rfl
  ⟨hreach, (alias_never_destroys _ hreach).2.2.2.2.2.1 aliasY.1⟩

/-! ## Independence of the result of `TryConvert` -/

/-- C16, counterexample: `TryConvert<Point>()` on a container aliasing the caller's Point
returns a non-empty container that is itself an alias of the caller's object: it holds
the source's pointer and has no destroy operation. -/
theorem TryConvert_alias_identity_counterexample :
    ∃ m1 r, (BasicAny.ctorRef pointMem pointRef).2.TryConvert demoWorld
        (BasicAny.ctorRef pointMem pointRef).1 2 = some (m1, r) ∧
      r.toBool = true ∧ (BasicAny.ctorRef pointMem pointRef).2.mInstance = some 0 ∧
      r.mInstance = some 0 ∧ r.IsRef = true ∧ r.mDestroy = none :=
  ⟨_, _, rfl, rfl, rfl, rfl, rfl, rfl⟩

/-- C16, amended: on a valid source holding a live object at `a`, `TryConvert<T>` returns;
in the identity case on an aliasing source the result is another alias of the object at
`a`; in every other case (an owning source, or a conversion along an edge) a non-empty
result owns an object of its own at an address `b` different from `a`, the source's
object is as before, writing to either object leaves the other, and destroying either
container leaves the other's object. -/
theorem TryConvert_independent (w : World) (m : Mem) (c : BasicAny) (T : TypeId) (a : Nat)
    (S : TypeId) (v : Val) (hv : c.Valid m) (hi : c.mInstance = some a)
    (hS : c.mType = some S) (hcell : m.cells a = some v) :
    ∃ m1 r, c.TryConvert w m T = some (m1, r) ∧
      (c.mCopy = none → S = T → r.Aliases a T) ∧
      ((c.mCopy ≠ none ∨ S ≠ T) → r.toBool = true →
        ∃ b tr x, r.mInstance = some b ∧ b ≠ a ∧ r.mType = some T ∧
          r.mCopy = some tr ∧ r.mMove = some tr ∧ r.mDestroy = some tr ∧
          m1.cells b = some x ∧ m1.cells a = some v ∧
          (∀ y, (m1.store b y).cells a = some v) ∧
          (∀ y, (m1.store a y).cells b = some x) ∧
          (∃ m2, BasicAny.dtor m1 r = some m2 ∧ m2.cells a = some v) ∧
          (∃ m3, BasicAny.dtor m1 c = some m3 ∧ m3.cells b = some x)) := by
  obtain ⟨m1, r, hr, hab, _, _, _, hcase⟩ := TryConvert_result w m c T hv
  obtain ⟨hsame, hdiff⟩ := hcase a S v hi hS hcell
  have halt : a < m.next := by
    obtain ⟨_, _, h3⟩ := hv
    rw [hi] at h3
    exact h3.1
  have hcell1 : m1.cells a = some v := by rw [hab.2.2 a halt, hcell]
  refine ⟨m1, r, hr, fun hc hT => (hsame hT).1 hc, ?_⟩
  intro hcase2 hne
  have htemp : ∃ x, r.Temp m.next m1.next m1 T x := by
    by_cases hT : S = T
    · rcases hcase2 with hc | hST
      · exact ⟨v, (hsame hT).2 hc⟩
      · exact absurd hT hST
    · have h := hdiff hT
      cases hl : lastConversion T (w.desc S).mConversions with
      | none =>
        rw [hl] at h
        have := h.toBool_false
        rw [hne] at this
        exact absurd this (by decide)
      | some e =>
        rw [hl] at h
        exact ⟨_, h⟩
  obtain ⟨x, b, tr, g1, g2, g3, g4, g5, g6, g7, g8, g9, g10, g11, g12⟩ := htemp
  have hba : b ≠ a := by omega
  refine ⟨b, tr, x, g1, hba, g3, g4, g5, g6, g2, hcell1, ?_, ?_, ?_, ?_⟩
  · intro y
    simp [Mem.store, Function.update_apply, Ne.symm hba, hcell1]
  · intro y
    simp [Mem.store, Function.update_apply, hba, g2]
  · cases tr
    · refine ⟨(m1.kill b).emit (.destroy b), ?_, ?_⟩
      · simp [BasicAny.dtor, g6, g1, TypeTraits.Destroy, g2]
      · simp [Mem.kill, Mem.emit, Function.update_apply, Ne.symm hba, hcell1]
    · refine ⟨((m1.kill b).emit (.destroy b)).emit (.free b), ?_, ?_⟩
      · simp [BasicAny.dtor, g6, g1, TypeTraits.Destroy, g2]
      · simp [Mem.kill, Mem.emit, Function.update_apply, Ne.symm hba, hcell1]
  · cases hd : c.mDestroy with
    | none => exact ⟨m1, by simp [BasicAny.dtor, hd], g2⟩
    | some td =>
      cases td
      · refine ⟨(m1.kill a).emit (.destroy a), ?_, ?_⟩
        · simp [BasicAny.dtor, hd, hi, TypeTraits.Destroy, hcell1]
        · simp [Mem.kill, Mem.emit, Function.update_apply, hba, g2]
      · refine ⟨((m1.kill a).emit (.destroy a)).emit (.free a), ?_, ?_⟩
        · simp [BasicAny.dtor, hd, hi, TypeTraits.Destroy, hcell1]
        · simp [Mem.kill, Mem.emit, Function.update_apply, hba, g2]

/-- C16 amended, at `Any(3.7f).TryConvert<int>()`: the result owns an object of its own. -/
theorem TryConvert_independent_witness :
    ∃ m1 r, floatBuilt.2.TryConvert demoWorld floatBuilt.1 0 = some (m1, r) ∧
      (floatBuilt.2.mCopy = none → 1 = 0 → r.Aliases 0 0) ∧
      ((floatBuilt.2.mCopy ≠ none ∨ 1 ≠ 0) → r.toBool = true →
        ∃ b tr x, r.mInstance = some b ∧ b ≠ 0 ∧ r.mType = some 0 ∧
          r.mCopy = some tr ∧ r.mMove = some tr ∧ r.mDestroy = some tr ∧
          m1.cells b = some x ∧ m1.cells 0 = some (.num 37) ∧
          (∀ y, (m1.store b y).cells 0 = some (.num 37)) ∧
          (∀ y, (m1.store 0 y).cells b = some x) ∧
          (∃ m2, BasicAny.dtor m1 r = some m2 ∧ m2.cells 0 = some (.num 37)) ∧
          (∃ m3, BasicAny.dtor m1 floatBuilt.2 = some m3 ∧ m3.cells b = some x)) :=
  TryConvert_independent demoWorld floatBuilt.1 floatBuilt.2 0 0 1 (.num 37)
    floatBuilt_valid rfl rfl rfl

/-! ## Type identity and the name registry -/

/-- The statics at program start are good. -/
theorem Statics.initial_good : Statics.initial.Good := fun _ => Or.inl rfl

/-- `Details::Resolve<T>()` on good statics: the result is the static of `RawType<T>`, the
pointers stay good, names and registry are as before. -/
theorem Resolve_good (T : CppType) (g : Statics) (h : g.Good) :
    (Details.Resolve T g).2 = some (Details.GetTypeDescriptor (Details.RawType T)) ∧
    (Details.Resolve T g).1.Good ∧
    (Details.Resolve T g).1.typeDescriptorPtr (Details.RawType T) =
      some (Details.GetTypeDescriptor (Details.RawType T)) ∧
    (Details.Resolve T g).1.mName = g.mName ∧
    (Details.Resolve T g).1.typeRegistry = g.typeRegistry := by
  unfold Details.Resolve
  rcases h (Details.RawType T) with h1 | h1
  · rw [h1]
    refine ⟨by simp, ?_, by simp, rfl, rfl⟩
    intro R
    by_cases hR : R = Details.RawType T
    · subst hR; right; simp
    · simp only [Function.update_noteq hR]; exact h R
  · rw [h1]
    exact ⟨rfl, h, h1, rfl, rfl⟩

/-- `ReflectType` on good statics returns; it sets the name of the static of `RawType<T>`
and the entry of the name, and nothing else but the pointer of `RawType<T>`. -/
theorem ReflectType_good (T : CppType) (name : String) (g : Statics) (h : g.Good) :
    ∃ g1, TypeFactory.ReflectType T name g = some g1 ∧ g1.Good ∧
      g1.typeDescriptorPtr (Details.RawType T) =
        some (Details.GetTypeDescriptor (Details.RawType T)) ∧
      g1.mName = Function.update g.mName (Details.GetTypeDescriptor (Details.RawType T)) name ∧
      g1.typeRegistry = Function.update g.typeRegistry name
        (some (Details.GetTypeDescriptor (Details.RawType T))) := by
  obtain ⟨h1, h2, h3, h4, h5⟩ := Resolve_good T g h
  unfold TypeFactory.ReflectType
  generalize Details.Resolve T g = r at h1 h2 h3 h4 h5
  obtain ⟨g1, p⟩ := r
  simp only at h1 h2 h3 h4 h5
  subst h1
  simp only [Option.some.injEq, exists_eq_left']
  exact ⟨h2, h3, by rw [h4], by rw [h5]⟩

/-- Every sequence of operations runs to the end from good statics and ends in good
statics; a name that no operation registers keeps its entry. -/
theorem runAll_good (ops : List RegOp) :
    ∀ g : Statics, g.Good →
      ∃ g1, runAll g ops = some g1 ∧ g1.Good ∧
        ∀ n, (∀ T, RegOp.reflectType T n ∉ ops) → g1.typeRegistry n = g.typeRegistry n := by
  induction ops with
  | nil => exact fun g h => ⟨g, rfl, h, fun _ _ => rfl⟩
  | cons op ops ih =>
    intro g h
    cases op with
    | resolve T =>
      obtain ⟨_, h2, _, _, h5⟩ := Resolve_good T g h
      obtain ⟨g2, hr, hg, hn⟩ := ih _ h2
      refine ⟨g2, by simpa [runAll, RegOp.run] using hr, hg, ?_⟩
      intro n hnot
      rw [hn n (fun U hU => hnot U (List.mem_cons_of_mem _ hU)), h5]
    | reflectType T name =>
      obtain ⟨g1, h1, h2, _, _, h5⟩ := ReflectType_good T name g h
      obtain ⟨g2, hr, hg, hn⟩ := ih _ h2
      refine ⟨g2, by simpa [runAll, RegOp.run, h1] using hr, hg, ?_⟩
      intro n hnot
      rw [hn n (fun U hU => hnot U (List.mem_cons_of_mem _ hU)), h5]
      have hne : n ≠ name := by
        intro e
        subst e
        exact hnot T (List.mem_cons_self _ _)
      rw [Function.update_noteq hne]

/-- `Details::Resolve(T &&object)` on good statics gives the static of `RawType<T>`. -/
theorem ResolveObject_good (T : CppType) (g : Statics) (h : g.Good) :
    (Details.ResolveObject T g).2 = some (Details.GetTypeDescriptor (Details.RawType T)) := by
  unfold Details.ResolveObject
  rcases h (Details.RawType T) with h1 | h1
  · simp only [h1, Option.isNone_none, if_true]
    exact (Resolve_good T g h).2.2.1
  · simp [h1]

/-- C17 (TypeDescriptor.hpp 127-148, 170-209): in the statics `g` reached by any sequence
of resolutions and registrations, `Resolve<T>()` is not null; it is the same pointer when
called again, also after any further resolutions and registrations; `Resolve(object)`
with an object of the same raw type gives that pointer; `Resolve<T>()` and `Resolve<U>()`
are the same pointer exactly when `T` and `U` have the same `RawType`; and `int` and
`int*` have two descriptors. -/
theorem Resolve_identity (ops : List RegOp) :
    ∃ g, runAll Statics.initial ops = some g ∧
      (∀ T, ∃ d, (Details.Resolve T g).2 = some d ∧
        (Details.Resolve T (Details.Resolve T g).1).2 = some d ∧
        (∀ more, ∃ g2, runAll (Details.Resolve T g).1 more = some g2 ∧
          (Details.Resolve T g2).2 = some d) ∧
        (∀ X, Details.RawType X = Details.RawType T → (Details.ResolveObject X g).2 = some d) ∧
        (∀ U, (Details.Resolve U g).2 = some d ↔ Details.RawType U = Details.RawType T)) ∧
      (Details.Resolve intT g).2 ≠ (Details.Resolve intPtrT g).2 := by
  obtain ⟨g, hr, hg, _⟩ := runAll_good ops Statics.initial Statics.initial_good
  refine ⟨g, hr, ?_, ?_⟩
  · intro T
    obtain ⟨h1, h2, _⟩ := Resolve_good T g hg
    refine ⟨_, h1, (Resolve_good T _ h2).1, ?_, ?_, ?_⟩
    · intro more
      obtain ⟨g2, hr2, hg2, _⟩ := runAll_good more _ h2
      exact ⟨g2, hr2, (Resolve_good T g2 hg2).1⟩
    · intro X hX
      rw [ResolveObject_good X g hg, hX]
    · intro U
      rw [(Resolve_good U g hg).1]
      constructor
      · intro h
        simpa [Details.GetTypeDescriptor] using h
      · intro h
        rw [h]
  · rw [(Resolve_good intT g hg).1, (Resolve_good intPtrT g hg).1]
    decide

/-- C17 after the registration `demoOps`: `const int&` and `int` share one descriptor,
`int` and `int*` do not. -/
theorem Resolve_identity_witness :
    ∃ g, runAll Statics.initial demoOps = some g ∧
      (Details.Resolve constIntRefT g).2 = (Details.Resolve intT g).2 ∧
      (Details.Resolve intT g).2 ≠ (Details.Resolve intPtrT g).2 := by
  obtain ⟨g, h1, h2, h3⟩ := Resolve_identity demoOps
  obtain ⟨d, hd, _, _, _, hiff⟩ := h2 intT
  exact ⟨g, h1, by rw [hd, (hiff constIntRefT).2 rfl], h3⟩


/-- C18 (Reflect.hpp 46-52, TypeFactory.hpp 22-30): in the statics `g` reached by any
sequence of resolutions and registrations, `Resolve(n)` is null for a name `n` that no
registration of the sequence used, however many types were resolved; and right after
`ReflectType(n)` for a type `T`, which returns, `Resolve(n)` is the pointer `Resolve<T>()`
returns and the name of that descriptor is `n`. -/
theorem registry_round_trip (ops : List RegOp) (n : String) :
    ∃ g, runAll Statics.initial ops = some g ∧
      ((∀ T, RegOp.reflectType T n ∉ ops) → ResolveName n g = none) ∧
      ∀ T, ∃ g1 d, TypeFactory.ReflectType T n g = some g1 ∧
        ResolveName n g1 = some d ∧ (Details.Resolve T g1).2 = some d ∧ g1.mName d = n := by
  obtain ⟨g, hr, hg, hn⟩ := runAll_good ops Statics.initial Statics.initial_good
  refine ⟨g, hr, ?_, ?_⟩
  · intro hnot
    unfold ResolveName
    rw [hn n hnot]
    rfl
  · intro T
    obtain ⟨g1, h1, h2, _, h4, h5⟩ := ReflectType_good T n g hg
    refine ⟨g1, _, h1, ?_, (Resolve_good T g1 h2).1, ?_⟩
    · unfold ResolveName
      rw [h5, Function.update_same]
    · rw [h4, Function.update_same]

/-- C18 after the registration `demoOps`, for the name "Shape" that it does not use. -/
theorem registry_round_trip_witness :
    ∃ g, runAll Statics.initial demoOps = some g ∧ ResolveName "Shape" g = none ∧
      ∃ g1 d, TypeFactory.ReflectType intT "Shape" g = some g1 ∧
        ResolveName "Shape" g1 = some d ∧ (Details.Resolve intT g1).2 = some d ∧
        g1.mName d = "Shape" := by
  obtain ⟨g, h1, h2, h3⟩ := registry_round_trip demoOps "Shape"
  exact ⟨g, h1, h2 (by intro T h; simp [demoOps] at h), h3 intT⟩

/-! ## The search of a member by name -/

/-- `GetDataMember` is the common search over the data members. -/
theorem GetDataMember_eq_lookup (w : World) (n : String) :
    ∀ fuel T, TypeDescriptor.GetDataMember w fuel T n =
      lookupMember w TypeDescriptor.mDataMembers DataMember.GetName fuel T n := by
  intro fuel
  induction fuel with
  | zero => intro T; rfl
  | succ k ih =>
    intro T
    have hf : (fun B => TypeDescriptor.GetDataMember w k B n) =
        (fun B => lookupMember w TypeDescriptor.mDataMembers DataMember.GetName k B n) :=
      funext ih
    cases h : List.find? (fun dataMember => dataMember.GetName == n) (w.desc T).mDataMembers <;>
      simp [TypeDescriptor.GetDataMember, lookupMember, hf, h]

/-- `GetMemberFunction` is the common search over the member functions. -/
theorem GetMemberFunction_eq_lookup (w : World) (n : String) :
    ∀ fuel T, TypeDescriptor.GetMemberFunction w fuel T n =
      lookupMember w TypeDescriptor.mMemberFunctions Function.GetName fuel T n := by
  intro fuel
  induction fuel with
  | zero => intro T; rfl
  | succ k ih =>
    intro T
    have hf : (fun B => TypeDescriptor.GetMemberFunction w k B n) =
        (fun B => lookupMember w TypeDescriptor.mMemberFunctions Function.GetName k B n) :=
      funext ih
    cases h : List.find? (fun memberFunction => memberFunction.GetName == n)
        (w.desc T).mMemberFunctions <;>
      simp [TypeDescriptor.GetMemberFunction, lookupMember, hf, h]

/-- `findSome?` depends on the function at the elements of the list only. -/
theorem findSome_congr_mem {α β : Type} (f g : α → Option β) (l : List α)
    (h : ∀ b ∈ l, f b = g b) : l.findSome? f = l.findSome? g := by
  induction l with
  | nil => rfl
  | cons c cs ih =>
    simp only [List.findSome?_cons, h c (List.mem_cons_self _ _)]
    rw [ih (fun b hb => h b (List.mem_cons_of_mem _ hb))]

/-- The loop over the bases when every recursive call returns: the first non-null
result. -/
theorem searchBases_total {α : Type} (search : TypeId → Option (Option α)) (bases : List Base)
    (h : ∀ b ∈ bases, ∃ r, search b.GetType = some r) :
    searchBases search bases = some (bases.findSome? (fun b => (search b.GetType).join)) := by
  induction bases with
  | nil => rfl
  | cons b bs ih =>
    obtain ⟨r, hr⟩ := h b (List.mem_cons_self _ _)
    have ih2 := ih (fun c hc => h c (List.mem_cons_of_mem _ hc))
    cases r with
    | none => simp [searchBases, hr, ih2, List.findSome?_cons]
    | some x => simp [searchBases, hr, List.findSome?_cons]

/-- A loop over the bases that returned null got null from every base. -/
theorem searchBases_none {α : Type} (search : TypeId → Option (Option α)) (bases : List Base)
    (h : searchBases search bases = some none) :
    ∀ b ∈ bases, search b.GetType = some none := by
  induction bases with
  | nil => intro b hb; cases hb
  | cons c cs ih =>
    intro b hb
    simp only [searchBases] at h
    cases hc : search c.GetType with
    | none => simp [hc] at h
    | some r =>
      cases r with
      | some x => simp [hc] at h
      | none =>
        simp only [hc] at h
        rcases List.mem_cons.1 hb with e | hmem
        · subst e; exact hc
        · exact ih h b hmem

/-- A loop over the bases that returned a member got it from one of the bases. -/
theorem searchBases_some {α : Type} (search : TypeId → Option (Option α)) (bases : List Base)
    (x : α) (h : searchBases search bases = some (some x)) :
    ∃ b ∈ bases, search b.GetType = some (some x) := by
  induction bases with
  | nil => simp [searchBases] at h
  | cons c cs ih =>
    simp only [searchBases] at h
    cases hc : search c.GetType with
    | none => simp [hc] at h
    | some r =>
      cases r with
      | some y =>
        simp only [hc, Option.some.injEq] at h
        subst h
        exact ⟨c, List.mem_cons_self _ _, hc⟩
      | none =>
        simp only [hc] at h
        obtain ⟨b, hb, hbx⟩ := ih h
        exact ⟨b, List.mem_cons_of_mem _ hb, hbx⟩

/-- On an acyclic graph the search returns as soon as the fuel exceeds the rank. -/
theorem lookupMember_returns {α : Type} (w : World) (own : TypeDescriptor → List α)
    (nameOf : α → String) (rank : TypeId → Nat) (hrank : w.Ranked rank) (n : String) :
    ∀ fuel T, rank T < fuel → ∃ r, lookupMember w own nameOf fuel T n = some r := by
  intro fuel
  induction fuel with
  | zero => intro T h; omega
  | succ k ih =>
    intro T h
    simp only [lookupMember]
    cases (own (w.desc T)).find? (fun x => nameOf x == n) with
    | some x => exact ⟨_, rfl⟩
    | none =>
      simp only
      rw [searchBases_total]
      · exact ⟨_, rfl⟩
      · intro b hb
        exact ih b.GetType (by have := hrank T b hb; omega)

/-- A returned result does not depend on the fuel. -/
theorem lookupMember_mono {α : Type} (w : World) (own : TypeDescriptor → List α)
    (nameOf : α → String) (n : String) :
    ∀ fuel T r, lookupMember w own nameOf fuel T n = some r →
      lookupMember w own nameOf (fuel + 1) T n = some r := by
  intro fuel
  induction fuel with
  | zero => intro T r h; simp [lookupMember] at h
  | succ k ih =>
    intro T r h
    rw [lookupMember] at h ⊢
    cases hown : (own (w.desc T)).find? (fun x => nameOf x == n) with
    | some x => simpa [hown] using h
    | none =>
      simp only [hown] at h ⊢
      generalize (w.desc T).mBases = bases at h ⊢
      induction bases with
      | nil => exact h
      | cons c cs ihb =>
        simp only [searchBases] at h ⊢
        cases hc : lookupMember w own nameOf k c.GetType n with
        | none => simp [hc] at h
        | some rc =>
          rw [ih c.GetType rc hc]
          cases rc with
          | some y => simpa [hc] using h
          | none =>
            simp only [hc] at h
            exact ihb h

/-- A search that returned null: no type reached through Base edges has a member of that
name. -/
theorem lookupMember_none {α : Type} (w : World) (own : TypeDescriptor → List α)
    (nameOf : α → String) (n : String) :
    ∀ fuel T, lookupMember w own nameOf fuel T n = some none →
      ∀ A, Ancestor w T A → ∀ x ∈ own (w.desc A), nameOf x ≠ n := by
  intro fuel
  induction fuel with
  | zero => intro T h; simp [lookupMember] at h
  | succ k ih =>
    intro T h A hA
    rw [lookupMember] at h
    cases hown : (own (w.desc T)).find? (fun x => nameOf x == n) with
    | some x => simp [hown] at h
    | none =>
      simp only [hown] at h
      have hb := searchBases_none _ _ h
      cases hA with
      | self =>
        intro x hx hname
        have := List.find?_eq_none.1 hown x hx
        simp [hname] at this
      | step _ _ base hmem hrest =>
        exact ih base.GetType (hb base hmem) A hrest

/-- A search that returned a member: it is a member of that name of a type reached through
Base edges. -/
theorem lookupMember_some {α : Type} (w : World) (own : TypeDescriptor → List α)
    (nameOf : α → String) (n : String) :
    ∀ fuel T x, lookupMember w own nameOf fuel T n = some (some x) →
      ∃ A, Ancestor w T A ∧ x ∈ own (w.desc A) ∧ nameOf x = n := by
  intro fuel
  induction fuel with
  | zero => intro T x h; simp [lookupMember] at h
  | succ k ih =>
    intro T x h
    rw [lookupMember] at h
    cases hown : (own (w.desc T)).find? (fun x => nameOf x == n) with
    | some y =>
      simp only [hown, Option.some.injEq] at h
      subst h
      refine ⟨T, Ancestor.self T, List.mem_of_find?_eq_some hown, ?_⟩
      simpa using List.find?_some hown
    | none =>
      simp only [hown] at h
      obtain ⟨b, hb, hbx⟩ := searchBases_some _ _ x h
      obtain ⟨A, hA, hx, hn⟩ := ih b.GetType x hbx
      exact ⟨A, Ancestor.step T A b hb hA, hx, hn⟩

/-- The search on an acyclic graph, with fuel above the rank of the type: it returns; an
own member of that name, the first one, is the result; without one the result is the first
non-null result of the search on the bases in order; and the result is null exactly when
no type reached through Base edges has a member of that name. -/
theorem lookupMember_spec {α : Type} (w : World) (own : TypeDescriptor → List α)
    (nameOf : α → String) (rank : TypeId → Nat) (hrank : w.Ranked rank) (n : String)
    (fuel : Nat) (T : TypeId) (hfuel : rank T < fuel) :
    ∃ r, lookupMember w own nameOf fuel T n = some r ∧
      (∀ x, (own (w.desc T)).find? (fun y => nameOf y == n) = some x → r = some x) ∧
      ((own (w.desc T)).find? (fun y => nameOf y == n) = none →
        (∀ b ∈ (w.desc T).mBases, ∃ rb, lookupMember w own nameOf fuel b.GetType n = some rb) ∧
        r = (w.desc T).mBases.findSome?
          (fun b => (lookupMember w own nameOf fuel b.GetType n).join)) ∧
      (r = none ↔ ∀ A, Ancestor w T A → ∀ x ∈ own (w.desc A), nameOf x ≠ n) := by
  obtain ⟨r, hr⟩ := lookupMember_returns w own nameOf rank hrank n fuel T hfuel
  refine ⟨r, hr, ?_, ?_, ?_⟩
  · intro x hx
    cases fuel with
    | zero => omega
    | succ k =>
      rw [lookupMember, hx] at hr
      simpa using hr.symm
  · intro hnone
    cases fuel with
    | zero => omega
    | succ k =>
      have hret : ∀ b ∈ (w.desc T).mBases,
          ∃ rb, lookupMember w own nameOf k b.GetType n = some rb := fun b hb =>
        lookupMember_returns w own nameOf rank hrank n k b.GetType
          (by have := hrank T b hb; omega)
      rw [lookupMember, hnone] at hr
      simp only at hr
      rw [searchBases_total _ _ hret] at hr
      refine ⟨fun b hb => ?_, ?_⟩
      · obtain ⟨rb, hrb⟩ := hret b hb
        exact ⟨rb, lookupMember_mono w own nameOf n k _ rb hrb⟩
      · simp only [Option.some.injEq] at hr
        rw [← hr]
        apply findSome_congr_mem
        intro b hb
        obtain ⟨rb, hrb⟩ := hret b hb
        rw [hrb, lookupMember_mono w own nameOf n k _ rb hrb]
  · constructor
    · intro hnull
      subst hnull
      exact lookupMember_none w own nameOf n fuel T hr
    · intro hno
      cases r with
      | none => rfl
      | some x =>
        obtain ⟨A, hA, hx, hn⟩ := lookupMember_some w own nameOf n fuel T x hr
        exact absurd hn (hno A hA x hx)

/-- The Base edges of the registered program lead to types of smaller rank. -/
theorem demoWorld_ranked : demoWorld.Ranked demoRank := by
  intro T base hb
  simp only [demoWorld] at hb
  unfold demoDesc at hb
  split at hb <;> simp [blankDescriptor] at hb <;> subst hb <;> decide

/-- A loop over the bases that returned: every base returned null, or the bases before
some base returned null and that base returned the result. -/
theorem searchBases_first {α : Type} (search : TypeId → Option (Option α)) (bases : List Base)
    (r : Option α) (h : searchBases search bases = some r) :
    (r = none ∧ ∀ c ∈ bases, search c.GetType = some none) ∨
    ∃ pre b post x, bases = pre ++ b :: post ∧ (∀ c ∈ pre, search c.GetType = some none) ∧
      search b.GetType = some (some x) ∧ r = some x := by
  induction bases with
  | nil =>
    simp only [searchBases, Option.some.injEq] at h
    exact Or.inl ⟨h.symm, fun c hc => (by cases hc)⟩
  | cons c cs ih =>
    simp only [searchBases] at h
    cases hc : search c.GetType with
    | none => simp [hc] at h
    | some rc =>
      cases rc with
      | some y =>
        simp only [hc, Option.some.injEq] at h
        exact Or.inr ⟨[], c, cs, y, rfl, fun _ hd => (by cases hd), hc, h.symm⟩
      | none =>
        simp only [hc] at h
        rcases ih h with ⟨h1, h2⟩ | ⟨pre, b, post, x, h1, h2, h3, h4⟩
        · refine Or.inl ⟨h1, ?_⟩
          intro d hd
          rcases List.mem_cons.1 hd with e | hmem
          · subst e; exact hc
          · exact h2 d hmem
        · refine Or.inr ⟨c :: pre, b, post, x, by simp [h1], ?_, h3, h4⟩
          intro d hd
          rcases List.mem_cons.1 hd with e | hmem
          · subst e; exact hc
          · exact h2 d hmem

/-- The search on any graph, when it returns: an own member of that name, the first one, is
the result; without one, every base returned null and so did the search, or the bases
before some base returned null and that base returned the result; and the result is null
exactly when no type reached through Base edges has a member of that name. -/
theorem lookupMember_partial {α : Type} (w : World) (own : TypeDescriptor → List α)
    (nameOf : α → String) (n : String) (fuel : Nat) (T : TypeId) (r : Option α)
    (hr : lookupMember w own nameOf fuel T n = some r) :
    (∀ x, (own (w.desc T)).find? (fun y => nameOf y == n) = some x → r = some x) ∧
    ((own (w.desc T)).find? (fun y => nameOf y == n) = none →
      (r = none ∧
        ∀ c ∈ (w.desc T).mBases, lookupMember w own nameOf fuel c.GetType n = some none) ∨
      ∃ pre b post x, (w.desc T).mBases = pre ++ b :: post ∧
        (∀ c ∈ pre, lookupMember w own nameOf fuel c.GetType n = some none) ∧
        lookupMember w own nameOf fuel b.GetType n = some (some x) ∧ r = some x) ∧
    (r = none ↔ ∀ A, Ancestor w T A → ∀ x ∈ own (w.desc A), nameOf x ≠ n) := by
  refine ⟨?_, ?_, ?_⟩
  · intro x hx
    cases fuel with
    | zero => simp [lookupMember] at hr
    | succ k =>
      rw [lookupMember, hx] at hr
      simpa using hr.symm
  · intro hnone
    cases fuel with
    | zero => simp [lookupMember] at hr
    | succ k =>
      rw [lookupMember, hnone] at hr
      simp only at hr
      rcases searchBases_first _ _ r hr with ⟨h1, h2⟩ | ⟨pre, b, post, x, h1, h2, h3, h4⟩
      · exact Or.inl ⟨h1, fun c hc => lookupMember_mono w own nameOf n k _ _ (h2 c hc)⟩
      · exact Or.inr ⟨pre, b, post, x, h1,
          fun c hc => lookupMember_mono w own nameOf n k _ _ (h2 c hc),
          lookupMember_mono w own nameOf n k _ _ h3, h4⟩
  · constructor
    · intro hnull
      subst hnull
      exact lookupMember_none w own nameOf n fuel T hr
    · intro hno
      cases r with
      | none => rfl
      | some x =>
        obtain ⟨A, hA, hx, hn⟩ := lookupMember_some w own nameOf n fuel T x hr
        exact absurd hn (hno A hA x hx)

/-- C19 (TypeDescriptor.inl 138-149, 162-173), for `GetDataMember(name)` and for
`GetMemberFunction(name)`.  Whenever the search returns: the result is the first own
member of that name when there is one; otherwise the searches on the direct bases, in the
order of the Base edges, returned null up to the first one that returned a member, which
is the result, or all returned null and so does the search; and the result is null exactly
when neither the type nor any type reached through a chain of Base edges has a member of
that name.  On an acyclic graph of Base edges, with fuel above the rank of the type, the
search returns, and so does the search on every direct base. -/
theorem member_lookup_spec (w : World) (n : String) :
    (∀ fuel T r, TypeDescriptor.GetDataMember w fuel T n = some r →
      (∀ x, (w.desc T).mDataMembers.find? (fun y => y.GetName == n) = some x → r = some x) ∧
      ((w.desc T).mDataMembers.find? (fun y => y.GetName == n) = none →
        (r = none ∧ ∀ c ∈ (w.desc T).mBases,
          TypeDescriptor.GetDataMember w fuel c.GetType n = some none) ∨
        ∃ pre b post x, (w.desc T).mBases = pre ++ b :: post ∧
          (∀ c ∈ pre, TypeDescriptor.GetDataMember w fuel c.GetType n = some none) ∧
          TypeDescriptor.GetDataMember w fuel b.GetType n = some (some x) ∧ r = some x) ∧
      (r = none ↔ ∀ A, Ancestor w T A → ∀ x ∈ (w.desc A).mDataMembers, x.GetName ≠ n)) ∧
    (∀ fuel T r, TypeDescriptor.GetMemberFunction w fuel T n = some r →
      (∀ x, (w.desc T).mMemberFunctions.find? (fun y => y.GetName == n) = some x →
        r = some x) ∧
      ((w.desc T).mMemberFunctions.find? (fun y => y.GetName == n) = none →
        (r = none ∧ ∀ c ∈ (w.desc T).mBases,
          TypeDescriptor.GetMemberFunction w fuel c.GetType n = some none) ∨
        ∃ pre b post x, (w.desc T).mBases = pre ++ b :: post ∧
          (∀ c ∈ pre, TypeDescriptor.GetMemberFunction w fuel c.GetType n = some none) ∧
          TypeDescriptor.GetMemberFunction w fuel b.GetType n = some (some x) ∧ r = some x) ∧
      (r = none ↔ ∀ A, Ancestor w T A → ∀ x ∈ (w.desc A).mMemberFunctions, x.GetName ≠ n)) ∧
    (∀ rank, w.Ranked rank → ∀ fuel T, rank T < fuel →
      (∃ r, TypeDescriptor.GetDataMember w fuel T n = some r) ∧
      (∃ r, TypeDescriptor.GetMemberFunction w fuel T n = some r) ∧
      ∀ b ∈ (w.desc T).mBases,
        (∃ r, TypeDescriptor.GetDataMember w fuel b.GetType n = some r) ∧
        (∃ r, TypeDescriptor.GetMemberFunction w fuel b.GetType n = some r)) := by
  refine ⟨?_, ?_, ?_⟩
  · intro fuel T r hr
    rw [GetDataMember_eq_lookup] at hr
    have h := lookupMember_partial w TypeDescriptor.mDataMembers DataMember.GetName n fuel T r hr
    simp only [← GetDataMember_eq_lookup] at h
    exact h
  · intro fuel T r hr
    rw [GetMemberFunction_eq_lookup] at hr
    have h := lookupMember_partial w TypeDescriptor.mMemberFunctions Function.GetName n fuel T
      r hr
    simp only [← GetMemberFunction_eq_lookup] at h
    exact h
  · intro rank hrank fuel T hfuel
    have hd := fun U (hU : rank U < fuel) =>
      lookupMember_returns w TypeDescriptor.mDataMembers DataMember.GetName rank hrank n fuel U hU
    have hf := fun U (hU : rank U < fuel) =>
      lookupMember_returns w TypeDescriptor.mMemberFunctions Function.GetName rank hrank n fuel
        U hU
    simp only [← GetDataMember_eq_lookup] at hd
    simp only [← GetMemberFunction_eq_lookup] at hf
    refine ⟨hd T hfuel, hf T hfuel, ?_⟩
    intro b hb
    have hlt : rank b.GetType < fuel := lt_trans (hrank T b hb) hfuel
    exact ⟨hd _ hlt, hf _ hlt⟩

/-- C19 on the registered program: from Most, the search of the member "b" returns, and
it returns the member of Base found through the edges Most to Derived and Derived to
Base. -/
theorem member_lookup_spec_witness :
    demoRank 5 < 3 ∧ (∃ r, TypeDescriptor.GetDataMember demoWorld 3 5 "b" = some r) ∧
    ((demoWorld.desc 5).mDataMembers.find? (fun y => y.GetName == "b") = none →
      ((some baseB : Option DataMember) = none ∧ ∀ c ∈ (demoWorld.desc 5).mBases,
        TypeDescriptor.GetDataMember demoWorld 3 c.GetType "b" = some none) ∨
      ∃ pre b post x, (demoWorld.desc 5).mBases = pre ++ b :: post ∧
        (∀ c ∈ pre, TypeDescriptor.GetDataMember demoWorld 3 c.GetType "b" = some none) ∧
        TypeDescriptor.GetDataMember demoWorld 3 b.GetType "b" = some (some x) ∧
        some baseB = some x) :=
  ⟨by decide,
    ((member_lookup_spec demoWorld "b").2.2 demoRank demoWorld_ranked 3 5 (by decide)).1,
    ((member_lookup_spec demoWorld "b").1 3 5 (some baseB) rfl).2.1⟩

/-! ## Access to a member found by name -/

/-- `TryCast<T>` gives the held pointer when the held type is `T` or has a direct Base
edge to `T`. -/
theorem TryCast_direct (w : World) (c : BasicAny) (T S : TypeId) (a : Nat)
    (hi : c.mInstance = some a) (hS : c.mType = some S)
    (h : T = S ∨ ∃ b ∈ (w.desc S).mBases, b.GetType = T) :
    c.TryCast w T = some (some a) := by
  by_cases hTS : T = S
  · simp [BasicAny.TryCast, BasicAny.toBool, BasicAny.Get, hi, hS, hTS]
  · rcases h with h | ⟨b, hb, hbT⟩
    · exact absurd h hTS
    · have := castLoop_hit T (some a) (w.desc S).mBases none ⟨b, hb, hbT⟩
      simp [BasicAny.TryCast, BasicAny.toBool, BasicAny.Get, hi, hS, hTS,
        TypeDescriptor.GetBases, this]

/-- `TryCast<T>` gives null when the held type is not `T` and has no direct Base edge to
`T`. -/
theorem TryCast_indirect (w : World) (c : BasicAny) (T S : TypeId) (a : Nat)
    (hi : c.mInstance = some a) (hS : c.mType = some S) (hTS : T ≠ S)
    (h : ∀ b ∈ (w.desc S).mBases, b.GetType ≠ T) :
    c.TryCast w T = some none := by
  have := castLoop_miss T (some a) (w.desc S).mBases none h
  simp [BasicAny.TryCast, BasicAny.toBool, BasicAny.Get, hi, hS, hTS,
    TypeDescriptor.GetBases, this]

/-- A vector stays disposable in a memory that keeps alive what was alive. -/
theorem Disposable.live {m m2 : Mem} :
    ∀ {cs : List BasicAny} {lo hi : Nat}, Disposable m lo hi cs →
      (∀ x, (m.cells x).isSome = true → (m2.cells x).isSome = true) →
      Disposable m2 lo hi cs := by
  intro cs
  induction cs with
  | nil =>
    intro lo hi h _
    exact h
  | cons c cs ih =>
    intro lo hi h hm
    obtain ⟨k, hk, hc, hrest⟩ := h
    refine ⟨k, hk, ?_, ih hrest hm⟩
    rcases hc with hc | ⟨a, tr, h1, h2, h3, h4, h5⟩
    · exact Or.inl hc
    · exact Or.inr ⟨a, tr, h1, h2, h3, h4, hm a h5⟩

/-- The guarded tail of `InvokeImpl` with a tame native function: one native execution,
and what was alive stays alive. -/
theorem call_keeps (w : World) (f : Function) (m : Mem) (obj : Option Nat) (ptrs : List Nat)
    (ht : f.native.Tame) :
    m.next ≤ (f.call w m obj ptrs).1.next ∧ (f.call w m obj ptrs).1.calls = m.calls + 1 ∧
    ∀ x, (m.cells x).isSome = true → ((f.call w m obj ptrs).1.cells x).isSome = true := by
  have hemit : (m.emit .native).calls = m.calls + 1 := by
    simp [Mem.calls, Mem.emit, List.count_append]
  unfold Function.call
  cases hn : f.native with
  | retVoid g =>
    rw [hn] at ht
    obtain ⟨h1, h2, h3⟩ := ht (m.emit .native) obj ptrs
    simp only [BasicAny.ctorDefault, Mem.fresh]
    refine ⟨?_, ?_, ?_⟩
    · have : m.next ≤ (g (m.emit .native) obj ptrs).next := h1
      show m.next ≤ (g (m.emit .native) obj ptrs).next + 1
      omega
    · have := h2.trans hemit
      simpa [Mem.calls] using this
    · intro x hx
      exact h3 x hx
  | retValue g =>
    rw [hn] at ht
    obtain ⟨h1, h2, h3⟩ := ht (m.emit .native) obj ptrs
    obtain ⟨_, hab, _⟩ := ctorValue_temp w (g (m.emit .native) obj ptrs).1 f.mReturnType
      (g (m.emit .native) obj ptrs).2
    refine ⟨?_, ?_, ?_⟩
    · have : m.next ≤ (g (m.emit .native) obj ptrs).1.next := h1
      exact le_trans this hab.1
    · exact hab.2.1.trans (h2.trans hemit)
    · intro x hx
      have hx2 := h3 x hx
      cases htr : w.traits f.mReturnType <;>
        simp only [BasicAny.ctorValue, Mem.fresh, TypeTraits.New, Mem.store, Mem.emit, htr,
          Function.update_apply, Mem.bind_cells] <;>
        split <;> first | rfl | exact hx2
  | retRef g =>
    rw [hn] at ht
    obtain ⟨h1, h2, h3⟩ := ht (m.emit .native) obj ptrs
    simp only [BasicAny.ctorRef, BasicAny.ctorDefault, Mem.fresh]
    refine ⟨?_, ?_, ?_⟩
    · have : m.next ≤ (g (m.emit .native) obj ptrs).1.next := h1
      show m.next ≤ (g (m.emit .native) obj ptrs).1.next + 1
      omega
    · have := h2.trans hemit
      simpa [Mem.calls] using this
    · intro x hx
      exact h3 x hx
  | retAny g =>
    rw [hn] at ht
    obtain ⟨h1, h2, h3⟩ := ht (m.emit .native) obj ptrs
    exact ⟨h1, h2.trans hemit, fun x hx => h3 x hx⟩
  | retHandle g =>
    rw [hn] at ht
    obtain ⟨h1, h2, h3⟩ := ht (m.emit .native) obj ptrs
    simp only [BasicAny.ctorRef, BasicAny.ctorDefault, Mem.fresh]
    refine ⟨?_, ?_, ?_⟩
    · have : m.next ≤ (g (m.emit .native) obj ptrs).1.next := h1
      show m.next ≤ (g (m.emit .native) obj ptrs).1.next + 1
      omega
    · have := h2.trans hemit
      simpa [Mem.calls] using this
    · intro x hx
      exact h3 x hx
  | retRefToAny g =>
    rw [hn] at ht
    obtain ⟨h1, h2, h3⟩ := ht (m.emit .native) obj ptrs
    simp only [BasicAny.ctorRef, BasicAny.ctorDefault, Mem.fresh]
    refine ⟨?_, ?_, ?_⟩
    · have : m.next ≤ (g (m.emit .native) obj ptrs).1.next := h1
      show m.next ≤ (g (m.emit .native) obj ptrs).1.next + 1
      omega
    · have := h2.trans hemit
      simpa [Mem.calls] using this
    · intro x hx
      exact h3 x hx

/-- `InvokeImpl` on valid arguments of the right number that all resolve, with a receiver
that casts to the class (or a free function) and a tame native function: it returns after
one native execution, and what was alive below the call stays alive. -/
theorem InvokeImpl_match (w : World) (f : Function) (m : Mem) (object : BasicAny)
    (args : List BasicAny) (hlen : args.length = f.mParamTypes.length)
    (hv : ∀ a ∈ args, a.Valid m) (ht : f.native.Tame) (vs : List Val)
    (hvs : specResolveAll w m args f.mParamTypes = vs.map some)
    (hrecv : f.mParent = none ∨ ∃ C p, f.mParent = some C ∧
      object.TryCast w C = some (some p)) :
    ∃ m1 r, f.InvokeImpl w m object args = some (m1, r) ∧ m1.calls = m.calls + 1 ∧
      m.next ≤ m1.next ∧
      ∀ x, x < m.next → (m.cells x).isSome = true → (m1.cells x).isSome = true := by
  obtain ⟨mf, cs, hres, hab, hall⟩ := resolveArguments_spec w m args f.mParamTypes hlen hv
  obtain ⟨hvals, _⟩ := hall.values hv hab.2.2
  have hdisp := hall.disposable
  have hmap : (cs.map (fun c => c.mInstance)).map mf.deref
      = specResolveAll w m args f.mParamTypes := by
    rw [← hvals, List.map_map]
    rfl
  obtain ⟨_, hvalid⟩ := derefAll_of_map mf _ vs (hmap.trans hvs)
  have hobj : ∃ obj, (match f.mParent with
      | none => some none
      | some C => object.TryCast w C) = some obj ∧
      (f.mParent.isNone || obj.isSome) = true := by
    rcases hrecv with h | ⟨C, p, hC, hp⟩
    · exact ⟨none, by simp [h], by simp [h]⟩
    · exact ⟨some p, by simp [hC, hp], by simp⟩
  obtain ⟨obj, hobjeq, hguard⟩ := hobj
  obtain ⟨hk1, hk2, hk3⟩ :=
    call_keeps w f mf obj ((cs.map (fun c => c.mInstance)).filterMap id) ht
  generalize hcall : f.call w mf obj ((cs.map (fun c => c.mInstance)).filterMap id) = cr
    at hk1 hk2 hk3
  obtain ⟨m2, r⟩ := cr
  simp only at hk1 hk2 hk3
  have hdisp2 : Disposable m2 m.next mf.next cs := hdisp.live hk3
  obtain ⟨m3, hdt, hn3, hc3, hfr3⟩ := dtorAll_spec cs m2 m.next mf.next hdisp2
  refine ⟨m3, r, ?_, ?_, ?_, ?_⟩
  · simp only [Function.InvokeImpl, hres, hobjeq, hvalid, hguard, Bool.and_self, if_true, hcall,
      hdt]
  · rw [hc3, hk2, hab.2.1]
  · rw [hn3]
    exact le_trans hab.1 hk1
  · intro x hx hlive
    rw [hfr3 x (Or.inl hx)]
    apply hk3
    rw [hab.2.2 x hx]
    exact hlive

/-- The variadic `Invoke` on usable arguments of the right number that all resolve, with a
receiver that casts to the class (or a free function) and a tame native function: it
returns and the native function ran once. -/
theorem Invoke_match (w : World) (f : Function) (m : Mem) (object : AnyRef)
    (args : List Arg) (hlen : args.length = f.mParamTypes.length)
    (hv : ∀ x ∈ args, x.Valid m) (ht : f.native.Tame)
    (m0 : Mem) (anyArgs : List BasicAny) (hbuild : buildArgs w m args = some (m0, anyArgs))
    (vs : List Val) (hvs : specResolveAll w m0 anyArgs f.mParamTypes = vs.map some)
    (hrecv : f.mParent = none ∨ ∃ C p, f.mParent = some C ∧
      (BasicAny.ctorRef m object).2.TryCast w C = some (some p)) :
    ∃ m1 r, f.Invoke w m object args = some (m1, r) ∧ m1.calls = m.calls + 1 := by
  obtain ⟨m0b, cs, hbuild2, hab, hvals, hdisp, hlen2⟩ :=
    buildArgs_spec w m args m hv (Mem.Above.refl _ _)
  rw [hbuild] at hbuild2
  simp only [Option.some.injEq, Prod.mk.injEq] at hbuild2
  obtain ⟨e1, e2⟩ := hbuild2
  subst e1 e2
  generalize hcr : BasicAny.ctorRef m0 object = cr
  obtain ⟨m1, objectAny⟩ := cr
  have hm1 : m1.next = m0.next + 1 ∧ m1.cells = m0.cells ∧ m1.calls = m0.calls ∧
      objectAny.mInstance = object.mInstance ∧ objectAny.mType = object.mType ∧
      objectAny.mDestroy = none := by
    have h1 := congrArg Prod.fst hcr
    have h2 := congrArg Prod.snd hcr
    simp only [BasicAny.ctorRef, BasicAny.ctorDefault, Mem.fresh] at h1 h2
    subst h1 h2
    simp [Mem.calls]
  obtain ⟨hn1, hcells1, hcalls1, hoi, hot, hod⟩ := hm1
  have hab1 : Mem.Above m0.next m0 m1 :=
    ⟨by omega, hcalls1, fun x _ => by rw [hcells1]⟩
  have hvals1 : ∀ a ∈ anyArgs, a.Valid m1 := fun a ha => (hvals a ha).carry hab1
  have hspec : specResolveAll w m1 anyArgs f.mParamTypes
      = specResolveAll w m0 anyArgs f.mParamTypes := by
    have : m1.cells = m0.cells := hcells1
    clear hvals1 hvals hdisp hlen2 hvs hbuild
    generalize f.mParamTypes = ps
    induction anyArgs generalizing ps with
    | nil => cases ps <;> rfl
    | cons a as ih =>
      cases ps with
      | nil => rfl
      | cons P Ps =>
        simp only [specResolveAll, ih Ps, specResolve, convertedValue, this]
  have hrecv1 : f.mParent = none ∨ ∃ C p, f.mParent = some C ∧
      objectAny.TryCast w C = some (some p) := by
    rcases hrecv with h | ⟨C, p, hC, hcast⟩
    · exact Or.inl h
    · refine Or.inr ⟨C, p, hC, ?_⟩
      rw [← hcast]
      apply TryCast_congr
      · rw [hoi]
        simp [BasicAny.ctorRef, BasicAny.ctorDefault, Mem.fresh]
      · rw [hot]
        simp [BasicAny.ctorRef, BasicAny.ctorDefault, Mem.fresh]
  obtain ⟨m2, r, himpl, hcalls2, hle2, hlive2⟩ :=
    InvokeImpl_match w f m1 objectAny anyArgs (hlen2.trans hlen) hvals1 ht vs
      (hspec.trans hvs) hrecv1
  have hkeep : ∀ {ds : List BasicAny} {lo hi : Nat}, hi ≤ m0.next →
      Disposable m0 lo hi ds → Disposable m2 lo hi ds := by
    intro ds
    induction ds with
    | nil =>
      intro lo hi _ h
      exact h
    | cons d ds ihd =>
      intro lo hi hhi h
      obtain ⟨k, hk, hd, hrest⟩ := h
      have hkhi := hrest.le
      refine ⟨k, hk, ?_, ihd hhi hrest⟩
      rcases hd with hd | ⟨a, tr, h1, h2, h3, h4, h5⟩
      · exact Or.inl hd
      · refine Or.inr ⟨a, tr, h1, h2, h3, h4, ?_⟩
        apply hlive2 a (by omega)
        rw [hcells1]
        exact h5
  have hdisp2 : Disposable m2 m.next m0.next anyArgs := hkeep (le_refl _) hdisp
  obtain ⟨m3, hdt, hn3, hc3, hfr3⟩ := dtorAll_spec anyArgs m2 m.next m0.next hdisp2
  refine ⟨m3, r, ?_, ?_⟩
  · simp [Function.Invoke, hlen, hbuild, hcr, himpl, dtor_inert m2 objectAny hod, hdt]
  · rw [hc3, hcalls2, hcalls1, hab.2.1]

/-- C20, counterexample: Most registers its Base edge to Derived and Derived its Base edge
to Base; `GetDataMember("b")` on the descriptor of Most returns the member `b` of Base,
and `Get` of that member on a non-empty container holding a Most raises the bad-access
error. -/
theorem inherited_member_access_counterexample :
    (demoWorld.desc 5).mBases = [⟨5, 4⟩] ∧ (demoWorld.desc 4).mBases = [⟨4, 3⟩] ∧
    TypeDescriptor.GetDataMember demoWorld 3 5 "b" = some (some baseB) ∧
    mostBuilt.2.toBool = true ∧ mostBuilt.2.GetType = some 5 ∧
    baseB.Get demoWorld mostBuilt.1 mostBuilt.2 = some (mostBuilt.1, .error
      ⟨" wrong type from Get: tried to get Base, contained Most"⟩) :=
  ⟨rfl, rfl, rfl, rfl, rfl, rfl⟩

/-! ## Small-value optimisation -/

/-- C22 (Any.hpp 144-209, 218-223).  For a type that fits the inline capacity, the
container built from a value holds it in its own buffer (the held pointer is the address
of the buffer), without any allocation, and so do the containers copy- and
move-constructed from it, the run of the destructor of the moved-from object being the
only event of the move.  For a larger type the value lives in one heap block, whose
allocation is the only event of the construction, and the pointer to it is constructed in
the buffer. -/
theorem small_value_inline (w : World) (m : Mem) (U : TypeId) (v : Val) :
    (w.sizeOf U ≤ w.SIZE →
      (BasicAny.ctorValue w m U v).2.mInstance = some (BasicAny.ctorValue w m U v).2.mStorage ∧
      (BasicAny.ctorValue w m U v).1.cells (BasicAny.ctorValue w m U v).2.mStorage = some v ∧
      (BasicAny.ctorValue w m U v).1.log = m.log ∧
      (∃ m2 d, BasicAny.ctorCopy (BasicAny.ctorValue w m U v).1 (BasicAny.ctorValue w m U v).2
          = some (m2, d) ∧
        d.mInstance = some d.mStorage ∧ m2.cells d.mStorage = some v ∧ m2.log = m.log) ∧
      (∃ m2 d s1, BasicAny.ctorMove (BasicAny.ctorValue w m U v).1 (BasicAny.ctorValue w m U v).2
          = some (m2, d, s1) ∧
        d.mInstance = some d.mStorage ∧ m2.cells d.mStorage = some v ∧
        m2.log = m.log ++ [Event.destroy (BasicAny.ctorValue w m U v).2.mStorage])) ∧
    (w.SIZE < w.sizeOf U →
      ∃ a, (BasicAny.ctorValue w m U v).2.mInstance = some a ∧
        a ≠ (BasicAny.ctorValue w m U v).2.mStorage ∧
        (BasicAny.ctorValue w m U v).1.cells a = some v ∧
        (BasicAny.ctorValue w m U v).1.log = m.log ++ [Event.alloc a] ∧
        (BasicAny.ctorValue w m U v).1.slots (BasicAny.ctorValue w m U v).2.mStorage
          = some (some a) ∧
        (BasicAny.ctorValue w m U v).1.cells (BasicAny.ctorValue w m U v).2.mStorage
          = m.cells (BasicAny.ctorValue w m U v).2.mStorage) := by
  constructor
  · intro h
    have htr : w.traits U = .inl := by simp [World.traits, h]
    simp [BasicAny.ctorValue, htr, TypeTraits.New, Mem.fresh, Mem.store, BasicAny.ctorCopy,
      TypeTraits.Copy, Mem.deref, BasicAny.ctorMove, TypeTraits.Move, Mem.kill,
      Function.update_apply]
    exact ⟨⟨_, _, ⟨rfl, rfl⟩, rfl, by simp, rfl⟩,
      ⟨_, _, ⟨rfl, rfl⟩, rfl, by simp [Mem.emit], by simp [Mem.emit]⟩⟩
  · intro h
    have htr : w.traits U = .heap := by
      simp only [World.traits]
      rw [if_neg (by omega)]
    refine ⟨m.next + 1, ?_⟩
    simp [BasicAny.ctorValue, htr, TypeTraits.New, Mem.fresh, Mem.store, Mem.emit, Mem.bind,
      Function.update_apply]

/-- C22 on the registered program: `Any(3)` is stored inline, `Any(Big{})` in one heap
block. -/
theorem small_value_inline_witness :
    ((BasicAny.ctorValue demoWorld emptyMem 0 (.num 3)).2.mInstance
        = some (BasicAny.ctorValue demoWorld emptyMem 0 (.num 3)).2.mStorage ∧
      (BasicAny.ctorValue demoWorld emptyMem 0 (.num 3)).1.log = emptyMem.log) ∧
    ∃ a, (BasicAny.ctorValue demoWorld emptyMem 6 (.obj [])).2.mInstance = some a ∧
      a ≠ (BasicAny.ctorValue demoWorld emptyMem 6 (.obj [])).2.mStorage ∧
      (BasicAny.ctorValue demoWorld emptyMem 6 (.obj [])).1.cells a = some (.obj []) ∧
      (BasicAny.ctorValue demoWorld emptyMem 6 (.obj [])).1.log
        = emptyMem.log ++ [Event.alloc a] ∧
      (BasicAny.ctorValue demoWorld emptyMem 6 (.obj [])).1.slots
        (BasicAny.ctorValue demoWorld emptyMem 6 (.obj [])).2.mStorage = some (some a) ∧
      (BasicAny.ctorValue demoWorld emptyMem 6 (.obj [])).1.cells
        (BasicAny.ctorValue demoWorld emptyMem 6 (.obj [])).2.mStorage
        = emptyMem.cells (BasicAny.ctorValue demoWorld emptyMem 6 (.obj [])).2.mStorage :=
  have h0 := (small_value_inline demoWorld emptyMem 0 (.num 3)).1 (by decide)
  ⟨⟨h0.1, h0.2.2.1⟩, (small_value_inline demoWorld emptyMem 6 (.obj [])).2 (by decide)⟩

/-! ## `Set` on a constant member -/

/-- C23 (DataMember.hpp 43-46, 104-107): `Set` on a member whose declared type is
constant returns without error for every receiver reference and every valid value,
whatever their types, empty or not; it leaves every object of the caller as it was and
runs no native operation. -/
theorem Set_const_noop (w : World) (dm : DataMember) (m : Mem) (objectRef : AnyRef)
    (value : BasicAny) (hc : dm.isConst = true) (hval : value.Valid m) :
    ∃ m1, dm.Set w m objectRef value = some (m1, .ok ()) ∧ m1.calls = m.calls ∧
      ∀ a, a < m.next → m1.cells a = m.cells a := by
  obtain ⟨hn1, hcells1, hlog1, hoi, hot, hod⟩ := ctorRef_spec m objectRef
  generalize hcr : BasicAny.ctorRef m objectRef = cr at hn1 hcells1 hlog1 hoi hot hod
  obtain ⟨m1, object⟩ := cr
  simp only at hn1 hcells1 hlog1 hoi hot hod
  have hab1 : Mem.Above m.next m m1 :=
    ⟨by omega, by simp [Mem.calls, hlog1], fun x _ => by rw [hcells1]⟩
  cases himpl : dm.impl with
  | setGet setter getter => simp [DataMember.isConst, himpl] at hc
  | ptr idx isConst =>
    have hic : isConst = true := by simpa [DataMember.isConst, himpl] using hc
    subst hic
    obtain ⟨m2, value1, hcopy, hab2, _, _, _, _, hown1⟩ :=
      ctorCopy_valid m1 value (hval.carry hab1)
    obtain ⟨m4, hd4, _, hfr4⟩ := dtor_owner m2 value1 m1.next m2.next hown1 hab2.1
    have hcalls4 : m4.calls = m2.calls := by
      have hdisp : Disposable m2 m1.next m2.next [value1] := ⟨m2.next, hab2.1, hown1, le_refl _⟩
      obtain ⟨m5, hdt, _, hc5, _⟩ := dtorAll_spec [value1] m2 m1.next m2.next hdisp
      simp only [dtorAll, hd4, Option.some.injEq] at hdt
      rw [hdt]
      exact hc5
    refine ⟨m4, ?_, ?_, ?_⟩
    · simp [DataMember.Set, himpl, hcr, hcopy, hd4, dtor_inert m4 object hod]
    · rw [hcalls4, hab2.2.1, hab1.2.1]
    · intro a ha
      rw [hfr4 a (Or.inl (by omega)), hab2.2.2 a (by omega), hcells1]

/-- C23 on the registered program: setting the constant member `id` of the caller's
Point to `5.8f` returns without error and leaves the Point. -/
theorem Set_const_noop_witness :
    ∃ m1, pointId.Set demoWorld floatOnPoint.1 pointRef floatOnPoint.2 = some (m1, .ok ()) ∧
      m1.calls = floatOnPoint.1.calls ∧
      ∀ a, a < floatOnPoint.1.next → m1.cells a = floatOnPoint.1.cells a :=
  Set_const_noop demoWorld pointId floatOnPoint.1 pointRef floatOnPoint.2 rfl
    floatOnPoint_valid

/-! ## Field access with an empty operand -/

/-- C24, the code at three failing inputs, for the member `x` of Point.  `Get` on an
empty container: the cast gives null and the construction of the error evaluates
`object.GetType()->GetName()` on the null type descriptor.  `Set` through a null
reference does the same for the receiver, and `Set` on the caller's Point with an empty
value does the same with `value.GetType()->GetName()`.  None of the three calls raises
the error. -/
theorem empty_operand_null_type :
    emptyOnPoint.2.toBool = false ∧ emptyOnPoint.2.GetType = none ∧
    emptyOnPoint.2.TryCast demoWorld 2 = some none ∧
    pointX.Get demoWorld emptyOnPoint.1 emptyOnPoint.2 = none ∧
    pointX.Set demoWorld floatOnPoint.1 AnyRef.ctorDefault floatOnPoint.2 = none ∧
    pointX.Set demoWorld emptyOnPoint.1 pointRef emptyOnPoint.2 = none :=
  ⟨rfl, rfl, rfl, rfl, rfl, rfl⟩

/-! ## Assignment -/

/-- C27, the code at two failing inputs.  `a` owning `5.8f` and `b` aliasing the caller's
Point at address 0: after `a = b` the container `a` carries the type of `b` and null
operations, but its pointer is still the address of its own buffer, where no object
lives any more, not the address of the Point.  `a` owning `3.7f` and `b` empty: after
`a = b` the container `a` still tests non-empty. -/
theorem assign_keeps_stale_pointer :
    (∃ m1 a1, BasicAny.assignCopy aliasAfterFloat.1 floatOnPoint.2 aliasAfterFloat.2
        = some (m1, a1) ∧
      floatOnPoint.2.mInstance = some 1 ∧ aliasAfterFloat.2.mInstance = some 0 ∧
      a1.mType = aliasAfterFloat.2.mType ∧ a1.mDestroy = none ∧
      a1.mInstance = some 1 ∧ m1.cells 1 = none) ∧
    (∃ m1 a1, BasicAny.assignCopy emptyAfterFloat.1 floatBuilt.2 emptyAfterFloat.2
        = some (m1, a1) ∧
      emptyAfterFloat.2.toBool = false ∧ a1.toBool = true ∧ a1.mType = none) :=
  ⟨⟨_, _, rfl, rfl, rfl, rfl, rfl, rfl, rfl⟩, ⟨_, _, rfl, rfl, rfl, rfl⟩⟩

/-! ## Names and registry -/

/-- C30, the code at two failing inputs.  After `Reflect<int>("A")` and
`Reflect<float>("A")` the descriptor of `int` is named "A" while `Resolve("A")` is the
descriptor of `float`.  After `Reflect<int>("A")` and `Reflect<int>("B")` the registry
still has the entry of "A" for the descriptor of `int`, whose name is "B". -/
theorem registry_names_diverge :
    (∃ g, runAll Statics.initial [.reflectType intT "A", .reflectType floatT "A"] = some g ∧
      g.mName (Details.GetTypeDescriptor (Details.RawType intT)) = "A" ∧
      ResolveName "A" g = some (Details.GetTypeDescriptor (Details.RawType floatT)) ∧
      Details.GetTypeDescriptor (Details.RawType floatT)
        ≠ Details.GetTypeDescriptor (Details.RawType intT)) ∧
    (∃ g, runAll Statics.initial [.reflectType intT "A", .reflectType intT "B"] = some g ∧
      ResolveName "A" g = some (Details.GetTypeDescriptor (Details.RawType intT)) ∧
      g.mName (Details.GetTypeDescriptor (Details.RawType intT)) = "B") :=
  ⟨⟨_, rfl, rfl, rfl, by decide⟩, ⟨_, rfl, rfl, rfl⟩⟩

/-! ## The listings of members -/

/-- `GetDataMembers` is the common listing over the data members. -/
theorem GetDataMembers_eq_list (w : World) :
    ∀ fuel T, TypeDescriptor.GetDataMembers w fuel T =
      listMembers w TypeDescriptor.mDataMembers fuel T := by
  intro fuel
  induction fuel with
  | zero => intro T; rfl
  | succ k ih =>
    intro T
    have hf : (fun B => TypeDescriptor.GetDataMembers w k B) =
        (fun B => listMembers w TypeDescriptor.mDataMembers k B) := funext ih
    simp only [TypeDescriptor.GetDataMembers, listMembers, hf]

/-- `GetMemberFunctions` is the common listing over the member functions. -/
theorem GetMemberFunctions_eq_list (w : World) :
    ∀ fuel T, TypeDescriptor.GetMemberFunctions w fuel T =
      listMembers w TypeDescriptor.mMemberFunctions fuel T := by
  intro fuel
  induction fuel with
  | zero => intro T; rfl
  | succ k ih =>
    intro T
    have hf : (fun B => TypeDescriptor.GetMemberFunctions w k B) =
        (fun B => listMembers w TypeDescriptor.mMemberFunctions k B) := funext ih
    simp only [TypeDescriptor.GetMemberFunctions, listMembers, hf]

/-- The two loops over the bases side by side: when on every base the search returns the
first match of the listing, the search over the bases returns, the listing over the bases
returns, and the first match of the whole listing is the first match of the members
collected before, else the result of the search. -/
theorem collect_search {α : Type} (p : α → Bool) (collect : TypeId → Option (List α))
    (search : TypeId → Option (Option α)) (bases : List Base)
    (h : ∀ b ∈ bases, ∃ l, collect b.GetType = some l ∧ search b.GetType = some (l.find? p)) :
    ∀ members : List α, ∃ all r, collectBases collect bases members = some all ∧
      searchBases search bases = some r ∧
      all.find? p = (members.find? p).orElse (fun _ => r) := by
  induction bases with
  | nil =>
    intro members
    exact ⟨members, none, rfl, rfl, by cases members.find? p <;> rfl⟩
  | cons b bs ih =>
    intro members
    obtain ⟨l, hl, hs⟩ := h b (List.mem_cons_self _ _)
    obtain ⟨all, r, hall, hr, hfind⟩ :=
      ih (fun c hc => h c (List.mem_cons_of_mem _ hc)) (members ++ l)
    cases hlp : l.find? p with
    | none =>
      refine ⟨all, r, by simp [collectBases, hl, hall], by simp [searchBases, hs, hlp, hr], ?_⟩
      rw [hfind, List.find?_append, hlp]
      cases members.find? p <;> rfl
    | some x =>
      refine ⟨all, some x, by simp [collectBases, hl, hall], by simp [searchBases, hs, hlp], ?_⟩
      rw [hfind, List.find?_append, hlp]
      cases members.find? p <;> rfl

/-- On an acyclic graph, with fuel above the rank: the listing returns, the search by
name returns, and the result of the search is the first element of the listing with that
name. -/
theorem lookup_in_listing {α : Type} (w : World) (own : TypeDescriptor → List α)
    (nameOf : α → String) (rank : TypeId → Nat) (hrank : w.Ranked rank) (n : String) :
    ∀ fuel T, rank T < fuel →
      ∃ l, listMembers w own fuel T = some l ∧
        lookupMember w own nameOf fuel T n = some (l.find? (fun x => nameOf x == n)) := by
  intro fuel
  induction fuel with
  | zero => intro T h; omega
  | succ k ih =>
    intro T h
    obtain ⟨all, r, hall, hr, hfind⟩ :=
      collect_search (fun x => nameOf x == n) (fun B => listMembers w own k B)
        (fun B => lookupMember w own nameOf k B n) (w.desc T).mBases
        (fun b hb => ih b.GetType (by have := hrank T b hb; omega)) (own (w.desc T))
    refine ⟨all, by simp only [listMembers, hall], ?_⟩
    rw [lookupMember, hfind]
    cases hown : (own (w.desc T)).find? (fun x => nameOf x == n) with
    | some x => rfl
    | none => simpa using hr

/-- C29 (TypeDescriptor.inl 127-173): on an acyclic graph of Base edges, with fuel above
the rank of the type, `GetDataMembers()` and `GetDataMember(n)` return, the result of
`GetDataMember(n)` is the first element of the listing whose name is `n`, and it is null
exactly when the listing has no member named `n`; the same for `GetMemberFunctions()` and
`GetMemberFunction(n)`. -/
theorem lookup_agrees_with_listing (w : World) (rank : TypeId → Nat) (hrank : w.Ranked rank)
    (n : String) (fuel : Nat) (T : TypeId) (hfuel : rank T < fuel) :
    (∃ l r, TypeDescriptor.GetDataMembers w fuel T = some l ∧
      TypeDescriptor.GetDataMember w fuel T n = some r ∧
      r = l.find? (fun x => x.GetName == n) ∧
      (r = none ↔ ∀ x ∈ l, x.GetName ≠ n)) ∧
    (∃ l r, TypeDescriptor.GetMemberFunctions w fuel T = some l ∧
      TypeDescriptor.GetMemberFunction w fuel T n = some r ∧
      r = l.find? (fun x => x.GetName == n) ∧
      (r = none ↔ ∀ x ∈ l, x.GetName ≠ n)) := by
  constructor
  · obtain ⟨l, hl, hr⟩ := lookup_in_listing w TypeDescriptor.mDataMembers DataMember.GetName
      rank hrank n fuel T hfuel
    refine ⟨l, _, by rw [GetDataMembers_eq_list, hl], by rw [GetDataMember_eq_lookup, hr],
      rfl, ?_⟩
    simp [List.find?_eq_none]
  · obtain ⟨l, hl, hr⟩ := lookup_in_listing w TypeDescriptor.mMemberFunctions Function.GetName
      rank hrank n fuel T hfuel
    refine ⟨l, _, by rw [GetMemberFunctions_eq_list, hl],
      by rw [GetMemberFunction_eq_lookup, hr], rfl, ?_⟩
    simp [List.find?_eq_none]

/-- C29 on the registered program, for the name "b" from Most. -/
theorem lookup_agrees_with_listing_witness :
    demoRank 5 < 3 ∧
    ∃ l r, TypeDescriptor.GetDataMembers demoWorld 3 5 = some l ∧
      TypeDescriptor.GetDataMember demoWorld 3 5 "b" = some r ∧
      r = l.find? (fun x => x.GetName == "b") ∧
      (r = none ↔ ∀ x ∈ l, x.GetName ≠ "b") :=
  ⟨by decide,
    (lookup_agrees_with_listing demoWorld demoRank demoWorld_ranked "b" 3 5 (by decide)).1⟩

/-! ## Termination of the member lookups -/

/-- C26, the code at a failing input.  Point is a class, so `is_base_of<Point, Point>`
holds and `AddBase<Point>()` on the factory of Point passes the `static_assert`: the
descriptor of Point gets a Base edge to itself.  From then on the search of a name that
Point does not have, and both listings, recurse without end: no fuel is enough. -/
theorem self_base_lookup_diverges :
    is_base_of demoClasses 2 2 = true ∧
    TypeFactory.AddBase demoClasses demoWorld 2 2 = some selfBaseWorld ∧
    (selfBaseWorld.desc 2).mBases = [⟨2, 2⟩] ∧
    ∀ fuel, TypeDescriptor.GetDataMember selfBaseWorld fuel 2 "z" = none ∧
      TypeDescriptor.GetMemberFunction selfBaseWorld fuel 2 "z" = none ∧
      TypeDescriptor.GetDataMembers selfBaseWorld fuel 2 = none ∧
      TypeDescriptor.GetMemberFunctions selfBaseWorld fuel 2 = none := by
  refine ⟨rfl, rfl, rfl, ?_⟩
  have hb : (selfBaseWorld.desc 2).mBases = [⟨2, 2⟩] := rfl
  have hd : (selfBaseWorld.desc 2).mDataMembers = [pointX, pointY] := rfl
  have hf : (selfBaseWorld.desc 2).mMemberFunctions = [pointSum, pointMove] := rfl
  intro fuel
  induction fuel with
  | zero => exact ⟨rfl, rfl, rfl, rfl⟩
  | succ k ih =>
    obtain ⟨h1, h2, h3, h4⟩ := ih
    refine ⟨?_, ?_, ?_, ?_⟩
    · rw [TypeDescriptor.GetDataMember, hb, hd]
      have : List.find? (fun dataMember => dataMember.GetName == "z") [pointX, pointY] = none :=
        rfl
      simp only [this, searchBases, Base.GetType, h1]
    · rw [TypeDescriptor.GetMemberFunction, hb, hf]
      have : List.find? (fun memberFunction => memberFunction.GetName == "z")
          [pointSum, pointMove] = none :=
        rfl
      simp only [this, searchBases, Base.GetType, h2]
    · rw [TypeDescriptor.GetDataMembers, hb, hd]
      simp only [collectBases, Base.GetType, h3]
    · rw [TypeDescriptor.GetMemberFunctions, hb, hf]
      simp only [collectBases, Base.GetType, h4]

/-! ## The static check and the dynamic call -/

/-- A list of values has no missing one. -/
theorem no_none_of_map (vs : List Val) : ¬ ∃ o ∈ vs.map some, o = none := by
  rintro ⟨o, ho, hn⟩
  subst hn
  simp at ho

/-- The arguments handed to the native function point to the resolved values. -/
theorem filterMap_cells (m : Mem) :
    ∀ (ps : List (Option Nat)) (vs : List Val), ps.map m.deref = vs.map some →
      (ps.filterMap id).map m.cells = vs.map some := by
  intro ps
  induction ps with
  | nil =>
    intro vs h
    cases vs with
    | nil => rfl
    | cons v vs => simp at h
  | cons p ps ih =>
    intro vs h
    cases vs with
    | nil => simp at h
    | cons v vs =>
      simp only [List.map_cons, List.cons.injEq] at h
      obtain ⟨h1, h2⟩ := h
      cases p with
      | none => simp [Mem.deref] at h1
      | some q =>
        simp only [Mem.deref] at h1
        simp [h1, ih vs h2]

/-- `InvokeImpl` on valid arguments of the right number that all resolve, with a receiver
that casts to the class (or a free function) and a tame native function: it returns the
result of the guarded tail, run in the memory `mf` after the resolution on the receiver
pointer and on pointers to the resolved values; memory below the call is touched by the
native function only. -/
theorem InvokeImpl_success (w : World) (f : Function) (m : Mem) (object : BasicAny)
    (args : List BasicAny) (hlen : args.length = f.mParamTypes.length)
    (hv : ∀ a ∈ args, a.Valid m) (ht : f.native.Tame) (vs : List Val)
    (hvs : specResolveAll w m args f.mParamTypes = vs.map some)
    (hrecv : f.mParent = none ∨ ∃ C p, f.mParent = some C ∧
      object.TryCast w C = some (some p)) :
    ∃ mf obj ptrs m1, f.InvokeImpl w m object args = some (m1, (f.call w mf obj ptrs).2) ∧
      ptrs.map mf.cells = vs.map some ∧
      (f.mParent = none → obj = none) ∧
      (∀ C, f.mParent = some C → obj = object.mInstance ∧ obj.isSome = true) ∧
      m1.calls = m.calls + 1 ∧ m.next ≤ m1.next ∧
      (∀ x, x < m.next → mf.cells x = m.cells x) ∧
      (∀ x, x < m.next → m1.cells x = (f.call w mf obj ptrs).1.cells x) := by
  obtain ⟨mf, cs, hres, hab, hall⟩ := resolveArguments_spec w m args f.mParamTypes hlen hv
  obtain ⟨hvals, _⟩ := hall.values hv hab.2.2
  have hdisp := hall.disposable
  have hmap : (cs.map (fun c => c.mInstance)).map mf.deref
      = specResolveAll w m args f.mParamTypes := by
    rw [← hvals, List.map_map]
    rfl
  obtain ⟨_, hvalid⟩ := derefAll_of_map mf _ vs (hmap.trans hvs)
  have hptrs := filterMap_cells mf _ vs (hmap.trans hvs)
  have hobj : ∃ obj, (match f.mParent with
      | none => some none
      | some C => object.TryCast w C) = some obj ∧
      (f.mParent.isNone || obj.isSome) = true ∧ (f.mParent = none → obj = none) ∧
      (∀ C, f.mParent = some C → obj = object.mInstance ∧ obj.isSome = true) := by
    rcases hrecv with h | ⟨C, p, hC, hp⟩
    · exact ⟨none, by simp [h], by simp [h], fun _ => rfl, fun C hC => by simp [h] at hC⟩
    · refine ⟨some p, by simp [hC, hp], by simp, fun h => by simp [hC] at h, ?_⟩
      intro C2 _
      exact ⟨(TryCast_some_eq w object C p hp).symm, rfl⟩
  obtain ⟨obj, hobjeq, hguard, hfree, hmem⟩ := hobj
  obtain ⟨hk1, hk2, hk3⟩ :=
    call_keeps w f mf obj ((cs.map (fun c => c.mInstance)).filterMap id) ht
  generalize hcall : f.call w mf obj ((cs.map (fun c => c.mInstance)).filterMap id) = cr
    at hk1 hk2 hk3
  obtain ⟨m2, r⟩ := cr
  simp only at hk1 hk2 hk3
  have hdisp2 : Disposable m2 m.next mf.next cs := hdisp.live hk3
  obtain ⟨m3, hdt, hn3, hc3, hfr3⟩ := dtorAll_spec cs m2 m.next mf.next hdisp2
  refine ⟨mf, obj, _, m3, ?_, hptrs, hfree, hmem, ?_, ?_, hab.2.2, ?_⟩
  · simp only [Function.InvokeImpl, hres, hobjeq, hvalid, hguard, Bool.and_self, if_true, hcall,
      hdt]
  · rw [hc3, hk2, hab.2.1]
  · rw [hn3]
    exact le_trans hab.1 hk1
  · intro x hx
    rw [hcall]
    exact hfr3 x (Or.inl hx)

/-- The variadic `Invoke` on usable arguments of the right number that all resolve, with a
receiver that casts to the class (or a free function) and a tame native function: it
returns the result of the guarded tail, run on the receiver pointer and on pointers to the
resolved values, after one native execution; the caller's memory is touched by the native
function only. -/
theorem Invoke_success (w : World) (f : Function) (m : Mem) (object : AnyRef)
    (args : List Arg) (hlen : args.length = f.mParamTypes.length)
    (hv : ∀ x ∈ args, x.Valid m) (ht : f.native.Tame)
    (m0 : Mem) (anyArgs : List BasicAny) (hbuild : buildArgs w m args = some (m0, anyArgs))
    (vs : List Val) (hvs : specResolveAll w m0 anyArgs f.mParamTypes = vs.map some)
    (hrecv : f.mParent = none ∨ ∃ C p, f.mParent = some C ∧
      (BasicAny.ctorRef m object).2.TryCast w C = some (some p)) :
    ∃ mf obj ptrs m1, f.Invoke w m object args = some (m1, (f.call w mf obj ptrs).2) ∧
      ptrs.map mf.cells = vs.map some ∧
      (f.mParent = none → obj = none) ∧
      (∀ C, f.mParent = some C → obj = object.mInstance ∧ obj.isSome = true) ∧
      m1.calls = m.calls + 1 ∧
      (∀ x, x < m.next → mf.cells x = m.cells x) ∧
      (∀ x, x < m.next → m1.cells x = (f.call w mf obj ptrs).1.cells x) := by
  obtain ⟨m0b, cs, hbuild2, hab, hvals, hdisp, hlen2⟩ :=
    buildArgs_spec w m args m hv (Mem.Above.refl _ _)
  rw [hbuild] at hbuild2
  simp only [Option.some.injEq, Prod.mk.injEq] at hbuild2
  obtain ⟨e1, e2⟩ := hbuild2
  subst e1 e2
  generalize hcr : BasicAny.ctorRef m0 object = cr
  obtain ⟨m1, objectAny⟩ := cr
  have hm1 : m1.next = m0.next + 1 ∧ m1.cells = m0.cells ∧ m1.calls = m0.calls ∧
      objectAny.mInstance = object.mInstance ∧ objectAny.mType = object.mType ∧
      objectAny.mDestroy = none := by
    have h1 := congrArg Prod.fst hcr
    have h2 := congrArg Prod.snd hcr
    simp only [BasicAny.ctorRef, BasicAny.ctorDefault, Mem.fresh] at h1 h2
    subst h1 h2
    simp [Mem.calls]
  obtain ⟨hn1, hcells1, hcalls1, hoi, hot, hod⟩ := hm1
  have hab1 : Mem.Above m0.next m0 m1 :=
    ⟨by omega, hcalls1, fun x _ => by rw [hcells1]⟩
  have hvals1 : ∀ a ∈ anyArgs, a.Valid m1 := fun a ha => (hvals a ha).carry hab1
  have hspec : specResolveAll w m1 anyArgs f.mParamTypes
      = specResolveAll w m0 anyArgs f.mParamTypes := by
    have : m1.cells = m0.cells := hcells1
    clear hvals1 hvals hdisp hlen2 hvs hbuild
    generalize f.mParamTypes = ps
    induction anyArgs generalizing ps with
    | nil => cases ps <;> rfl
    | cons a as ih =>
      cases ps with
      | nil => rfl
      | cons P Ps =>
        simp only [specResolveAll, ih Ps, specResolve, convertedValue, this]
  have hrecv1 : f.mParent = none ∨ ∃ C p, f.mParent = some C ∧
      objectAny.TryCast w C = some (some p) := by
    rcases hrecv with h | ⟨C, p, hC, hcast⟩
    · exact Or.inl h
    · refine Or.inr ⟨C, p, hC, ?_⟩
      rw [← hcast]
      apply TryCast_congr
      · rw [hoi]
        simp [BasicAny.ctorRef, BasicAny.ctorDefault, Mem.fresh]
      · rw [hot]
        simp [BasicAny.ctorRef, BasicAny.ctorDefault, Mem.fresh]
  obtain ⟨mf, obj, ptrs, m2, himpl, hptrs, hfree, hmem, hcalls2, hle2, hbelow, hfr2⟩ :=
    InvokeImpl_success w f m1 objectAny anyArgs (hlen2.trans hlen) hvals1 ht vs
      (hspec.trans hvs) hrecv1
  obtain ⟨_, _, hk3⟩ := call_keeps w f mf obj ptrs ht
  have hkeep : ∀ {ds : List BasicAny} {lo hi : Nat}, hi ≤ m0.next →
      Disposable m0 lo hi ds → Disposable m2 lo hi ds := by
    intro ds
    induction ds with
    | nil =>
      intro lo hi _ h
      exact h
    | cons d ds ihd =>
      intro lo hi hhi h
      obtain ⟨k, hk, hd, hrest⟩ := h
      have hkhi := hrest.le
      refine ⟨k, hk, ?_, ihd hhi hrest⟩
      rcases hd with hd | ⟨a, tr, h1, h2, h3, h4, h5⟩
      · exact Or.inl hd
      · refine Or.inr ⟨a, tr, h1, h2, h3, h4, ?_⟩
        rw [hfr2 a (by omega)]
        apply hk3
        rw [hbelow a (by omega), hcells1]
        exact h5
  have hdisp2 : Disposable m2 m.next m0.next anyArgs := hkeep (le_refl _) hdisp
  obtain ⟨m3, hdt, hn3, hc3, hfr3⟩ := dtorAll_spec anyArgs m2 m.next m0.next hdisp2
  refine ⟨mf, obj, ptrs, m3, ?_, hptrs, hfree, ?_, ?_, ?_, ?_⟩
  · simp [Function.Invoke, hlen, hbuild, hcr, himpl, dtor_inert m2 objectAny hod, hdt]
  · intro C hC
    rw [← hoi]
    exact hmem C hC
  · rw [hc3, hcalls2, hcalls1, hab.2.1]
  · intro x hx
    rw [hbelow x (by have := hab.1; omega), hcells1]
    exact hab.2.2 x hx
  · intro x hx
    rw [hfr3 x (Or.inl hx)]
    exact hfr2 x (by have := hab.1; omega)

/-! ## Return by reference, and the empty result -/

/-- The native function of `pointSelf` is tame. -/
theorem pointSelf_tame : pointSelf.native.Tame :=
  fun _ _ _ => ⟨le_refl _, rfl, fun _ h => h⟩

/-- C21, amended (Function.hpp 83-97, 153-167, 223-244; Any.hpp 57-73, 243-248): a
function whose return type is a reference to an object other than a container or a
handle, invoked on usable arguments of the right number that all resolve and, for a
member function, on a receiver that casts to the class.  The native
function `g` runs once, on the receiver pointer and on pointers to the resolved values,
and returns the address of an object; the returned container has null copy, move and
destroy operations (`IsRef` is true), its pointer is that address and its type is the
declared return type; an object of the caller is left as the native function left it; a
write through the container's pointer is read at the returned address, and destroying
the container changes nothing. -/
theorem reference_result_aliases (w : World) (f : Function) (m : Mem) (object : AnyRef)
    (args : List Arg) (g : Mem → Option Nat → List Nat → Mem × Nat)
    (hn : f.native = .retRef g) (hlen : args.length = f.mParamTypes.length)
    (hv : ∀ x ∈ args, x.Valid m) (ht : f.native.Tame)
    (m0 : Mem) (anyArgs : List BasicAny) (hbuild : buildArgs w m args = some (m0, anyArgs))
    (vs : List Val) (hvs : specResolveAll w m0 anyArgs f.mParamTypes = vs.map some)
    (hrecv : f.mParent = none ∨ ∃ C p, f.mParent = some C ∧
      (BasicAny.ctorRef m object).2.TryCast w C = some (some p)) :
    ∃ (mf : Mem) (obj : Option Nat) (ptrs : List Nat) (m1 : Mem) (r : BasicAny),
      f.Invoke w m object args = some (m1, r) ∧
      ptrs.map mf.cells = vs.map some ∧
      (f.mParent = none → obj = none) ∧
      (∀ C, f.mParent = some C → obj = object.mInstance ∧ obj.isSome = true) ∧
      (∀ x, x < m.next → mf.cells x = m.cells x) ∧
      m1.calls = m.calls + 1 ∧
      r.IsRef = true ∧ r.mCopy = none ∧ r.mMove = none ∧ r.mDestroy = none ∧
      r.mInstance = some (g (mf.emit .native) obj ptrs).2 ∧
      r.mType = some f.mReturnType ∧
      (∀ x, x < m.next → m1.cells x = (g (mf.emit .native) obj ptrs).1.cells x) ∧
      (∀ q y, r.mInstance = some q →
        (m1.store q y).cells (g (mf.emit .native) obj ptrs).2 = some y) ∧
      (∀ m2, BasicAny.dtor m2 r = some m2) := by
  obtain ⟨mf, obj, ptrs, m1, hinv, hptrs, hfree, hmem, hcalls, hbelow, hfr⟩ :=
    Invoke_success w f m object args hlen hv ht m0 anyArgs hbuild vs hvs hrecv
  have hcall : f.call w mf obj ptrs =
      BasicAny.ctorRef (g (mf.emit .native) obj ptrs).1
        (AnyRef.ctorObject (g (mf.emit .native) obj ptrs).2 f.mReturnType) := by
    simp only [Function.call, hn]
  rw [hcall] at hinv hfr
  refine ⟨mf, obj, ptrs, m1, _, hinv, hptrs, hfree, hmem, hbelow, hcalls, rfl, rfl, rfl, rfl,
    rfl, rfl, ?_, ?_, fun m2 => rfl⟩
  · intro x hx
    rw [hfr x hx]
    rfl
  · intro q y hq
    have hq2 : q = (g (mf.emit .native) obj ptrs).2 := by
      have : (some (g (mf.emit .native) obj ptrs).2 : Option Nat) = some q := hq
      exact (Option.some.inj this).symm
    subst hq2
    simp [Mem.store]

/-- C21 amended, on the registered program: `Self` invoked on the caller's Point returns
a container that aliases the Point at address 0. -/
theorem reference_result_aliases_witness :
    ∃ m1 r, pointSelf.Invoke demoWorld pointMem pointRef [] = some (m1, r) ∧
      r.IsRef = true ∧ r.mDestroy = none ∧ r.mInstance = some 0 ∧ r.mType = some 2 ∧
      m1.cells 0 = some (.obj [.num 3, .num 4]) := by
  obtain ⟨mf, obj, ptrs, m1, r, h1, _, _, h4, h5, _, h7, _, _, h10, h11, h12, h13, _, _⟩ :=
    reference_result_aliases demoWorld pointSelf pointMem pointRef []
      (fun m obj _ => (m, obj.getD 0)) rfl rfl (by simp) pointSelf_tame pointMem [] rfl [] rfl
      (Or.inr ⟨2, 0, rfl, rfl⟩)
  have hobj : obj = some 0 := (h4 2 rfl).1
  subst hobj
  refine ⟨m1, r, h1, h7, h10, h11, h12, ?_⟩
  rw [h13 0 (by decide)]
  exact (h5 0 (by decide)).trans rfl

/-- C21, counterexample: two functions whose declared return type is the reference `Any&`,
invoked with full success next to the container `Any(3.7f)` and an empty container.
`Slot()` returns a reference to the first: the returned container is non-owning, and its
pointer and its type are those of the float the container holds, not the address and the
type `Any` of the object returned.  `Blank()` returns a reference to the second: the
returned container is empty and aliases nothing. -/
theorem container_reference_counterexample :
    (∃ m1 r, slotRef.Invoke demoWorld emptyAfterFloat.1 AnyRef.ctorDefault [] = some (m1, r) ∧
      m1.calls = emptyAfterFloat.1.calls + 1 ∧ r.IsRef = true ∧ r.mDestroy = none ∧
      r.mInstance = floatBuilt.2.mInstance ∧
      m1.deref r.mInstance = some (.num 37) ∧
      r.mType = some 1 ∧ r.mType ≠ some slotRef.mReturnType) ∧
    (∃ m1 r, blankRef.Invoke demoWorld emptyAfterFloat.1 AnyRef.ctorDefault [] = some (m1, r) ∧
      m1.calls = emptyAfterFloat.1.calls + 1 ∧ r.toBool = false ∧ r.mType = none) :=
  ⟨⟨_, _, rfl, rfl, rfl, rfl, rfl, rfl, rfl, by decide⟩, ⟨_, _, rfl, rfl, rfl, rfl⟩⟩

/-- C25, counterexample: three calls that are full successes, after which the native
function has run once, and that return an empty container: `Move(3, 4)` on the caller's
Point, whose return type is `void` (the Point is moved); `Find()`, whose return type is
`Any` and which returns an empty one; `Peer()`, whose return type is `AnyRef` and which
returns a null one. -/
theorem void_success_empty_counterexample :
    (∃ m1 r, pointMove.Invoke demoWorld pointMem pointRef [.value 0 (.num 3), .value 0 (.num 4)]
        = some (m1, r) ∧
      r.toBool = false ∧ m1.calls = pointMem.calls + 1 ∧
      m1.cells 0 = some (.obj [.num 6, .num 8])) ∧
    (∃ m1 r, pointFind.Invoke demoWorld pointMem pointRef [] = some (m1, r) ∧
      r.toBool = false ∧ m1.calls = pointMem.calls + 1) ∧
    (∃ m1 r, pointPeer.Invoke demoWorld pointMem pointRef [] = some (m1, r) ∧
      r.toBool = false ∧ m1.calls = pointMem.calls + 1) :=
  ⟨⟨_, _, rfl, rfl, rfl, rfl⟩, ⟨_, _, rfl, rfl, rfl⟩, ⟨_, _, rfl, rfl, rfl⟩⟩

/-- C25, amended: `Invoke` on usable arguments with a tame native function.  With a
number of arguments other than the number of parameters, and with the right number when
some argument does not resolve or the receiver of a member function does not cast to the
class, it returns an empty container and the native function does not run.  On full
success the native function `g` runs once, on the receiver pointer and on pointers to the
resolved values, and the result is by the return type: empty for `void`; a non-empty
container for a value other than `Any` and `AnyRef` and for a reference to an object
other than these; for `Any` the container the function returned, as it is; for `AnyRef`,
by value or by reference, a container without operations that holds the pointer and the
type of the returned handle; for a reference to an `Any` a container without operations
that holds the pointer and the type of the container referred to.  The last three are
empty exactly when the function returned an empty container or a null handle. -/
theorem empty_result_cases (w : World) (f : Function) (m : Mem) (object : AnyRef)
    (args : List Arg) (hv : ∀ x ∈ args, x.Valid m)
    (hobj : object.mInstance = none ∨ object.mType.isSome = true) (ht : f.native.Tame) :
    (args.length ≠ f.mParamTypes.length →
      ∃ m1 r, f.Invoke w m object args = some (m1, r) ∧ r.toBool = false ∧
        m1.calls = m.calls) ∧
    (args.length = f.mParamTypes.length →
      ∀ m0 anyArgs, buildArgs w m args = some (m0, anyArgs) →
      (((∃ o ∈ specResolveAll w m0 anyArgs f.mParamTypes, o = none) ∨
          ∃ C, f.mParent = some C ∧ (BasicAny.ctorRef m object).2.TryCast w C = some none) →
        ∃ m1 r, f.Invoke w m object args = some (m1, r) ∧ r.toBool = false ∧
          m1.calls = m.calls) ∧
      (∀ vs : List Val, specResolveAll w m0 anyArgs f.mParamTypes = vs.map some →
        (f.mParent = none ∨ ∃ C p, f.mParent = some C ∧
          (BasicAny.ctorRef m object).2.TryCast w C = some (some p)) →
        ∃ (mf : Mem) (obj : Option Nat) (ptrs : List Nat) (m1 : Mem) (r : BasicAny),
          f.Invoke w m object args = some (m1, r) ∧ m1.calls = m.calls + 1 ∧
          ptrs.map mf.cells = vs.map some ∧
          (f.mParent = none → obj = none) ∧
          (∀ C, f.mParent = some C → obj = object.mInstance ∧ obj.isSome = true) ∧
          (∀ g, f.native = .retVoid g → r.toBool = false) ∧
          (∀ g, f.native = .retValue g → r.toBool = true) ∧
          (∀ g, f.native = .retRef g → r.toBool = true) ∧
          (∀ g, f.native = .retAny g → r = (g (mf.emit .native) obj ptrs).2) ∧
          (∀ g, f.native = .retHandle g →
            r.mInstance = (g (mf.emit .native) obj ptrs).2.mInstance ∧
            r.mType = (g (mf.emit .native) obj ptrs).2.mType ∧
            r.mCopy = none ∧ r.mMove = none ∧ r.mDestroy = none ∧
            r.toBool = (g (mf.emit .native) obj ptrs).2.mInstance.isSome) ∧
          (∀ g, f.native = .retRefToAny g →
            r.mInstance = (g (mf.emit .native) obj ptrs).2.mInstance ∧
            r.mType = (g (mf.emit .native) obj ptrs).2.mType ∧
            r.mCopy = none ∧ r.mMove = none ∧ r.mDestroy = none ∧
            r.toBool = (g (mf.emit .native) obj ptrs).2.toBool))) := by
  refine ⟨?_, ?_⟩
  · intro hlen
    refine ⟨(BasicAny.ctorDefault m).1, (BasicAny.ctorDefault m).2,
      by simp only [Function.Invoke, if_neg hlen], rfl, ?_⟩
    simp [BasicAny.ctorDefault, Mem.fresh, Mem.calls]
  · intro hlen m0 anyArgs hbuild
    refine ⟨?_, ?_⟩
    · intro hfail
      obtain ⟨m1, r, h1, h2, h3, _⟩ :=
        Invoke_nomatch w f m object args hlen hv hobj m0 anyArgs hbuild hfail
      exact ⟨m1, r, h1, h2, h3⟩
    · intro vs hvs hrecv
      obtain ⟨mf, obj, ptrs, m1, hinv, hptrs, hfree, hmem, hcalls, _, _⟩ :=
        Invoke_success w f m object args hlen hv ht m0 anyArgs hbuild vs hvs hrecv
      refine ⟨mf, obj, ptrs, m1, _, hinv, hcalls, hptrs, hfree, hmem, ?_, ?_, ?_, ?_, ?_, ?_⟩
      · intro g hn
        simp only [Function.call, hn]
        rfl
      · intro g hn
        simp only [Function.call, hn]
        rfl
      · intro g hn
        simp only [Function.call, hn]
        rfl
      · intro g hn
        simp only [Function.call, hn]
      · intro g hn
        simp only [Function.call, hn]
        exact ⟨rfl, rfl, rfl, rfl, rfl, rfl⟩
      · intro g hn
        simp only [Function.call, hn]
        exact ⟨rfl, rfl, rfl, rfl, rfl, rfl⟩

/-- The native function of `pointSum` is tame. -/
theorem pointSum_tame : pointSum.native.Tame := by
  intro m obj ptrs
  show Mem.Keeps m (match m.deref obj with
    | some (.obj [.num x, .num y]) => (m, Val.num (x + y))
    | _ => (m, Val.num 0)).1
  have : (match m.deref obj with
    | some (.obj [.num x, .num y]) => (m, Val.num (x + y))
    | _ => (m, Val.num 0)).1 = m := by
    split <;> rfl
  rw [this]
  exact ⟨le_refl _, rfl, fun _ h => h⟩

/-- C25 amended, on the registered program: `Sum` invoked on the caller's Point is a full
success and returns a non-empty container. -/
theorem empty_result_cases_witness :
    ∃ m1 r, pointSum.Invoke demoWorld pointMem pointRef [] = some (m1, r) ∧
      m1.calls = pointMem.calls + 1 ∧ r.toBool = true := by
  obtain ⟨_, _, _, m1, r, h1, h2, _, _, _, _, h3, _⟩ :=
    ((empty_result_cases demoWorld pointSum pointMem pointRef [] (by simp) (Or.inr rfl)
      pointSum_tame).2 rfl pointMem [] rfl).2 [] rfl (Or.inr ⟨2, 0, rfl, rfl⟩)
  exact ⟨m1, r, h1, h2, h3 _ rfl⟩

/-! ## Access to the members a lookup returns -/

/-- The subobject at the start of an object is the object. -/
theorem Val.subobject_zero (v : Val) : v.subobject 0 = v := by
  cases v <;> rfl

/-- A member whose class lies at the start of the object is read at the pointer to the
object. -/
theorem DataMember.field_of_offset_zero (w : World) (dm : DataMember) (D : TypeId) (o : Val)
    (h : w.offsetOf D dm.mParent = 0) : dm.field w D o = dm.read o := by
  simp [DataMember.field, h, Val.subobject_zero]

/-- C20, amended: for a member `dm` that `GetDataMember(n)` returns on the descriptor of
`D` and a container holding a live object of type `D`, `Get` returns the value of the
member in that object when the class of the member is `D`, or is the target of a Base
edge registered on `D` itself and lies at the start of a `D` object, and raises the
bad-access error when the class is neither `D` nor the target of such an edge, as for a
member inherited through two or more edges; likewise a function that
`GetMemberFunction(n)` returns, invoked on a receiver of type `D` with usable arguments
that all resolve, executes the native function once, on the address of the receiver's
object and on pointers to the resolved values, when it is a free function or its class is
`D` or the target of a Base edge registered on `D` itself and lies at the start of a `D`
object, and returns an empty container without executing it when its class is neither
`D` nor the target of such an edge. -/
theorem member_access_needs_direct_edge (w : World) (fuel : Nat) (D : TypeId) (n : String) :
    (∀ (dm : DataMember) (m : Mem) (v : BasicAny) (p : Nat) (ov : Val),
      TypeDescriptor.GetDataMember w fuel D n = some (some dm) →
      v.mInstance = some p → v.mType = some D → m.cells p = some ov →
      ((dm.mParent = D ∨ ((∃ b ∈ (w.desc D).mBases, b.GetType = dm.mParent) ∧
          w.baseOffset D dm.mParent = 0)) →
        ∀ x, dm.field w D ov = some x →
        ∃ m1 r, dm.Get w m v = some (m1, .ok r) ∧ r.Temp m.next m1.next m1 dm.mType x) ∧
      ((dm.mParent ≠ D ∧ ∀ b ∈ (w.desc D).mBases, b.GetType ≠ dm.mParent) →
        ∃ e, dm.Get w m v = some (m, .error e))) ∧
    (∀ (f : Function) (m : Mem) (object : AnyRef) (p : Nat) (args : List Arg) (m0 : Mem)
        (anyArgs : List BasicAny) (vs : List Val),
      TypeDescriptor.GetMemberFunction w fuel D n = some (some f) →
      object.mInstance = some p → object.mType = some D →
      args.length = f.mParamTypes.length → (∀ x ∈ args, x.Valid m) → f.native.Tame →
      buildArgs w m args = some (m0, anyArgs) →
      specResolveAll w m0 anyArgs f.mParamTypes = vs.map some →
      ((f.mParent = none ∨ f.mParent = some D ∨
          ∃ b ∈ (w.desc D).mBases, f.mParent = some b.GetType ∧
            w.baseOffset D b.GetType = 0) →
        ∃ (mf : Mem) (obj : Option Nat) (ptrs : List Nat) (m1 : Mem),
          f.Invoke w m object args = some (m1, (f.call w mf obj ptrs).2) ∧
          m1.calls = m.calls + 1 ∧ ptrs.map mf.cells = vs.map some ∧
          (f.mParent = none → obj = none) ∧ (f.mParent ≠ none → obj = some p)) ∧
      ((∃ C, f.mParent = some C ∧ C ≠ D ∧ ∀ b ∈ (w.desc D).mBases, b.GetType ≠ C) →
        ∃ m1 r, f.Invoke w m object args = some (m1, r) ∧ r.toBool = false ∧
          m1.calls = m.calls)) := by
  constructor
  · intro dm m v p ov _ hi hS hov
    constructor
    · intro hdir x hx
      have hcast : v.TryCast w dm.mParent = some (some p) :=
        TryCast_direct w v dm.mParent D p hi hS (by
          rcases hdir with h | h
          · exact Or.inl h
          · exact Or.inr h.1)
      have hoff : w.offsetOf D dm.mParent = 0 := by
        rcases hdir with h | h
        · simp [World.offsetOf, h]
        · simp [World.offsetOf, h.2]
      rw [DataMember.field_of_offset_zero w dm D ov hoff] at hx
      exact Get_returns w m dm v p ov x hcast hov hx
    · rintro ⟨hne, hno⟩
      have hcast : v.TryCast w dm.mParent = some none :=
        TryCast_indirect w v dm.mParent D p hi hS hne hno
      exact ⟨BadCastException.ctor (w.desc dm.mParent).GetName (w.desc D).GetName "",
        by simp [DataMember.Get, hcast, typeName, BasicAny.GetType, hS]⟩
  · intro f m object p args m0 anyArgs vs _ hi hS hlen hv ht hbuild hvs
    have hri : (BasicAny.ctorRef m object).2.mInstance = some p := by
      simp [BasicAny.ctorRef, BasicAny.ctorDefault, Mem.fresh, hi]
    have hrt : (BasicAny.ctorRef m object).2.mType = some D := by
      simp [BasicAny.ctorRef, BasicAny.ctorDefault, Mem.fresh, hS]
    constructor
    · intro hdir
      obtain ⟨mf, obj, ptrs, m1, hinv, hptrs, hfree, hmem, hcalls, _, _⟩ :=
        Invoke_success w f m object args hlen hv ht m0 anyArgs hbuild vs hvs (by
          rcases hdir with h | h | ⟨b, hb, hbC, _⟩
          · exact Or.inl h
          · exact Or.inr ⟨D, p, h, TryCast_direct w _ D D p hri hrt (Or.inl rfl)⟩
          · exact Or.inr ⟨b.GetType, p, hbC,
              TryCast_direct w _ b.GetType D p hri hrt (Or.inr ⟨b, hb, rfl⟩)⟩)
      refine ⟨mf, obj, ptrs, m1, hinv, hcalls, hptrs, hfree, ?_⟩
      intro hne
      cases hC : f.mParent with
      | none => exact absurd hC hne
      | some C => exact (hmem C hC).1.trans hi
    · rintro ⟨C, hC, hne, hno⟩
      obtain ⟨m1, r, h1, h2, h3, _⟩ :=
        Invoke_nomatch w f m object args hlen hv (Or.inr (by simp [hS])) m0 anyArgs hbuild
          (Or.inr ⟨C, hC, TryCast_indirect w _ C D p hri hrt hne hno⟩)
      exact ⟨m1, r, h1, h2, h3⟩

/-- C20 amended, on the registered program: the member `b` of Base, found from Derived,
is read on a Derived, whose descriptor has the Base edge to Base and whose subobject of
Base lies at the start of the object. -/
theorem member_access_needs_direct_edge_witness :
    ((∃ b ∈ (demoWorld.desc 4).mBases, b.GetType = baseB.mParent) ∧
      demoWorld.baseOffset 4 baseB.mParent = 0) ∧
    baseB.field demoWorld 4 (.obj [.num 1, .num 2]) = some (.num 1) ∧
    ∃ m1 r, baseB.Get demoWorld derivedBuilt.1 derivedBuilt.2 = some (m1, .ok r) ∧
      r.Temp derivedBuilt.1.next m1.next m1 baseB.mType (.num 1) :=
  ⟨⟨⟨⟨4, 3⟩, List.Mem.head _, rfl⟩, rfl⟩, rfl,
    ((member_access_needs_direct_edge demoWorld 3 4 "b").1 baseB derivedBuilt.1 derivedBuilt.2
      0 (.obj [.num 1, .num 2]) rfl rfl rfl rfl).1
      (Or.inr ⟨⟨⟨4, 3⟩, List.Mem.head _, rfl⟩, rfl⟩) (.num 1) rfl⟩

/-! ## A base that does not lie at the start of the object -/

/-- C7, failing input (Base.hpp 33, DataMember.hpp 48-56).  Both derives from Left and
from Right, as `std::is_base_of` confirms, and registers both Base edges, through which
`GetDataMember("r")` on Both finds the member `r` of Right; in an object of Both the
subobject of Right starts at field 1.  A non-empty container holding
`Both{1, 2, 3}` resolves to Right, the class of the member `r`: `TryCast<Right>` is the
held pointer, not adjusted.  The member `r` of the object is 2 and its member `l` is 1;
`Get` of `r` raises nothing and returns a non-empty container of the member's type that
holds 1. -/
theorem Get_ignores_base_offset :
    (layoutWorld.desc 14).mBases = [⟨14, 12⟩, ⟨14, 13⟩] ∧
    is_base_of layoutClasses 13 14 = true ∧
    TypeDescriptor.GetDataMember layoutWorld 2 14 "r" = some (some rightR) ∧
    layoutWorld.offsetOf 14 13 = 1 ∧
    bothBuilt.2.toBool = true ∧ bothBuilt.2.mType = some 14 ∧
    bothBuilt.1.deref bothBuilt.2.mInstance = some (.obj [.num 1, .num 2, .num 3]) ∧
    bothBuilt.2.TryCast layoutWorld rightR.mParent = some bothBuilt.2.mInstance ∧
    rightR.field layoutWorld 14 (.obj [.num 1, .num 2, .num 3]) = some (.num 2) ∧
    leftL.field layoutWorld 14 (.obj [.num 1, .num 2, .num 3]) = some (.num 1) ∧
    ∃ m1 r, rightR.Get layoutWorld bothBuilt.1 bothBuilt.2 = some (m1, .ok r) ∧
      r.toBool = true ∧ r.mType = some rightR.mType ∧ m1.deref r.mInstance = some (.num 1) :=
  ⟨rfl, rfl, rfl, rfl, rfl, rfl, rfl, rfl, rfl, rfl, _, _, rfl, rfl, rfl, rfl⟩

/-- C8, failing input (Base.hpp 33, DataMember.hpp 83-102).  With the classes of the
previous theorem, a caller's `Both{1, 2, 3}` passed as a non-owning reference resolves to
Right, the class of the member `r`, which is not constant, and the value `Any(9)` has the
member's type.  `Set` of `r` returns normally and leaves `Both{9, 2, 3}` in the caller's
object: the member `r` of the object is still 2, and its member `l`, another field, is 9
instead of 1.  A following `Get` of `r` returns 9, which it reads in the member `l`. -/
theorem Set_ignores_base_offset :
    (layoutWorld.desc 14).mBases = [⟨14, 12⟩, ⟨14, 13⟩] ∧
    is_base_of layoutClasses 13 14 = true ∧
    layoutWorld.offsetOf 14 13 = 1 ∧
    nineOnBoth.1.cells 0 = some (.obj [.num 1, .num 2, .num 3]) ∧
    (BasicAny.ctorRef nineOnBoth.1 bothRef).2.TryCast layoutWorld rightR.mParent
      = some (some 0) ∧
    rightR.isConst = false ∧ nineOnBoth.2.mType = some rightR.mType ∧
    nineOnBoth.1.deref nineOnBoth.2.mInstance = some (.num 9) ∧
    ∃ m1, rightR.Set layoutWorld nineOnBoth.1 bothRef nineOnBoth.2 = some (m1, .ok ()) ∧
      m1.cells 0 = some (.obj [.num 9, .num 2, .num 3]) ∧
      rightR.field layoutWorld 14 (.obj [.num 9, .num 2, .num 3]) = some (.num 2) ∧
      leftL.field layoutWorld 14 (.obj [.num 9, .num 2, .num 3]) = some (.num 9) ∧
      ∃ m2 r, rightR.Get layoutWorld m1 (BasicAny.ctorRef m1 bothRef).2 = some (m2, .ok r) ∧
        m2.deref r.mInstance = some (.num 9) :=
  ⟨rfl, rfl, rfl, rfl, rfl, rfl, rfl, rfl, _, rfl, rfl, rfl, rfl, _, _, rfl, rfl⟩

end Reflect
